import Mathlib

/-!
# ImHex content registry: a shallow embedding

The definitions below follow `lib/libimhex/source/api/content_registry.cpp` and,
for the render loop and the drop callback, `main/source/window/window.cpp`.
The registry keeps its tables in the process-wide `SharedData`; here every
operation takes the current `SharedData` and returns the next one. The settings
files are a second piece of state, passed the same way.

Two library types the registry is written against are modelled first:

* `std::map<std::string, V>`, as the list of its nodes in iteration order
  (`StdMap`);
* `nlohmann::json`, as the tagged value `Json` with the handful of member
  functions the settings code calls (`contains`, `operator[]`, `is_number`,
  `get<T>`, ...). A call that throws `nlohmann::detail::type_error` is
  `Except.error (Failure.type_error id)` with the library's error id.

Machine integers are mathematical integers with the wrap-around written out
(`toInt`, `toS64`).
-/

namespace hex

/-! ## `std::string` ordering -/

/-- Lexicographic comparison of two character sequences, as `std::string::compare`
performs it (for UTF-8 text the byte order and the code point order agree). -/
def StdString.ltChars : List Char → List Char → Bool
  | [], [] => false
  | [], _ :: _ => true
  | _ :: _, [] => false
  | a :: as, b :: bs => if a < b then true else if b < a then false else ltChars as bs

/-- The comparison `a < b` of `std::less<std::string>`, the comparator of every
`std::map<std::string, V>` in the registry. -/
def StdString.lt (a b : String) : Bool := StdString.ltChars a.data b.data

/-- Round trip `std::string(s.c_str())`: the characters before the first NUL. -/
def StdString.c_str (s : String) : String := ⟨s.data.takeWhile (fun ch => ch != Char.ofNat 0)⟩

/-! ## `std::map<std::string, V>` -/

/-- The nodes of a `std::map<std::string, V>` in iteration order. A map built by
the operations below from `[]` has strictly increasing keys. -/
abbrev StdMap (V : Type) := List (String × V)

namespace StdMap

variable {V : Type}

/-- Lookup as in `map.find(key)`: the value of the node with that key, if any. -/
def find : StdMap V → String → Option V
  | [], _ => none
  | (k, v) :: rest, key => if k = key then some v else find rest key

/-- Membership test `map.contains(key)`. -/
def contains (m : StdMap V) (key : String) : Bool := (find m key).isSome

/-- Overwrites the value of the node whose key is `key` (assignment through the
reference that `map[key]` returns for a present key). -/
def set : StdMap V → String → V → StdMap V
  | [], _, _ => []
  | (k, v) :: rest, key, val => if k = key then (k, val) :: rest else (k, v) :: set rest key val

/-- Links a new node for an absent key at its place in key order. -/
def emplace : StdMap V → String → V → StdMap V
  | [], key, val => [(key, val)]
  | (k, v) :: rest, key, val =>
      if StdString.lt key k then (key, val) :: (k, v) :: rest else (k, v) :: emplace rest key val

/-- Insertion `map.insert({key, val})`: a present key keeps its node untouched. -/
def insert (m : StdMap V) (key : String) (val : V) : StdMap V :=
  if contains m key then m else emplace m key val

/-- Assignment `map[key] = val`: overwrites a present key, creates an absent one. -/
def assign (m : StdMap V) (key : String) (val : V) : StdMap V :=
  if contains m key then set m key val else emplace m key val

/-- The keys of a map are strictly increasing in iteration order. -/
def Ordered (m : StdMap V) : Prop :=
  List.Pairwise (fun a b => StdString.lt a.1 b.1 = true) m

end StdMap

/-! ## Machine integers -/

/-- Conversion of an integer to the 32-bit `int` (modular, as C++20 defines it). -/
def toInt (v : Int) : Int := (v + 2 ^ 31) % 2 ^ 32 - 2 ^ 31

/-- Conversion of an integer to `s64` (`std::int64_t`), modular. -/
def toS64 (v : Int) : Int := (v + 2 ^ 63) % 2 ^ 64 - 2 ^ 63

/-- The values of type `s64`. -/
def isS64 (v : Int) : Prop := -(2 ^ 63) ≤ v ∧ v < 2 ^ 63

/-- The values of the 32-bit type `int`. -/
def isInt (v : Int) : Prop := -(2 ^ 31) ≤ v ∧ v < 2 ^ 31

instance (v : Int) : Decidable (isS64 v) := by unfold isS64; exact inferInstance

instance (v : Int) : Decidable (isInt v) := by unfold isInt; exact inferInstance

/-! ## `nlohmann::json` -/

/-- What a library call can do instead of returning. -/
inductive Failure where
  /-- The exception `nlohmann::detail::type_error` with its id. -/
  | type_error (id : Nat)
  /-- Behaviour the C++ standard leaves undefined. -/
  | undefined
  deriving DecidableEq, Repr

/-- A value of `nlohmann::json` (`value_t` and payload). `number_float m e` is the
finite double `m * 2 ^ e`; an object is the `std::map` of its members. -/
inductive Json where
  | null
  | boolean (b : Bool)
  | number_integer (v : Int)
  | number_unsigned (v : Nat)
  | number_float (m : Int) (e : Int)
  | string (s : String)
  | array (elements : List Json)
  | object (members : List (String × Json))

namespace Json

/-- Test `j.is_number()`: integer, unsigned or floating-point. -/
def is_number : Json → Bool
  | number_integer _ => true
  | number_unsigned _ => true
  | number_float _ _ => true
  | _ => false

/-- Test `j.is_string()`. -/
def is_string : Json → Bool
  | string _ => true
  | _ => false

/-- Test `j.is_array()`. -/
def is_array : Json → Bool
  | array _ => true
  | _ => false

/-- Test `j.is_object()`. -/
def is_object : Json → Bool
  | object _ => true
  | _ => false

/-- Test `j.is_null()`. -/
def is_null : Json → Bool
  | null => true
  | _ => false

/-- Call `j.contains(key)`: true only for an object that has the key. -/
def contains (j : Json) (key : String) : Bool :=
  match j with
  | object m => StdMap.contains m key
  | _ => false

/-- Call `j.empty()`: `null` is empty, arrays and objects are empty when they hold
nothing, every other value is not. -/
def empty : Json → Bool
  | null => true
  | array xs => xs.isEmpty
  | object m => m.isEmpty
  | _ => false

/-- Static factory `basic_json::array()` with its default argument: a new empty
array. It does not look at the value it is called through. -/
def array_factory : Json := array []

/-- Static factory `nlohmann::json::object()`: a new empty object. -/
def object_factory : Json := object []

/-- Access `j[key]` on a mutable value: the element referred to, and `j` after
the access. A `null` turns into an object, a missing key is created holding
`null`, and every value that is neither `null` nor an object throws
`type_error` 305. -/
def subscript (j : Json) (key : String) : Except Failure (Json × Json) :=
  match j with
  | null => .ok (null, object [(key, null)])
  | object m =>
      match StdMap.find m key with
      | some v => .ok (v, object m)
      | none => .ok (null, object (StdMap.emplace m key null))
  | _ => .error (.type_error 305)

/-- Write through the reference `j[key]` returned by a preceding `subscript`. -/
def writeBack (j : Json) (key : String) (v : Json) : Json :=
  match j with
  | object m => object (StdMap.set m key v)
  | other => other

/-- Statement `j[key] = v`. -/
def assign (j : Json) (key : String) (v : Json) : Except Failure Json := do
  let (_, j) ← j.subscript key
  pure (j.writeBack key v)

/-- Access `j[c][n]`: the element referred to, and `j` after both accesses. -/
def subscript2 (j : Json) (c n : String) : Except Failure (Json × Json) := do
  let (cat, j) ← j.subscript c
  let (entry, cat) ← cat.subscript n
  pure (entry, j.writeBack c cat)

/-- Statement `j[c][n] = v`. -/
def assign2 (j : Json) (c n : String) (v : Json) : Except Failure Json := do
  let (cat, j) ← j.subscript c
  let cat ← cat.assign n v
  pure (j.writeBack c cat)

/-- Access `j[idx]` with an array index on a mutable value: a `null` turns into
an array, an index past the end fills the array with `null` up to it, and every
value that is neither `null` nor an array throws `type_error` 305. -/
def subscriptAt (j : Json) (idx : Nat) : Except Failure (Json × Json) :=
  match j with
  | null => .ok (null, array (List.replicate (idx + 1) null))
  | array xs =>
      match xs.get? idx with
      | some v => .ok (v, array xs)
      | none => .ok (null, array (xs ++ List.replicate (idx + 1 - xs.length) null))
  | _ => .error (.type_error 305)

/-- Access `j[c][n][idx]`: the element referred to, and `j` after the three accesses. -/
def subscript2At (j : Json) (c n : String) (idx : Nat) : Except Failure (Json × Json) := do
  let (cat, j) ← j.subscript c
  let (entry, cat) ← cat.subscript n
  let (element, entry) ← entry.subscriptAt idx
  pure (element, j.writeBack c (cat.writeBack n entry))

/-- Truncation toward zero of the double `m * 2 ^ e`. -/
def truncFloat (m e : Int) : Int :=
  if 0 ≤ e then m * 2 ^ e.toNat else Int.tdiv m (2 ^ (-e).toNat)

/-- Conversion `j.get<s64>()`: a `static_cast` of the stored number, and
`type_error` 302 for everything that is not a number. Casting a double whose
truncation is no `s64` is undefined. -/
def get_s64 : Json → Except Failure Int
  | number_integer v => .ok v
  | number_unsigned v => .ok (toS64 v)
  | number_float m e =>
      if isS64 (truncFloat m e) then .ok (truncFloat m e) else .error .undefined
  | _ => .error (.type_error 302)

/-- Conversion `j.get<std::string>()`: `type_error` 302 unless `j` is a string. -/
def get_string : Json → Except Failure String
  | string s => .ok s
  | _ => .error (.type_error 302)

/-- Element-wise conversion used by `get<std::vector<std::string>>()`. -/
def get_strings : List Json → Except Failure (List String)
  | [] => .ok []
  | x :: xs => do
      let s ← x.get_string
      let rest ← get_strings xs
      pure (s :: rest)

/-- Conversion `j.get<std::vector<std::string>>()`: `type_error` 302 unless `j` is
an array all of whose elements are strings. -/
def get_string_vector : Json → Except Failure (List String)
  | array xs => get_strings xs
  | _ => .error (.type_error 302)

/-- Construction of a `json` from a `std::vector<std::string>`: an array of strings. -/
def of_string_vector (v : List String) : Json := array (v.map string)

/-- Read-only view of member `key` of an object (no access side effect). -/
def member (j : Json) (key : String) : Option Json :=
  match j with
  | object m => StdMap.find m key
  | _ => none

/-- Read-only view of the entry stored under category `c` and name `n`:
`some v` exactly when `j.contains(c)` and `j[c].contains(n)`, with `v` the value
of `j[c][n]`. -/
def entry (j : Json) (c n : String) : Option Json :=
  match j.member c with
  | some cat => cat.member n
  | none => none

end Json

/-! ## `std::vector` -/

/-- Member `v.push_back(x)` (and `emplace_back`): the elements of `v`, then `x`. -/
def StdVector.push_back {α : Type} (v : List α) (x : α) : List α := v ++ [x]

/-! ## `SharedData`: the registry tables -/

/-- Handle of a callable object (`std::function`, lambda or function pointer). -/
abbrev Callback := Nat

/-- A `View *`: the address of the view object and what its
`getUnlocalizedName()` returns. -/
structure View where
  address : Nat
  unlocalizedName : String
  deriving DecidableEq, Repr

namespace ContentRegistry

/-- Entry of the settings interface table (`Settings::Entry`). -/
structure Settings.Entry where
  name : String
  callback : Callback
  deriving DecidableEq, Repr

/-- Entry of the command palette table (`CommandPaletteCommands::Entry`); `type`
is the enumerator of `CommandPaletteCommands::Type`. -/
structure CommandPaletteCommands.Entry where
  type : Nat
  command : String
  unlocalizedDescription : String
  displayCallback : Callback
  executeCallback : Callback
  deriving DecidableEq, Repr

/-- Value of the pattern language function table (`PatternLanguage::Function`). -/
structure PatternLanguage.Function where
  parameterCount : Nat
  func : Callback
  dangerous : Bool
  deriving DecidableEq, Repr

/-- Entry of the tools table (`Tools::impl::Entry`). -/
structure Tools.Entry where
  name : String
  function : Callback
  deriving DecidableEq, Repr

/-- Entry of the data inspector table (`DataInspector::impl::Entry`). -/
structure DataInspector.Entry where
  unlocalizedName : String
  requiredSize : Nat
  generatorFunction : Callback
  deriving DecidableEq, Repr

/-- Entry of the data processor node table (`DataProcessorNode::impl::Entry`). -/
structure DataProcessorNode.Entry where
  category : String
  name : String
  creatorFunction : Callback
  deriving DecidableEq, Repr

/-- Entry of the main menu table (`Interface::impl::MainMenuItem`). -/
structure Interface.MainMenuItem where
  unlocalizedName : String
  function : Callback
  deriving DecidableEq, Repr

/-- Entry of the layout table (`Interface::impl::Layout`). -/
structure Interface.Layout where
  unlocalizedName : String
  function : Callback
  deriving DecidableEq, Repr

/-- Entry of the data formatter table (`DataFormatter::impl::Entry`). -/
structure DataFormatter.Entry where
  unlocalizedName : String
  callback : Callback
  deriving DecidableEq, Repr

/-- Entry of the file handler table (`FileHandler::impl::Entry`). -/
structure FileHandler.Entry where
  extensions : List String
  callback : Callback
  deriving DecidableEq, Repr

end ContentRegistry

/-- The static members of `SharedData` that `content_registry.cpp` reads and
writes. A `std::vector` is the list of its elements, a `std::map` a `StdMap`. -/
structure SharedData where
  settingsJson : Json
  settingsEntries : StdMap (List ContentRegistry.Settings.Entry)
  commandPaletteCommands : List ContentRegistry.CommandPaletteCommands.Entry
  patternLanguageFunctions : StdMap ContentRegistry.PatternLanguage.Function
  views : StdMap View
  toolsEntries : List ContentRegistry.Tools.Entry
  dataInspectorEntries : List ContentRegistry.DataInspector.Entry
  dataProcessorNodes : List ContentRegistry.DataProcessorNode.Entry
  languageNames : StdMap String
  mainMenuItems : List ContentRegistry.Interface.MainMenuItem
  welcomeScreenEntries : List Callback
  footerItems : List Callback
  toolbarItems : List Callback
  layouts : List ContentRegistry.Interface.Layout
  providerNames : List String
  dataFormatters : List ContentRegistry.DataFormatter.Entry
  fileHandlers : List ContentRegistry.FileHandler.Entry

/-- The tables at process start: every container empty, the settings document a
default-constructed `nlohmann::json` (`null`). -/
def SharedData.start : SharedData :=
  ⟨Json.null, [], [], [], [], [], [], [], [], [], [], [], [], [], [], [], []⟩

/-- The tables at process start with `json` as the settings document, as after
`Settings::load()` read it from a settings file. -/
def SharedData.loaded (json : Json) : SharedData :=
  { SharedData.start with settingsJson := json }

namespace ContentRegistry

/-! ## Settings -/

namespace Settings

/-- Accessor `Settings::getSettingsData()`. -/
def getSettingsData (s : SharedData) : Json := s.settingsJson

/-- Accessor `Settings::getEntries()`. -/
def getEntries (s : SharedData) : StdMap (List Entry) := s.settingsEntries

/-- The statement `getEntries()[category].emplace_back(Entry{ name, callback })`:
`operator[]` of the map creates an empty vector for a new category. -/
def registerEntry (unlocalizedCategory unlocalizedName : String) (callback : Callback)
    (s : SharedData) : SharedData :=
  let entries := (StdMap.find s.settingsEntries unlocalizedCategory).getD []
  let entries := StdVector.push_back entries ⟨unlocalizedName, callback⟩
  { s with settingsEntries := StdMap.assign s.settingsEntries unlocalizedCategory entries }

/-- The statement
`if (!json.contains(category)) json[category] = nlohmann::json::object();`
with which every `add` and `write` overload starts. -/
def ensureCategory (json : Json) (unlocalizedCategory : String) : Except Failure Json :=
  if !json.contains unlocalizedCategory
  then json.assign unlocalizedCategory Json.object_factory else pure json

/-- Overload `Settings::add(category, name, s64 defaultValue, callback)`. The
interface entry is registered under `category.c_str()` and `name.c_str()`, and the
stored default is `int(defaultValue)`. -/
def add_s64 (unlocalizedCategory unlocalizedName : String) (defaultValue : Int)
    (callback : Callback) (s : SharedData) : Except Failure SharedData := do
  let s := registerEntry (StdString.c_str unlocalizedCategory)
    (StdString.c_str unlocalizedName) callback s
  let json := getSettingsData s
  let json ← ensureCategory json unlocalizedCategory
  let (cat, json) ← json.subscript unlocalizedCategory
  let (stale, json) ← if !cat.contains unlocalizedName then pure (true, json) else do
    let (entry, json) ← json.subscript2 unlocalizedCategory unlocalizedName
    pure (!entry.is_number, json)
  let json ← if stale
    then json.assign2 unlocalizedCategory unlocalizedName (.number_integer (toInt defaultValue))
    else pure json
  pure { s with settingsJson := json }

/-- Overload `Settings::add(category, name, const std::string &defaultValue, callback)`. -/
def add_string (unlocalizedCategory unlocalizedName : String) (defaultValue : String)
    (callback : Callback) (s : SharedData) : Except Failure SharedData := do
  let s := registerEntry unlocalizedCategory unlocalizedName callback s
  let json := getSettingsData s
  let json ← ensureCategory json unlocalizedCategory
  let (cat, json) ← json.subscript unlocalizedCategory
  let (stale, json) ← if !cat.contains unlocalizedName then pure (true, json) else do
    let (entry, json) ← json.subscript2 unlocalizedCategory unlocalizedName
    pure (!entry.is_string, json)
  let json ← if stale
    then json.assign2 unlocalizedCategory unlocalizedName (.string defaultValue)
    else pure json
  pure { s with settingsJson := json }

/-- Overload `Settings::write(category, name, s64 value)`. -/
def write_s64 (unlocalizedCategory unlocalizedName : String) (value : Int)
    (s : SharedData) : Except Failure SharedData := do
  let json := getSettingsData s
  let json ← ensureCategory json unlocalizedCategory
  let json ← json.assign2 unlocalizedCategory unlocalizedName (.number_integer value)
  pure { s with settingsJson := json }

/-- Overload `Settings::write(category, name, const std::string &value)`. -/
def write_string (unlocalizedCategory unlocalizedName : String) (value : String)
    (s : SharedData) : Except Failure SharedData := do
  let json := getSettingsData s
  let json ← ensureCategory json unlocalizedCategory
  let json ← json.assign2 unlocalizedCategory unlocalizedName (.string value)
  pure { s with settingsJson := json }

/-- Overload `Settings::write(category, name, const std::vector<std::string> &value)`. -/
def write_vector (unlocalizedCategory unlocalizedName : String) (value : List String)
    (s : SharedData) : Except Failure SharedData := do
  let json := getSettingsData s
  let json ← ensureCategory json unlocalizedCategory
  let json ← json.assign2 unlocalizedCategory unlocalizedName (Json.of_string_vector value)
  pure { s with settingsJson := json }

/-- Overload `s64 Settings::read(category, name, s64 defaultValue)`: the value
returned and the tables after the call. -/
def read_s64 (unlocalizedCategory unlocalizedName : String) (defaultValue : Int)
    (s : SharedData) : Except Failure (Int × SharedData) := do
  let json := getSettingsData s
  if !json.contains unlocalizedCategory then
    pure (defaultValue, s)
  else
    let (cat, json) ← json.subscript unlocalizedCategory
    if !cat.contains unlocalizedName then
      pure (defaultValue, { s with settingsJson := json })
    else
      let (entry, json) ← json.subscript2 unlocalizedCategory unlocalizedName
      let json ← if !entry.is_number
        then json.assign2 unlocalizedCategory unlocalizedName (.number_integer defaultValue)
        else pure json
      let (entry, json) ← json.subscript2 unlocalizedCategory unlocalizedName
      let result ← entry.get_s64
      pure (result, { s with settingsJson := json })

/-- Overload `std::string Settings::read(category, name, const std::string &defaultValue)`. -/
def read_string (unlocalizedCategory unlocalizedName : String) (defaultValue : String)
    (s : SharedData) : Except Failure (String × SharedData) := do
  let json := getSettingsData s
  if !json.contains unlocalizedCategory then
    pure (defaultValue, s)
  else
    let (cat, json) ← json.subscript unlocalizedCategory
    if !cat.contains unlocalizedName then
      pure (defaultValue, { s with settingsJson := json })
    else
      let (entry, json) ← json.subscript2 unlocalizedCategory unlocalizedName
      let json ← if !entry.is_string
        then json.assign2 unlocalizedCategory unlocalizedName (.string defaultValue)
        else pure json
      let (entry, json) ← json.subscript2 unlocalizedCategory unlocalizedName
      let result ← entry.get_string
      pure (result, { s with settingsJson := json })

/-- Overload `std::vector<std::string> Settings::read(category, name, const
std::vector<std::string> &defaultValue)`. In the second test the call
`json[category][name].array()` evaluates `json[category][name]` and then runs the
static factory `basic_json::array()`, so `empty()` is asked of a new array; the
right operand of `&&` is evaluated only when the left one is true. -/
def read_vector (unlocalizedCategory unlocalizedName : String) (defaultValue : List String)
    (s : SharedData) : Except Failure (List String × SharedData) := do
  let json := getSettingsData s
  if !json.contains unlocalizedCategory then
    pure (defaultValue, s)
  else
    let (cat, json) ← json.subscript unlocalizedCategory
    if !cat.contains unlocalizedName then
      pure (defaultValue, { s with settingsJson := json })
    else
      let (entry, json) ← json.subscript2 unlocalizedCategory unlocalizedName
      let json ← if !entry.is_array
        then json.assign2 unlocalizedCategory unlocalizedName (Json.of_string_vector defaultValue)
        else pure json
      let (_, json) ← json.subscript2 unlocalizedCategory unlocalizedName
      let (stale, json) ← if !Json.array_factory.empty then do
          let (first, json) ← json.subscript2At unlocalizedCategory unlocalizedName 0
          pure (!first.is_string, json)
        else pure (false, json)
      let json ← if stale
        then json.assign2 unlocalizedCategory unlocalizedName (Json.of_string_vector defaultValue)
        else pure json
      let (entry, json) ← json.subscript2 unlocalizedCategory unlocalizedName
      let result ← entry.get_string_vector
      pure (result, { s with settingsJson := json })

/-- Function `Settings::getSetting(category, name)`: a copy of the stored value, or
`null` (`return { }`) when the category or the name is absent. -/
def getSetting (unlocalizedCategory unlocalizedName : String)
    (s : SharedData) : Except Failure (Json × SharedData) := do
  let settings := getSettingsData s
  if !settings.contains unlocalizedCategory then
    pure (.null, s)
  else
    let (cat, settings) ← settings.subscript unlocalizedCategory
    if !cat.contains unlocalizedName then
      pure (.null, { s with settingsJson := settings })
    else
      let (entry, settings) ← settings.subscript2 unlocalizedCategory unlocalizedName
      pure (entry, { s with settingsJson := settings })

/-- The shape `add` and `write` are written for: the document is still `null` or is
an object, and the category, when the document has it, is an object (or `null`,
which `operator[]` turns into one). -/
def categoryUsable (json : Json) (unlocalizedCategory : String) : Bool :=
  match json with
  | .null => true
  | .object m =>
      match StdMap.find m unlocalizedCategory with
      | none => true
      | some cat => cat.is_object || cat.is_null
  | _ => false

end Settings

/-! ## Command palette commands -/

namespace CommandPaletteCommands

/-- Accessor `CommandPaletteCommands::getEntries()`. -/
def getEntries (s : SharedData) : List Entry := s.commandPaletteCommands

/-- Function `CommandPaletteCommands::add(type, command, description, display, execute)`. -/
def add (type : Nat) (command unlocalizedDescription : String)
    (displayCallback executeCallback : Callback) (s : SharedData) : SharedData :=
  let entry : Entry := ⟨type, command, unlocalizedDescription, displayCallback, executeCallback⟩
  { s with commandPaletteCommands := StdVector.push_back (getEntries s) entry }

end CommandPaletteCommands

/-! ## Views -/

namespace Views

/-- Accessor `Views::getEntries()`: the `std::map<std::string, View*>`. -/
def getEntries (s : SharedData) : StdMap View := s.views

/-- Function `Views::impl::add(View *view)`:
`getEntries().insert({ view->getUnlocalizedName(), view })`. -/
def impl.add (view : View) (s : SharedData) : SharedData :=
  { s with views := StdMap.insert (getEntries s) view.unlocalizedName view }

/-- The node `Views::impl::add` inserts for a view. -/
def node (view : View) : String × View := (view.unlocalizedName, view)

/-- Adds the views of a sequence one after the other, first element first. -/
def addAll (views : List View) (s : SharedData) : SharedData :=
  views.foldl (fun acc view => impl.add view acc) s

end Views

/-! ## Tools -/

namespace Tools

/-- Accessor `Tools::getEntries()`. -/
def getEntries (s : SharedData) : List Entry := s.toolsEntries

/-- Function `Tools::add(unlocalizedName, function)`. -/
def add (unlocalizedName : String) (function : Callback) (s : SharedData) : SharedData :=
  { s with toolsEntries := StdVector.push_back (getEntries s) ⟨unlocalizedName, function⟩ }

end Tools

/-! ## Data inspector -/

namespace DataInspector

/-- Accessor `DataInspector::getEntries()`. -/
def getEntries (s : SharedData) : List Entry := s.dataInspectorEntries

/-- Function `DataInspector::add(unlocalizedName, requiredSize, function)`. -/
def add (unlocalizedName : String) (requiredSize : Nat) (function : Callback)
    (s : SharedData) : SharedData :=
  let entry : Entry := ⟨unlocalizedName, requiredSize, function⟩
  { s with dataInspectorEntries := StdVector.push_back (getEntries s) entry }

end DataInspector

/-! ## Data processor nodes -/

namespace DataProcessorNode

/-- Accessor `DataProcessorNode::getEntries()`. -/
def getEntries (s : SharedData) : List Entry := s.dataProcessorNodes

/-- Function `DataProcessorNode::impl::add(entry)`. -/
def impl.add (entry : Entry) (s : SharedData) : SharedData :=
  { s with dataProcessorNodes := StdVector.push_back (getEntries s) entry }

/-- Handle of the lambda `[]{ return nullptr; }` that `addSeparator` registers. -/
def separatorCreator : Callback := 0

/-- Function `DataProcessorNode::addSeparator()`. -/
def addSeparator (s : SharedData) : SharedData :=
  { s with dataProcessorNodes := StdVector.push_back (getEntries s) ⟨"", "", separatorCreator⟩ }

end DataProcessorNode

/-! ## Interface -/

namespace Interface

/-- Accessor `Interface::getMainMenuItems()`. -/
def getMainMenuItems (s : SharedData) : List MainMenuItem := s.mainMenuItems

/-- Accessor `Interface::getWelcomeScreenEntries()`. -/
def getWelcomeScreenEntries (s : SharedData) : List Callback := s.welcomeScreenEntries

/-- Accessor `Interface::getFooterItems()`. -/
def getFooterItems (s : SharedData) : List Callback := s.footerItems

/-- Accessor `Interface::getToolbarItems()`. -/
def getToolbarItems (s : SharedData) : List Callback := s.toolbarItems

/-- Accessor `Interface::getLayouts()`. -/
def getLayouts (s : SharedData) : List Layout := s.layouts

/-- Function `Interface::registerMainMenuItem(unlocalizedName, function)`. -/
def registerMainMenuItem (unlocalizedName : String) (function : Callback)
    (s : SharedData) : SharedData :=
  { s with mainMenuItems := StdVector.push_back (getMainMenuItems s) ⟨unlocalizedName, function⟩ }

/-- Function `Interface::addWelcomeScreenEntry(function)`. -/
def addWelcomeScreenEntry (function : Callback) (s : SharedData) : SharedData :=
  { s with welcomeScreenEntries := StdVector.push_back (getWelcomeScreenEntries s) function }

/-- Function `Interface::addFooterItem(function)`. -/
def addFooterItem (function : Callback) (s : SharedData) : SharedData :=
  { s with footerItems := StdVector.push_back (getFooterItems s) function }

/-- Function `Interface::addToolbarItem(function)`. -/
def addToolbarItem (function : Callback) (s : SharedData) : SharedData :=
  { s with toolbarItems := StdVector.push_back (getToolbarItems s) function }

/-- Function `Interface::addLayout(unlocalizedName, function)`. -/
def addLayout (unlocalizedName : String) (function : Callback) (s : SharedData) : SharedData :=
  { s with layouts := StdVector.push_back (getLayouts s) ⟨unlocalizedName, function⟩ }

end Interface

/-! ## Providers -/

namespace Provider

/-- Accessor `Provider::getEntries()`. -/
def getEntries (s : SharedData) : List String := s.providerNames

/-- Function `Provider::impl::addProviderName(unlocalizedName)`. -/
def impl.addProviderName (unlocalizedName : String) (s : SharedData) : SharedData :=
  { s with providerNames := StdVector.push_back s.providerNames unlocalizedName }

end Provider

/-! ## Data formatters -/

namespace DataFormatter

/-- Accessor `DataFormatter::getEntries()`. -/
def getEntries (s : SharedData) : List Entry := s.dataFormatters

/-- Function `DataFormatter::add(unlocalizedName, callback)`. -/
def add (unlocalizedName : String) (callback : Callback) (s : SharedData) : SharedData :=
  { s with dataFormatters := StdVector.push_back (getEntries s) ⟨unlocalizedName, callback⟩ }

end DataFormatter

/-! ## File handlers -/

namespace FileHandler

/-- Accessor `FileHandler::getEntries()`. -/
def getEntries (s : SharedData) : List Entry := s.fileHandlers

/-- Function `FileHandler::add(extensions, callback)`. -/
def add (extensions : List String) (callback : Callback) (s : SharedData) : SharedData :=
  { s with fileHandlers := StdVector.push_back (getEntries s) ⟨extensions, callback⟩ }

end FileHandler

end ContentRegistry

/-! ## The render loop of `Window::frame` -/

/-- The views in the order in which the loop
`for (auto &[name, view] : ContentRegistry::Views::getEntries())` of `Window::frame`
visits them: the iteration order of the map. -/
def Window.frameViews (s : SharedData) : List View :=
  (ContentRegistry.Views.getEntries s).map Prod.snd

namespace ContentRegistry

/-! ## Pattern language functions -/

namespace PatternLanguage

/-- Accessor `PatternLanguage::getFunctions()`: the
`std::map<std::string, PatternLanguage::Function>`. -/
def getFunctions (s : SharedData) : StdMap Function := s.patternLanguageFunctions

/-- Function `getFunctionName(ns, name)`: every scope of the namespace followed by
`"::"` is appended to an empty string, then the name is. -/
def getFunctionName (ns : List String) (name : String) : String :=
  let functionName := ns.foldl (fun functionName scope => functionName ++ (scope ++ "::")) ""
  functionName ++ name

/-- The namespaced name as the specification words it: the scope segments and the
function name joined by the separator `"::"`. -/
def joinedName (ns : List String) (name : String) : String :=
  "::".intercalate (ns ++ [name])

/-- Function `PatternLanguage::addFunction(ns, name, parameterCount, func)`. -/
def addFunction (ns : List String) (name : String) (parameterCount : Nat) (func : Callback)
    (s : SharedData) : SharedData :=
  let function : Function := ⟨parameterCount, func, false⟩
  { s with patternLanguageFunctions :=
             StdMap.assign (getFunctions s) (getFunctionName ns name) function }

/-- Function `PatternLanguage::addDangerousFunction(ns, name, parameterCount, func)`. -/
def addDangerousFunction (ns : List String) (name : String) (parameterCount : Nat)
    (func : Callback) (s : SharedData) : SharedData :=
  let function : Function := ⟨parameterCount, func, true⟩
  { s with patternLanguageFunctions :=
             StdMap.assign (getFunctions s) (getFunctionName ns name) function }

end PatternLanguage

/-! ## Views: lookup by name -/

namespace Views

/-- Function `Views::getViewByName(unlocalizedName)`: the view returned (`none` is
`nullptr`) and the tables after the call. `views[unlocalizedName]` is evaluated
for a present key only, where `operator[]` is a lookup that leaves the map as it
is. -/
def getViewByName (unlocalizedName : String) (s : SharedData) : Option View × SharedData :=
  let views := getEntries s
  if StdMap.contains views unlocalizedName then
    (StdMap.find views unlocalizedName, s)
  else
    (none, s)

end Views

/-! ## Settings: persistence -/

namespace Settings

/-- The file `dir / "settings.json"` of one candidate directory: its text when the
file exists, whether a `std::ifstream` on the existing file is `good()`, and
whether a `std::ofstream` on the path is `good()` (creating the file when there
is none). -/
structure SettingsFile (Text : Type) where
  content : Option Text
  readable : Bool
  writable : Bool

/-- The settings files of the file system, by candidate directory. -/
abbrev FileSystem (Text : Type) := String → SettingsFile Text

/-- The text form of documents, which the json library provides:
`stream << json` writes `dump json`, `stream >> json` replaces `json` by the
parsed text or throws. -/
structure JsonText (Text : Type) where
  dump : Json → Text
  parse : Text → Except Failure Json

variable {Text : Type}

/-- Construction `std::ifstream settingsFile(dir / "settings.json")`: the text to
read when the stream is `good()`. -/
def openInput (files : FileSystem Text) (dir : String) : Option Text :=
  if (files dir).readable then (files dir).content else none

/-- A `good()` `std::ofstream settingsFile(dir / "settings.json", std::ios::trunc)`
followed by `settingsFile << json`: the file holds the written text and nothing
else. -/
def writeFile (files : FileSystem Text) (dir : String) (text : Text) : FileSystem Text :=
  fun d => if d = dir then { files d with content := some text } else files d

/-- Function `Settings::store()`; `configPaths` is `hex::getPath(ImHexPath::Config)`. -/
def store (codec : JsonText Text) (configPaths : List String) (s : SharedData)
    (files : FileSystem Text) : FileSystem Text :=
  match configPaths with
  | [] => files
  | dir :: rest =>
      if (files dir).writable then
        writeFile files dir (codec.dump (getSettingsData s))
      else
        store codec rest s files

/-- The loop of `Settings::load()` over the candidate directories still to visit:
the document read, if a file opened, and the directories whose `settings.json`
the loop tried to open, in order. -/
def load.scan (codec : JsonText Text) (files : FileSystem Text) :
    List String → Except Failure (Option Json × List String)
  | [] => .ok (none, [])
  | dir :: rest =>
      match openInput files dir with
      | some text => do
          let json ← codec.parse text
          pure (some json, [dir])
      | none => do
          let (loaded, opened) ← load.scan codec files rest
          pure (loaded, dir :: opened)

/-- What `Settings::load()` leaves behind. -/
structure Loaded (Text : Type) where
  data : SharedData
  files : FileSystem Text
  opened : List String

/-- Function `Settings::load()`; `configPaths` is `hex::getPath(ImHexPath::Config)`.
The result holds the tables, the file system, and the directories whose
`settings.json` was opened for reading. -/
def load (codec : JsonText Text) (configPaths : List String) (s : SharedData)
    (files : FileSystem Text) : Except Failure (Loaded Text) := do
  let (loaded, opened) ← load.scan codec files configPaths
  match loaded with
  | some json => pure ⟨{ s with settingsJson := json }, files, opened⟩
  | none => pure ⟨s, store codec configPaths s files, opened⟩

/-- The json library's text form with documents themselves as the text: what is
written is read back as it is. -/
def JsonText.exact : JsonText Json := ⟨fun json => json, fun text => .ok text⟩

end Settings

end ContentRegistry

/-! ## Dropped files (`glfwSetDropCallback` in `Window::initGLFW`) -/

/-- Member `std::filesystem::path::filename()` for a path in generic format: what
follows the last `/`. -/
def StdPath.filename (path : List Char) : List Char :=
  (path.reverse.takeWhile (fun ch => ch != '/')).reverse

/-- Member `std::filesystem::path::extension()` as a string: for a file name other
than `.` and `..` that has a period after its first character, the part from the
last period on; empty otherwise. -/
def StdPath.extension (path : String) : String :=
  let name := StdPath.filename path.data
  let tail := (name.reverse.takeWhile (fun ch => ch != '.')).reverse
  if name = ['.', '.'] then ""
  else if tail.length + 1 < name.length then ⟨'.' :: tail⟩
  else ""

namespace Window

/-- What the drop callback does that is visible outside it. -/
inductive DropEvent where
  /-- The call `handler(path)` of a registered file handler. -/
  | handlerCalled (handler : Callback) (path : String)
  /-- The call `View::showMessagePopup("hex.message.file_handler_failed"_lang)`. -/
  | showMessagePopup
  /-- The call `EventManager::post<RequestOpenFile>(path.string())`. -/
  | requestOpenFile (path : String)
  deriving DecidableEq, Repr

/-- The loop over the extensions of one file handler: the events, and whether
`handled` was set. The first extension equal to `path.extension()` calls the
handler and leaves the loop (`break`). `result` is what a handler returns. -/
def dropExtensions (result : Callback → String → Bool) (path : String) (handler : Callback) :
    List String → List DropEvent × Bool
  | [] => ([], false)
  | extension :: rest =>
      if StdPath.extension path = extension then
        (DropEvent.handlerCalled handler path ::
          (if !result handler path then [DropEvent.showMessagePopup] else []), true)
      else
        dropExtensions result path handler rest

/-- The loop over `ContentRegistry::FileHandler::getEntries()`: the events, and
`handled` after the loop. -/
def dropHandlers (result : Callback → String → Bool) (path : String) :
    List ContentRegistry.FileHandler.Entry → Bool → List DropEvent × Bool
  | [], handled => ([], handled)
  | entry :: rest, handled =>
      let (events, set) := dropExtensions result path entry.callback entry.extensions
      let (later, handled) := dropHandlers result path rest (handled || set)
      (events ++ later, handled)

/-- The drop callback for the dropped `paths` (`count` is their number). -/
def dropCallback (result : Callback → String → Bool) (paths : List String)
    (s : SharedData) : List DropEvent :=
  if paths.length != 1 then []
  else
    paths.flatMap fun path =>
      let (events, handled) :=
        dropHandlers result path (ContentRegistry.FileHandler.getEntries s) false
      events ++ (if !handled then [DropEvent.requestOpenFile path] else [])

/-- The handlers called, in the order of the calls. -/
def handlersCalled : List DropEvent → List Callback
  | [] => []
  | DropEvent.handlerCalled handler _ :: rest => handler :: handlersCalled rest
  | _ :: rest => handlersCalled rest

end Window

/-! ## The data provider -/

/-- The part of a data provider (`hex::prv::Provider`, a class declared outside
these sources) that the hex editor relies on, taken as given: the bytes of the
current page, whose number is `getSize()`, the base address and the address of
the current page. -/
structure Provider where
  bytes : List Nat
  baseAddress : Nat
  currentPageAddress : Nat
  deriving DecidableEq, Repr

namespace Provider

/-- Member `provider->getSize()`. -/
def getSize (p : Provider) : Nat := p.bytes.length

/-- Member `provider->getBaseAddress()`. -/
def getBaseAddress (p : Provider) : Nat := p.baseAddress

/-- Member `provider->getCurrentPageAddress()`. -/
def getCurrentPageAddress (p : Provider) : Nat := p.currentPageAddress

/-- Member `provider->read(address, buffer, size)`, taken as given: the first
`size` bytes of `buffer` become the bytes of the page from
`address - getBaseAddress() - getCurrentPageAddress()` on; a range that is not
inside the page leaves the buffer as it is. The provider is not changed. -/
def read (p : Provider) (address size : Nat) (buffer : List Nat) : List Nat :=
  let offset := address - (p.baseAddress + p.currentPageAddress)
  if p.baseAddress + p.currentPageAddress ≤ address ∧ offset + size ≤ p.bytes.length then
    (p.bytes.drop offset).take size ++ buffer.drop size
  else
    buffer

end Provider

/-! ## The hex editor view (`view_hexeditor.cpp`) -/

/-- Conversion of an integer to `u64`, modular. -/
def toU64 (v : Int) : Nat := (v % 2 ^ 64).toNat

namespace ViewHexEditor

/-- Function `std::isxdigit(c)` for an ASCII character. -/
def isxdigit (c : Char) : Bool :=
  ('0' ≤ c && c ≤ '9') || ('a' ≤ c && c ≤ 'f') || ('A' ≤ c && c ≤ 'F')

/-- Function `std::isspace(c)` in the C locale: space, `\t`, `\n`, `\v`, `\f`, `\r`. -/
def isspace (c : Char) : Bool :=
  c = ' ' || (9 ≤ c.toNat && c.toNat ≤ 13)

/-- The upper-case hexadecimal digit of a value below 16. -/
def hexDigit (n : Nat) : Char :=
  if n < 10 then Char.ofNat (48 + n) else Char.ofNat (55 + n)

/-- The text `hex::format("{0:02X} ", byte)`: two upper-case digits and a space. -/
def formatByte (byte : Nat) : List Char :=
  [hexDigit (byte / 16 % 16), hexDigit (byte % 16), ' ']

/-- The loop of `copyBytes` that appends the text of every byte of the buffer. -/
def formatBytes : List Nat → List Char
  | [] => []
  | byte :: rest => formatByte byte ++ formatBytes rest

/-- Function `ViewHexEditor::copyBytes()`: the text passed to
`ImGui::SetClipboardText`. `dataPreviewAddr` and `dataPreviewAddrEnd` are the two
ends of the selection. -/
def copyBytes (p : Provider) (dataPreviewAddr dataPreviewAddrEnd : Nat) : String :=
  let start := min dataPreviewAddr dataPreviewAddrEnd
  let stop := max dataPreviewAddr dataPreviewAddrEnd
  let copySize := (stop - start) + 1
  let buffer := List.replicate copySize 0
  let buffer := p.read (start + p.getBaseAddress + p.getCurrentPageAddress) buffer.length buffer
  let str := formatBytes buffer
  ⟨str.dropLast⟩

/-- One round of the inner loop of `pasteBytes`: `byte <<= 4` on a `u8`, then the
value of the digit `c` is or-ed in. -/
def pasteDigit (byte : Nat) (c : Char) : Nat :=
  let byte := (byte <<< 4) % 256
  if '0' ≤ c && c ≤ '9' then (byte ||| (c.toNat - '0'.toNat)) % 256
  else if 'a' ≤ c && c ≤ 'f' then (byte ||| ((c.toNat - 'a'.toNat) + 10)) % 256
  else if 'A' ≤ c && c ≤ 'F' then (byte ||| ((c.toNat - 'A'.toNat) + 10)) % 256
  else byte

/-- The loop of `pasteBytes` that turns the digits into bytes, two digits a byte:
the buffer has `clipboard.length() / 2` bytes. -/
def pasteDecode : List Char → List Nat
  | c1 :: c2 :: rest => pasteDigit (pasteDigit 0 c1) c2 :: pasteDecode rest
  | _ => []

/-- The part of `pasteBytes` before the provider is used: `none` when the function
returns early (a character that is neither a digit nor white space, or an odd
number of digits), else the decoded buffer. -/
def pasteParse (clipboard : String) : Option (List Nat) :=
  let isValidHexString := clipboard.data.all (fun c => !(!isxdigit c && !isspace c))
  if !isValidHexString then none
  else
    let digits := clipboard.data.filter (fun c => !isspace c)
    if digits.length % 2 != 0 then none
    else some (pasteDecode digits)

/-- Function `ViewHexEditor::pasteBytes()`: the provider after the call, and the
local buffer at the end (`none` after an early return). The last statement is
`provider->read(start + base + page, buffer.data(), min(end - start + 1,
buffer.size()))`. -/
def pasteBytes (p : Provider) (dataPreviewAddr dataPreviewAddrEnd : Nat) (clipboard : String) :
    Provider × Option (List Nat) :=
  let start := min dataPreviewAddr dataPreviewAddrEnd
  let stop := max dataPreviewAddr dataPreviewAddrEnd
  match pasteParse clipboard with
  | none => (p, none)
  | some buffer =>
      let buffer := p.read (start + p.getBaseAddress + p.getCurrentPageAddress)
        (min (stop - start + 1) buffer.length) buffer
      (p, some buffer)

/-- The comparison `buffer[i] == string[foundCharacters]` of a `u8` with a `char`,
both promoted to `int`; `signedChar` says whether `char` is signed. -/
def charEquals (signedChar : Bool) (byte ch : Nat) : Bool :=
  decide ((byte : Int) = if signedChar && decide (128 ≤ ch) then (ch : Int) - 256 else (ch : Int))

/-- The variables of `findString` that the loops change. -/
structure Search where
  foundCharacters : Nat
  results : List (Nat × Nat)
  deriving DecidableEq, Repr

/-- The body of the inner loop of `findString` for the index `i` of the chunk read
at `offset`; `string` holds the characters of the pattern as bytes, and
`string[string.size()]` is the terminating zero. -/
def findString.visit (signedChar : Bool) (string : List Nat) (offset : Nat) (buffer : List Nat)
    (st : Search) (i : Nat) : Search :=
  let foundCharacters :=
    if charEquals signedChar (buffer.getD i 0) (string.getD st.foundCharacters 0)
    then (st.foundCharacters + 1) % 2 ^ 32 else 0
  if foundCharacters = string.length then
    let first := toU64 (((offset + i : Nat) : Int) - (foundCharacters : Int) + 1)
    ⟨0, StdVector.push_back st.results (first, offset + i)⟩
  else
    ⟨foundCharacters, st.results⟩

/-- The body of the outer loop of `findString` for the chunk number `k`, read at
`offset = 1024 * k`: the buffer and the variables after the chunk. -/
def findString.chunk (signedChar : Bool) (string : List Nat) (p : Provider)
    (state : List Nat × Search) (k : Nat) : List Nat × Search :=
  let offset := 1024 * k
  let usedBufferSize := min state.1.length (p.getSize - offset)
  let buffer := p.read (offset + p.getBaseAddress + p.getCurrentPageAddress)
    usedBufferSize state.1
  (buffer, (List.range usedBufferSize).foldl (findString.visit signedChar string offset buffer)
    state.2)

/-- Function `findString(provider, string)`: the loop
`for (offset = 0; offset < dataSize; offset += 1024)` runs for the chunk numbers
below `(dataSize + 1023) / 1024`. -/
def findString (signedChar : Bool) (p : Provider) (string : List Nat) : List (Nat × Nat) :=
  let dataSize := p.getSize
  let state := (List.range ((dataSize + 1023) / 1024)).foldl
    (findString.chunk signedChar string p) (List.replicate 1024 0, ⟨0, []⟩)
  state.2.results

end ViewHexEditor

/-! ## The highlight callback of the hex editor -/

namespace ViewHexEditor

/-- An entry of `ImHexApi::Bookmarks::getEntries()`: the region, the texts, the
colour and the lock. -/
structure Bookmark where
  address : Nat
  size : Nat
  name : String
  comment : String
  color : Nat
  locked : Bool

/-- The exception `std::bad_optional_access` that `std::optional::value()` throws on
an empty optional. -/
inductive OptionalFailure where
  | bad_optional_access
  deriving DecidableEq, Repr

/-- Member `optional.value()`. -/
def value (optional : Option Nat) : Except OptionalFailure Nat :=
  match optional with
  | some v => .ok v
  | none => .error .bad_optional_access

/-- Whether `off` lies in the region of a bookmark:
`off >= region.address && off < (region.address + region.size)` on `u64`. -/
def inRegion (bookmark : Bookmark) (off : Nat) : Bool :=
  decide (bookmark.address ≤ off) && decide (off < toU64 (bookmark.address + bookmark.size))

/-- The loop over the bookmarks: `currColor` and `prevColor` after it. -/
def highlightBookmarks (alpha off : Nat) :
    List Bookmark → Option Nat × Option Nat → Option Nat × Option Nat
  | [], colors => colors
  | bookmark :: rest, (currColor, prevColor) =>
      let currColor :=
        if inRegion bookmark off then some ((bookmark.color &&& 0x00FFFFFF) ||| alpha)
        else currColor
      let prevColor :=
        if inRegion bookmark (toU64 ((off : Int) - 1))
        then some ((bookmark.color &&& 0x00FFFFFF) ||| alpha)
        else prevColor
      highlightBookmarks alpha off rest (currColor, prevColor)

/-- The first pattern of `SharedData::patternData` whose `getPattern(off)` is not
null, as the colour `child->getColor()` of the child found. A pattern is given by
what its `getPattern` finds at an offset. -/
def firstChildColor (patterns : List (Nat → Option Nat)) (off : Nat) : Option Nat :=
  match patterns with
  | [] => none
  | pattern :: rest =>
      match pattern off with
      | some color => some color
      | none => firstChildColor rest off

/-- The lambda `m_memoryEditor.HighlightFn`: the value returned and the colour
assigned to `HighlightColor`, if one is. `blend` is `ImAlphaBlendColors`,
`highlightAlpha` is `m_highlightAlpha`, `base` and `page` are the addresses the
provider reports. -/
def highlightFn (blend : Nat → Nat → Nat) (bookmarks : List Bookmark)
    (patterns : List (Nat → Option Nat)) (highlightAlpha base page : Nat) (off : Nat)
    (next : Bool) : Except OptionalFailure (Bool × Option Nat) := do
  let off := toU64 (off + (base + page))
  let alpha := (highlightAlpha <<< 24) % 2 ^ 32
  let (currColor, prevColor) := highlightBookmarks alpha off bookmarks (none, none)
  let currColor ← match firstChildColor patterns off with
    | some childColor =>
        let color := (childColor &&& 0x00FFFFFF) ||| alpha
        if currColor.isSome then do
          let current ← value currColor
          pure (some (blend color current))
        else pure (some color)
    | none => pure currColor
  let prevColor ← match firstChildColor patterns (toU64 ((off : Int) - 1)) with
    | some childColor =>
        let color := (childColor &&& 0x00FFFFFF) ||| alpha
        if prevColor.isSome then do
          let current ← value currColor
          pure (some (blend color current))
        else pure (some color)
    | none => pure prevColor
  if next && prevColor != currColor then
    pure (false, none)
  else
    match currColor with
    | some color =>
        if (color &&& 0x00FFFFFF) != 0x00 then
          pure (true, some ((color &&& 0x00FFFFFF) ||| alpha))
        else pure (false, some 0x60C08080)
    | none => pure (false, some 0x60C08080)

end ViewHexEditor

/-! ## Recent files (`EventFileLoaded` handler of `Window::Window`) -/

/-- The string of a path in generic format with every separator that is followed by
another separator left out: `/tmp//a.bin` becomes `/tmp/a.bin`. -/
def StdPath.collapse : List Char → List Char
  | [] => []
  | ch :: rest =>
      if ch = '/' ∧ rest.head? = some '/' then StdPath.collapse rest
      else ch :: StdPath.collapse rest

/-- Comparison `lhs == rhs` of two `std::filesystem::path` values, each given by its
string, for paths in generic format without a root name: the paths are equal when
they have the same root directory and the same sequence of file names, so that a
repeated separator makes no difference. -/
def StdPath.equals (lhs rhs : String) : Bool :=
  decide (StdPath.collapse lhs.data = StdPath.collapse rhs.data)

namespace Window

/-- The inner loop over `uniques`: whether `file == unique` holds for one of them. A
`std::filesystem::path` is given by its string (`path.string()`), and `equals` is
`operator==` of `std::filesystem::path`, which the standard library provides. -/
def recentExists (equals : String → String → Bool) (file : String) (uniques : List String) :
    Bool :=
  uniques.foldl (fun found unique => if equals file unique then true else found) false

/-- The loop over `SharedData::recentFilePaths` that collects `uniques`;
`file.empty()` holds for the empty path only. -/
def recentUniques (equals : String → String → Bool) : List String → List String → List String
  | [], uniques => uniques
  | file :: rest, uniques =>
      let found := recentExists equals file uniques
      let uniques :=
        if !found && !decide (file = "") then StdVector.push_back uniques file else uniques
      if uniques.length > 5 then uniques else recentUniques equals rest uniques

/-- The handler of `EventFileLoaded` for `path`: the new
`SharedData::recentFilePaths`, the vector passed to `Settings::write`, and what
the call of `Settings::write` yields. -/
def onFileLoaded (equals : String → String → Bool) (path : String)
    (recentFilePaths : List String) (s : SharedData) :
    List String × List String × Except Failure SharedData :=
  let recentFilePaths := path :: recentFilePaths
  let recentFilePaths := recentUniques equals recentFilePaths []
  let recentFilesVector := recentFilePaths.foldl StdVector.push_back []
  (recentFilePaths, recentFilesVector,
    ContentRegistry.Settings.write_vector "hex.builtin.setting.imhex"
      "hex.builtin.setting.imhex.recent_files" recentFilesVector s)

/-- The paths a list of recent files keeps, as the specification words it: of the
paths that follow `earlier`, those that are not empty and not equal to a non-empty
path before them, in their order. -/
def recentKept (equals : String → String → Bool) : List String → List String → List String
  | _, [] => []
  | earlier, file :: rest =>
      if decide (file = "") || earlier.any (fun other => !decide (other = "") && equals file other)
      then recentKept equals (earlier ++ [file]) rest
      else file :: recentKept equals (earlier ++ [file]) rest

end Window

/-! ## The plugin manager -/

/-- Modelled from the spec: a candidate library file of the plugin directory.
`loadable` says whether the file maps into the process; the four required entry
points are exported or missing, the texts being what the exported functions
return; `registers` is what the registration entry point does to the tables. -/
structure PluginCandidate where
  path : String
  loadable : Bool
  exportsInitialize : Bool
  name : Option String
  author : Option String
  description : Option String
  exportsSetHostContext : Bool
  registers : SharedData → SharedData

/-- Modelled from the spec: a Module (the class `Plugin` of `plugin_manager.hpp`,
whose member functions are not part of these sources), fully valid by
construction: the library handle with all required entry points resolved. -/
structure Plugin where
  path : String
  name : String
  author : String
  description : String
  setHostContext : Bool
  registers : SharedData → SharedData

/-- Modelled from the spec: `Module::open` followed by the resolution of the
required symbols (the constructor `Plugin::Plugin(path)`, not part of these
sources). A file that does not load, or lacks one of `initialize`, `getName`,
`getAuthor`, `getDescription`, gives no Module. -/
def Plugin.open (candidate : PluginCandidate) : Option Plugin :=
  if candidate.loadable && candidate.exportsInitialize then
    match candidate.name, candidate.author, candidate.description with
    | some name, some author, some description =>
        some ⟨candidate.path, name, author, description, candidate.exportsSetHostContext,
          candidate.registers⟩
    | _, _, _ => none
  else none

/-- The static members `s_pluginFolder` and `s_plugins` of `PluginManager`. -/
structure PluginManager where
  pluginFolder : String
  plugins : List Plugin

namespace PluginManager

/-- Accessor `PluginManager::getPlugins()`. -/
def getPlugins (m : PluginManager) : List Plugin := m.plugins

/-- Modelled from the spec: the scan of `PluginManager::load` (whose body is not
part of these sources) over the candidate files in directory order. A candidate
that opens is appended, one that fails is skipped and the scan goes on. -/
def scan : List PluginCandidate → List Plugin → List Plugin
  | [], plugins => plugins
  | candidate :: rest, plugins =>
      match Plugin.open candidate with
      | some plugin => scan rest (StdVector.push_back plugins plugin)
      | none => scan rest plugins

/-- Modelled from the spec: `PluginManager::load(pluginFolder)` (body not part of
these sources); `candidates` are the candidate library files of the folder in
directory order. Every Module that opens is appended to the collection, then the
registration entry point of each Module of the collection is invoked once, in
order; the result says whether at least one Module loaded. -/
def load (pluginFolder : String) (candidates : List PluginCandidate) (m : PluginManager)
    (s : SharedData) : Bool × PluginManager × SharedData :=
  let loaded := scan candidates []
  let plugins := m.plugins ++ loaded
  (!loaded.isEmpty, ⟨pluginFolder, plugins⟩,
    loaded.foldl (fun tables plugin => plugin.registers tables) s)

/-- Modelled from the spec: the wholesale clearing of the registry tables that
`unload()` performs; the settings document is the persistent store and stays. -/
def clearTables (s : SharedData) : SharedData :=
  { SharedData.start with settingsJson := s.settingsJson }

/-- Modelled from the spec: `PluginManager::unload()` (body not part of these
sources): the registry tables are emptied, then every Module is destroyed. -/
def unload (m : PluginManager) (s : SharedData) : PluginManager × SharedData :=
  ({ m with plugins := [] }, clearTables s)

/-- Modelled from the spec: `PluginManager::reload()` (body not part of these
sources): `unload()`, then `load()` against the configured directory. -/
def reload (candidates : List PluginCandidate) (m : PluginManager) (s : SharedData) :
    Bool × PluginManager × SharedData :=
  let (m, s) := unload m s
  load m.pluginFolder candidates m s

end PluginManager

/-! ## The frame of a settings write -/

namespace ContentRegistry.Settings

/-- What it means that a document changed at the entry `(c, n)` at most: every other
entry holds what it held, and every category other than `c` is as it was (present
with the same value, or absent). -/
def sameExcept (before after : Json) (c n : String) : Prop :=
  (∀ c' n', (c', n') ≠ (c, n) → after.entry c' n' = before.entry c' n') ∧
  (∀ c', c' ≠ c → after.member c' = before.member c')

end ContentRegistry.Settings

/-! ## What `findString` keeps true while it scans -/

namespace ViewHexEditor

/-- A result pair `(start, end)` that is an occurrence of the pattern in the data:
it spans as many bytes as the pattern has, ends inside the data, and the data bytes
from `start` on are the pattern. -/
def findString.Genuine (data string : List Nat) (r : Nat × Nat) : Prop :=
  r.1 + string.length = r.2 + 1 ∧ r.2 < data.length ∧
  ∀ j, j < string.length → data[r.1 + j]? = string[j]?

/-- The loop invariant of `findString` when the bytes before `pos` have been
visited: `foundCharacters` is below the pattern length and counts pattern characters
matched by the bytes that end at `pos`; every result is an occurrence that ends
before these bytes; the results are in increasing order and do not overlap. -/
def findString.Invariant (data string : List Nat) (pos : Nat) (st : Search) : Prop :=
  st.foundCharacters < string.length ∧ st.foundCharacters ≤ pos ∧
  (∀ j, j < st.foundCharacters → data[pos - st.foundCharacters + j]? = string[j]?) ∧
  (∀ r ∈ st.results, findString.Genuine data string r ∧ r.2 + st.foundCharacters < pos) ∧
  st.results.Pairwise (fun a b => a.2 < b.1)

end ViewHexEditor

end hex

/-! # Theorems -/

namespace hex

/-! ## Facts about `StdMap` -/

namespace StdMap

variable {V : Type}

theorem contains_eq_true_iff (m : StdMap V) (key : String) :
    contains m key = true ↔ ∃ v, find m key = some v := by
  simp [contains, Option.isSome_iff_exists]

theorem contains_eq_false_iff (m : StdMap V) (key : String) :
    contains m key = false ↔ find m key = none := by
  simp [contains]

theorem set_of_find (m : StdMap V) (key : String) (v : V) (h : find m key = some v) :
    set m key v = m := by
  induction m with
  | nil => simp [find] at h
  | cons p rest ih =>
    obtain ⟨k, w⟩ := p
    by_cases hk : k = key
    · simp [find, hk] at h
      simp [set, hk, h]
    · simp [find, hk] at h
      simp [set, hk, ih h]

theorem find_set_self (m : StdMap V) (key : String) (v w : V) (h : find m key = some w) :
    find (set m key v) key = some v := by
  induction m with
  | nil => simp [find] at h
  | cons p rest ih =>
    obtain ⟨k, u⟩ := p
    by_cases hk : k = key
    · simp [set, find, hk]
    · simp [find, hk] at h
      simp [set, find, hk, ih h]

theorem find_set_ne (m : StdMap V) (key other : String) (v : V) (h : other ≠ key) :
    find (set m key v) other = find m other := by
  induction m with
  | nil => simp [set]
  | cons p rest ih =>
    obtain ⟨k, u⟩ := p
    by_cases hk : k = key
    · subst hk
      have : ¬ k = other := fun e => h e.symm
      simp [set, find, this]
    · by_cases ho : k = other
      · subst ho
        simp [set, find, hk]
      · simp [set, find, hk, ho, ih]

theorem find_emplace_self (m : StdMap V) (key : String) (v : V) (h : find m key = none) :
    find (emplace m key v) key = some v := by
  induction m with
  | nil => simp [emplace, find]
  | cons p rest ih =>
    obtain ⟨k, u⟩ := p
    by_cases hk : k = key
    · simp [find, hk] at h
    · simp [find, hk] at h
      by_cases hlt : StdString.lt key k = true
      · simp [emplace, hlt, find]
      · simp [emplace, hlt, find, hk, ih h]

theorem find_emplace_ne (m : StdMap V) (key other : String) (v : V) (h : other ≠ key) :
    find (emplace m key v) other = find m other := by
  induction m with
  | nil =>
    have : ¬ key = other := fun e => h e.symm
    simp [emplace, find, this]
  | cons p rest ih =>
    obtain ⟨k, u⟩ := p
    have hne : ¬ key = other := fun e => h e.symm
    by_cases hlt : StdString.lt key k = true
    · simp [emplace, hlt, find, hne]
    · by_cases ho : k = other
      · subst ho
        simp [emplace, hlt, find]
      · simp [emplace, hlt, find, ho, ih]

end StdMap

/-! ## Facts about `Json` accesses -/

namespace Json

theorem entry_eq_some_iff (j : Json) (c n : String) (v : Json) :
    j.entry c n = some v ↔
      ∃ m cat, j = object m ∧ StdMap.find m c = some (object cat) ∧ StdMap.find cat n = some v := by
  constructor
  · intro h
    cases j <;> simp [entry, member] at h
    rename_i m
    cases hc : StdMap.find m c with
    | none => simp [hc] at h
    | some cat =>
      cases cat <;> simp [hc, member] at h
      rename_i cm
      exact ⟨m, cm, rfl, hc, h⟩
  · rintro ⟨m, cat, rfl, hc, hn⟩
    simp [entry, member, hc, hn]

theorem contains_of_member (j : Json) (key : String) (v : Json) (h : j.member key = some v) :
    j.contains key = true := by
  cases j <;> simp [member] at h
  simp [contains, StdMap.contains, h]

theorem subscript_of_member (j : Json) (key : String) (v : Json) (h : j.member key = some v) :
    j.subscript key = .ok (v, j) := by
  cases j <;> simp [member] at h
  simp [subscript, h]

theorem writeBack_of_member (j : Json) (key : String) (v : Json) (h : j.member key = some v) :
    j.writeBack key v = j := by
  cases j <;> simp [member] at h
  simp [writeBack, StdMap.set_of_find _ _ _ h]

theorem member_of_entry (j : Json) (c n : String) (v : Json) (h : j.entry c n = some v) :
    ∃ cat, j.member c = some cat ∧ cat.member n = some v := by
  unfold entry at h
  cases hc : j.member c with
  | none => simp [hc] at h
  | some cat => exact ⟨cat, rfl, by simpa [hc] using h⟩

theorem subscript2_of_entry (j : Json) (c n : String) (v : Json) (h : j.entry c n = some v) :
    j.subscript2 c n = .ok (v, j) := by
  obtain ⟨cat, hc, hn⟩ := member_of_entry j c n v h
  simp [subscript2, subscript_of_member _ _ _ hc, subscript_of_member _ _ _ hn,
    writeBack_of_member _ _ _ hc, bind, Except.bind, pure, Except.pure]

/-- On `null` and on an object `j[key] = w` succeeds: the result is an object
holding `w` under `key`. -/
theorem assign_ok (j : Json) (key : String) (w : Json) (h : (j.is_object || j.is_null) = true) :
    ∃ m, j.assign key w = .ok (object m) ∧ StdMap.find m key = some w := by
  cases j <;> simp [is_object, is_null] at h
  · exact ⟨[(key, w)], by simp [assign, subscript, writeBack, StdMap.set, bind, Except.bind,
      pure, Except.pure], by simp [StdMap.find]⟩
  · rename_i m
    cases hk : StdMap.find m key with
    | none =>
      refine ⟨StdMap.set (StdMap.emplace m key null) key w, ?_, ?_⟩
      · simp [assign, subscript, hk, writeBack, bind, Except.bind, pure, Except.pure]
      · exact StdMap.find_set_self _ _ _ _ (StdMap.find_emplace_self m key null hk)
    | some v =>
      refine ⟨StdMap.set m key w, ?_, ?_⟩
      · simp [assign, subscript, hk, writeBack, bind, Except.bind, pure, Except.pure]
      · exact StdMap.find_set_self _ _ _ _ hk

/-- When the document is an object whose category `c` is an object or `null`,
`j[c][n] = w` succeeds and the entry `(c, n)` then holds `w`. -/
theorem assign2_ok (m : StdMap Json) (c n : String) (cat w : Json)
    (hc : StdMap.find m c = some cat) (hcat : (cat.is_object || cat.is_null) = true) :
    ∃ j, (object m).assign2 c n w = .ok j ∧ j.entry c n = some w := by
  obtain ⟨cm, hassign, hfind⟩ := assign_ok cat n w hcat
  refine ⟨object (StdMap.set m c (object cm)), ?_, ?_⟩
  · simp [assign2, subscript, hc, hassign, writeBack, bind, Except.bind, pure, Except.pure]
  · simp [entry, member, StdMap.find_set_self m c (object cm) cat hc, hfind]

/-- A stored entry is overwritten by `j[c][n] = w`. -/
theorem assign2_of_entry (j : Json) (c n : String) (v w : Json) (h : j.entry c n = some v) :
    ∃ k, j.assign2 c n w = .ok k ∧ k.entry c n = some w := by
  obtain ⟨m, cat, rfl, hc, _⟩ := (entry_eq_some_iff j c n v).mp h
  exact assign2_ok m c n (object cat) w hc (by simp [is_object])

end Json

/-! ## Facts about the settings operations -/

namespace ContentRegistry.Settings

theorem categoryUsable_of_entry (j : Json) (c n : String) (v : Json)
    (h : j.entry c n = some v) : categoryUsable j c = true := by
  obtain ⟨m, cat, rfl, hc, _⟩ := (Json.entry_eq_some_iff j c n v).mp h
  simp [categoryUsable, hc, Json.is_object]

/-- The statement `if (!json.contains(c)) json[c] = nlohmann::json::object();` on a
usable document: afterwards the document is an object that has the category, and
the entries of the category are the ones stored before. -/
theorem prepare_ok (j : Json) (c : String) (h : categoryUsable j c = true) :
    ∃ m cat, ensureCategory j c = .ok (Json.object m) ∧
      StdMap.find m c = some cat ∧ (cat.is_object || cat.is_null) = true ∧
      ∀ n, (Json.object m).entry c n = j.entry c n := by
  cases j <;> simp [categoryUsable] at h
  · refine ⟨[(c, Json.object [])], Json.object [], ?_, ?_, ?_, ?_⟩
    · simp [ensureCategory, Json.contains, Json.assign, Json.subscript, Json.writeBack,
        StdMap.set, Json.object_factory, bind, Except.bind, pure, Except.pure]
    · simp [StdMap.find]
    · simp [Json.is_object]
    · intro n
      simp [Json.entry, Json.member, StdMap.find]
  · rename_i m
    cases hc : StdMap.find m c with
    | none =>
      have hcont : Json.contains (Json.object m) c = false := by
        simp [Json.contains, StdMap.contains, hc]
      obtain ⟨m', hassign, hfind⟩ :=
        Json.assign_ok (Json.object m) c Json.object_factory (by simp [Json.is_object])
      refine ⟨m', Json.object_factory, ?_, hfind, by simp [Json.object_factory, Json.is_object], ?_⟩
      · simp [ensureCategory, hcont, hassign]
      · intro n
        simp [Json.entry, Json.member, hc, hfind, Json.object_factory, StdMap.find]
    | some cat =>
      have hcont : Json.contains (Json.object m) c = true := by
        simp [Json.contains, StdMap.contains, hc]
      refine ⟨m, cat, ?_, hc, ?_, ?_⟩
      · simp [ensureCategory, hcont, pure, Except.pure]
      · simpa [hc] using h
      · intro n
        rfl

theorem eta (s : SharedData) : { s with settingsJson := s.settingsJson } = s := by
  cases s
  rfl

/-- Reading an absent entry returns the default and changes nothing. -/
theorem read_s64_absent (s : SharedData) (c n : String) (d : Int)
    (h : s.settingsJson.contains c = false ∨
      ∃ cat, s.settingsJson.member c = some cat ∧ cat.contains n = false) :
    read_s64 c n d s = .ok (d, s) := by
  rcases h with h | ⟨cat, hc, hn⟩
  · simp [read_s64, getSettingsData, h, pure, Except.pure]
  · simp [read_s64, getSettingsData, Json.contains_of_member _ _ _ hc,
      Json.subscript_of_member _ _ _ hc, hn, eta, bind, Except.bind, pure, Except.pure]

theorem read_string_absent (s : SharedData) (c n : String) (d : String)
    (h : s.settingsJson.contains c = false ∨
      ∃ cat, s.settingsJson.member c = some cat ∧ cat.contains n = false) :
    read_string c n d s = .ok (d, s) := by
  rcases h with h | ⟨cat, hc, hn⟩
  · simp [read_string, getSettingsData, h, pure, Except.pure]
  · simp [read_string, getSettingsData, Json.contains_of_member _ _ _ hc,
      Json.subscript_of_member _ _ _ hc, hn, eta, bind, Except.bind, pure, Except.pure]

theorem read_vector_absent (s : SharedData) (c n : String) (d : List String)
    (h : s.settingsJson.contains c = false ∨
      ∃ cat, s.settingsJson.member c = some cat ∧ cat.contains n = false) :
    read_vector c n d s = .ok (d, s) := by
  rcases h with h | ⟨cat, hc, hn⟩
  · simp [read_vector, getSettingsData, h, pure, Except.pure]
  · simp [read_vector, getSettingsData, Json.contains_of_member _ _ _ hc,
      Json.subscript_of_member _ _ _ hc, hn, eta, bind, Except.bind, pure, Except.pure]

/-- Reading a stored number converts it and changes nothing. -/
theorem read_s64_of_number (s : SharedData) (c n : String) (d : Int) (v : Json)
    (hv : s.settingsJson.entry c n = some v) (hnum : v.is_number = true) :
    read_s64 c n d s = (v.get_s64).map (fun r => (r, s)) := by
  obtain ⟨cat, hc, hn⟩ := Json.member_of_entry _ c n v hv
  simp [read_s64, getSettingsData, Json.contains_of_member _ _ _ hc,
    Json.subscript_of_member _ _ _ hc, Json.contains_of_member _ _ _ hn,
    Json.subscript2_of_entry _ _ _ _ hv, hnum, eta, bind, Except.bind, pure, Except.pure]
  cases v.get_s64 <;> simp [Except.map]

/-- Reading an entry that is no number stores the default and returns it. -/
theorem read_s64_of_other (s : SharedData) (c n : String) (d : Int) (v : Json)
    (hv : s.settingsJson.entry c n = some v) (hnum : v.is_number = false) :
    ∃ s', read_s64 c n d s = .ok (d, s') ∧
      s'.settingsJson.entry c n = some (.number_integer d) := by
  obtain ⟨cat, hc, hn⟩ := Json.member_of_entry _ c n v hv
  obtain ⟨k, hk, hentry⟩ := Json.assign2_of_entry _ c n v (.number_integer d) hv
  refine ⟨{ s with settingsJson := k }, ?_, hentry⟩
  simp [read_s64, getSettingsData, Json.contains_of_member _ _ _ hc,
    Json.subscript_of_member _ _ _ hc, Json.contains_of_member _ _ _ hn,
    Json.subscript2_of_entry _ _ _ _ hv, hnum, hk, Json.subscript2_of_entry _ _ _ _ hentry,
    Json.get_s64, bind, Except.bind, pure, Except.pure]

theorem read_string_of_string (s : SharedData) (c n : String) (d : String) (v : String)
    (hv : s.settingsJson.entry c n = some (.string v)) :
    read_string c n d s = .ok (v, s) := by
  obtain ⟨cat, hc, hn⟩ := Json.member_of_entry _ c n _ hv
  simp [read_string, getSettingsData, Json.contains_of_member _ _ _ hc,
    Json.subscript_of_member _ _ _ hc, Json.contains_of_member _ _ _ hn,
    Json.subscript2_of_entry _ _ _ _ hv, Json.is_string, Json.get_string, eta,
    bind, Except.bind, pure, Except.pure]

theorem read_string_of_other (s : SharedData) (c n : String) (d : String) (v : Json)
    (hv : s.settingsJson.entry c n = some v) (hstr : v.is_string = false) :
    ∃ s', read_string c n d s = .ok (d, s') ∧
      s'.settingsJson.entry c n = some (.string d) := by
  obtain ⟨cat, hc, hn⟩ := Json.member_of_entry _ c n v hv
  obtain ⟨k, hk, hentry⟩ := Json.assign2_of_entry _ c n v (.string d) hv
  refine ⟨{ s with settingsJson := k }, ?_, hentry⟩
  simp [read_string, getSettingsData, Json.contains_of_member _ _ _ hc,
    Json.subscript_of_member _ _ _ hc, Json.contains_of_member _ _ _ hn,
    Json.subscript2_of_entry _ _ _ _ hv, hstr, hk, Json.subscript2_of_entry _ _ _ _ hentry,
    Json.get_string, bind, Except.bind, pure, Except.pure]

end ContentRegistry.Settings

namespace Json

theorem get_strings_map_string (v : List String) : get_strings (v.map string) = .ok v := by
  induction v with
  | nil => rfl
  | cons x xs ih => simp [get_strings, get_string, ih, bind, Except.bind, pure, Except.pure]

end Json

namespace ContentRegistry.Settings

/-- Reading a stored array runs no element test: the array is converted as it is. -/
theorem read_vector_of_array (s : SharedData) (c n : String) (d : List String) (xs : List Json)
    (hv : s.settingsJson.entry c n = some (.array xs)) :
    read_vector c n d s = (Json.get_strings xs).map (fun r => (r, s)) := by
  obtain ⟨cat, hc, hn⟩ := Json.member_of_entry _ c n _ hv
  simp [read_vector, getSettingsData, Json.contains_of_member _ _ _ hc,
    Json.subscript_of_member _ _ _ hc, Json.contains_of_member _ _ _ hn,
    Json.subscript2_of_entry _ _ _ _ hv, Json.is_array, Json.get_string_vector, eta,
    Json.array_factory, Json.empty, bind, Except.bind, pure, Except.pure]
  cases Json.get_strings xs <;> simp [Except.map]

theorem write_s64_ok (s : SharedData) (c n : String) (v : Int)
    (h : categoryUsable s.settingsJson c = true) :
    ∃ s', write_s64 c n v s = .ok s' ∧ s'.settingsJson.entry c n = some (.number_integer v) := by
  obtain ⟨m, cat, hprep, hc, hcat, _⟩ := prepare_ok s.settingsJson c h
  obtain ⟨k, hk, hentry⟩ := Json.assign2_ok m c n cat (.number_integer v) hc hcat
  exact ⟨{ s with settingsJson := k },
    by simp [write_s64, getSettingsData, hprep, hk, bind, Except.bind, pure, Except.pure], hentry⟩

theorem write_string_ok (s : SharedData) (c n : String) (v : String)
    (h : categoryUsable s.settingsJson c = true) :
    ∃ s', write_string c n v s = .ok s' ∧ s'.settingsJson.entry c n = some (.string v) := by
  obtain ⟨m, cat, hprep, hc, hcat, _⟩ := prepare_ok s.settingsJson c h
  obtain ⟨k, hk, hentry⟩ := Json.assign2_ok m c n cat (.string v) hc hcat
  exact ⟨{ s with settingsJson := k },
    by simp [write_string, getSettingsData, hprep, hk, bind, Except.bind, pure, Except.pure],
    hentry⟩

theorem write_vector_ok (s : SharedData) (c n : String) (v : List String)
    (h : categoryUsable s.settingsJson c = true) :
    ∃ s', write_vector c n v s = .ok s' ∧
      s'.settingsJson.entry c n = some (Json.of_string_vector v) := by
  obtain ⟨m, cat, hprep, hc, hcat, _⟩ := prepare_ok s.settingsJson c h
  obtain ⟨k, hk, hentry⟩ := Json.assign2_ok m c n cat (Json.of_string_vector v) hc hcat
  exact ⟨{ s with settingsJson := k },
    by simp [write_vector, getSettingsData, hprep, hk, bind, Except.bind, pure, Except.pure],
    hentry⟩

/-- What `add` finds after `ensureCategory` when the entry is absent or fails the
type test `p`: the category either lacks the name, or holds under it a value that
fails the test. -/
theorem fill_cases (j : Json) (c n : String) (p : Json → Bool)
    (h : categoryUsable j c = true) (hp : ∀ v, j.entry c n = some v → p v = false) :
    ∃ m cat, ensureCategory j c = .ok (Json.object m) ∧
      (Json.object m).subscript c = .ok (cat, Json.object m) ∧
      (∀ w, ∃ k, (Json.object m).assign2 c n w = .ok k ∧ k.entry c n = some w) ∧
      (cat.contains n = false ∨
        (cat.contains n = true ∧ ∃ v, (Json.object m).subscript2 c n = .ok (v, Json.object m) ∧
          p v = false)) := by
  obtain ⟨m, cat, hprep, hc, hcat, hsame⟩ := prepare_ok j c h
  refine ⟨m, cat, hprep, by simp [Json.subscript, hc],
    fun w => Json.assign2_ok m c n cat w hc hcat, ?_⟩
  cases hcn : cat.contains n with
  | false => exact Or.inl rfl
  | true =>
    right
    cases cat <;> simp [Json.contains] at hcn
    rename_i cm
    obtain ⟨v, hv⟩ := (StdMap.contains_eq_true_iff cm n).mp hcn
    have hentry0 : (Json.object m).entry c n = some v := by
      simp [Json.entry, Json.member, hc, hv]
    exact ⟨rfl, v, Json.subscript2_of_entry _ _ _ _ hentry0,
      hp v (by rw [← hsame n]; exact hentry0)⟩

theorem add_s64_fills (s : SharedData) (c n : String) (d : Int) (cb : Callback)
    (h : categoryUsable s.settingsJson c = true)
    (hp : ∀ v, s.settingsJson.entry c n = some v → v.is_number = false) :
    ∃ s', add_s64 c n d cb s = .ok s' ∧
      s'.settingsJson.entry c n = some (.number_integer (toInt d)) := by
  obtain ⟨m, cat, hprep, hsub, hassign, hcases⟩ := fill_cases s.settingsJson c n _ h hp
  obtain ⟨k, hk, hentry⟩ := hassign (.number_integer (toInt d))
  refine ⟨{ registerEntry (StdString.c_str c) (StdString.c_str n) cb s with
    settingsJson := k }, ?_, hentry⟩
  have hreg : (registerEntry (StdString.c_str c) (StdString.c_str n) cb s).settingsJson
      = s.settingsJson := rfl
  rcases hcases with hcn | ⟨hcn, v, hsub2, hpv⟩
  · simp [add_s64, getSettingsData, hreg, hprep, hsub, hcn, hk, bind, Except.bind, pure,
      Except.pure]
  · simp [add_s64, getSettingsData, hreg, hprep, hsub, hcn, hsub2, hpv, hk, bind, Except.bind,
      pure, Except.pure]

theorem add_string_fills (s : SharedData) (c n : String) (d : String) (cb : Callback)
    (h : categoryUsable s.settingsJson c = true)
    (hp : ∀ v, s.settingsJson.entry c n = some v → v.is_string = false) :
    ∃ s', add_string c n d cb s = .ok s' ∧
      s'.settingsJson.entry c n = some (.string d) := by
  obtain ⟨m, cat, hprep, hsub, hassign, hcases⟩ := fill_cases s.settingsJson c n _ h hp
  obtain ⟨k, hk, hentry⟩ := hassign (.string d)
  refine ⟨{ registerEntry c n cb s with settingsJson := k }, ?_, hentry⟩
  have hreg : (registerEntry c n cb s).settingsJson = s.settingsJson := rfl
  rcases hcases with hcn | ⟨hcn, v, hsub2, hpv⟩
  · simp [add_string, getSettingsData, hreg, hprep, hsub, hcn, hk, bind, Except.bind, pure,
      Except.pure]
  · simp [add_string, getSettingsData, hreg, hprep, hsub, hcn, hsub2, hpv, hk, bind,
      Except.bind, pure, Except.pure]

/-- On a stored number `add` only registers the interface entry. -/
theorem add_s64_keeps (s : SharedData) (c n : String) (d : Int) (cb : Callback) (v : Json)
    (hv : s.settingsJson.entry c n = some v) (hnum : v.is_number = true) :
    add_s64 c n d cb s = .ok (registerEntry (StdString.c_str c) (StdString.c_str n) cb s) := by
  obtain ⟨cat, hc, hn⟩ := Json.member_of_entry _ c n v hv
  have hreg : (registerEntry (StdString.c_str c) (StdString.c_str n) cb s).settingsJson
      = s.settingsJson := rfl
  have hens : ensureCategory s.settingsJson c = .ok s.settingsJson := by
    simp [ensureCategory, Json.contains_of_member _ _ _ hc, pure, Except.pure]
  have heta : { registerEntry (StdString.c_str c) (StdString.c_str n) cb s with
      settingsJson := s.settingsJson }
      = registerEntry (StdString.c_str c) (StdString.c_str n) cb s := rfl
  simp [add_s64, getSettingsData, hreg, hens, Json.subscript_of_member _ _ _ hc,
    Json.contains_of_member _ _ _ hn, Json.subscript2_of_entry _ _ _ _ hv, hnum, heta,
    bind, Except.bind, pure, Except.pure]

theorem toInt_of_isInt (d : Int) (h : isInt d) : toInt d = d := by
  unfold isInt at h
  unfold toInt
  omega

end ContentRegistry.Settings

/-! ## Settings: the claims -/

namespace ContentRegistry.Settings

/-- C1: when entry `(c, n)` of the settings document holds a number `v`,
`Settings::add(c, n, d)` with any integer default `d` succeeds and leaves the
document, and with it the stored value of `(c, n)`, unchanged; a following
`Settings::read(c, n, d')` returns what a read before the `add` returns, the
stored number as `get<s64>()` converts it, and changes nothing; a stored integer
`i` is returned as `i`. -/
theorem add_keeps_stored_number (s : SharedData) (c n : String) (d : Int) (cb : Callback)
    (v : Json) (hv : s.settingsJson.entry c n = some v) (hnum : v.is_number = true) :
    ∃ s', add_s64 c n d cb s = .ok s' ∧ s'.settingsJson = s.settingsJson ∧
      s'.settingsJson.entry c n = some v ∧
      ∀ d', read_s64 c n d' s' = (v.get_s64).map (fun r => (r, s')) ∧
        (read_s64 c n d' s').map Prod.fst = (read_s64 c n d' s).map Prod.fst ∧
        ∀ i, v = .number_integer i → read_s64 c n d' s' = .ok (i, s') := by
  refine ⟨registerEntry (StdString.c_str c) (StdString.c_str n) cb s,
    add_s64_keeps s c n d cb v hv hnum, rfl, hv, fun d' => ?_⟩
  have hread := read_s64_of_number
    (registerEntry (StdString.c_str c) (StdString.c_str n) cb s) c n d' v hv hnum
  refine ⟨hread, ?_, fun i hi => ?_⟩
  · rw [hread, read_s64_of_number s c n d' v hv hnum]
    cases v.get_s64 <;> rfl
  · rw [hread, hi]
    rfl

/-- Witness of C1: `tips` of `general` holds `1`; `add("general", "tips", 5)`
keeps the document and `read("general", "tips", 0)` returns `1`. -/
theorem add_keeps_stored_number_witness :
    ∃ s', add_s64 "general" "tips" 5 0
        (SharedData.loaded (.object [("general", .object [("tips", .number_integer 1)])]))
          = .ok s' ∧
      s'.settingsJson = .object [("general", .object [("tips", .number_integer 1)])] ∧
      read_s64 "general" "tips" 0 s' = .ok (1, s') := by
  obtain ⟨s', h1, h2, _, h3⟩ := add_keeps_stored_number
    (SharedData.loaded (.object [("general", .object [("tips", .number_integer 1)])]))
    "general" "tips" 5 0 (.number_integer 1) rfl rfl
  exact ⟨s', h1, h2, (h3 0).2.2 1 rfl⟩

/-- C2: on the empty document `add("general", "tips", 2147483648)` stores
`int(2147483648)`, so the following `read("general", "tips", 0)` returns
`-2147483648` and not the `s64` default that was passed. -/
theorem add_s64_stores_int_of_default :
    isS64 2147483648 ∧
      (add_s64 "general" "tips" 2147483648 0 SharedData.start >>=
        read_s64 "general" "tips" 0).map Prod.fst = .ok (-2147483648) :=
  ⟨by decide, rfl⟩

/-- C3: when entry `(c, n)` exists and holds a value of the wrong type, `read`
returns the default `d` and leaves `(c, n)` holding `d`: a non-number for the
integer overload, a non-string for the string overload. -/
theorem read_repairs_wrong_type (s : SharedData) (c n : String) (v : Json)
    (hv : s.settingsJson.entry c n = some v) :
    (∀ d : Int, v.is_number = false →
      ∃ s', read_s64 c n d s = .ok (d, s') ∧
        s'.settingsJson.entry c n = some (.number_integer d)) ∧
    (∀ d : String, v.is_string = false →
      ∃ s', read_string c n d s = .ok (d, s') ∧
        s'.settingsJson.entry c n = some (.string d)) :=
  ⟨fun d h => read_s64_of_other s c n d v hv h, fun d h => read_string_of_other s c n d v hv h⟩

/-- Witness of C3: after `write("general", "tips", "oops")` the integer read with
default `1` returns `1` and stores it; a stored `7` read as a string is replaced
by the default. -/
theorem read_repairs_wrong_type_witness :
    (∃ s', read_s64 "general" "tips" 1
        (SharedData.loaded (.object [("general", .object [("tips", .string "oops")])]))
          = .ok (1, s') ∧
        s'.settingsJson.entry "general" "tips" = some (.number_integer 1)) ∧
    (∃ s', read_string "general" "tips" "x"
        (SharedData.loaded (.object [("general", .object [("tips", .number_integer 7)])]))
          = .ok ("x", s') ∧
        s'.settingsJson.entry "general" "tips" = some (.string "x")) :=
  ⟨(read_repairs_wrong_type
      (SharedData.loaded (.object [("general", .object [("tips", .string "oops")])]))
      "general" "tips" (.string "oops") rfl).1 1 rfl,
   (read_repairs_wrong_type
      (SharedData.loaded (.object [("general", .object [("tips", .number_integer 7)])]))
      "general" "tips" (.number_integer 7) rfl).2 "x" rfl⟩

/-- C4: `write` is no upsert on every document. In the document `{"c": "text"}` the
category exists and is no object; `write("c", "n", 1)` throws `type_error` 305 at
`json[c][n] = value`, so nothing is stored and no read follows. -/
theorem write_throws_on_string_category :
    write_s64 "c" "n" 1 (SharedData.loaded (.object [("c", .string "text")]))
        = .error (.type_error 305) ∧
      ¬ ∃ s', write_s64 "c" "n" 1 (SharedData.loaded (.object [("c", .string "text")]))
        = .ok s' := by
  refine ⟨rfl, ?_⟩
  rintro ⟨s', h⟩
  have h' : (Except.error (Failure.type_error 305) : Except Failure SharedData) = .ok s' := h
  cases h'

/-- Where `write` does upsert: when the settings document is empty (`null`) or an
object, and the category `c` is absent from it or is an object (or `null`),
`write(c, n, v)` succeeds and the read overload of the same type then returns `v`
for every default, leaving the document as `write` left it; this for an integer, a
string and a list of strings, whatever `(c, n)` held before. -/
theorem write_then_read (s : SharedData) (c n : String)
    (h : categoryUsable s.settingsJson c = true) :
    (∀ v : Int, ∃ s', write_s64 c n v s = .ok s' ∧ ∀ d, read_s64 c n d s' = .ok (v, s')) ∧
    (∀ v : String, ∃ s', write_string c n v s = .ok s' ∧
      ∀ d, read_string c n d s' = .ok (v, s')) ∧
    (∀ v : List String, ∃ s', write_vector c n v s = .ok s' ∧
      ∀ d, read_vector c n d s' = .ok (v, s')) := by
  refine ⟨fun v => ?_, fun v => ?_, fun v => ?_⟩
  · obtain ⟨s', hw, he⟩ := write_s64_ok s c n v h
    refine ⟨s', hw, fun d => ?_⟩
    rw [read_s64_of_number s' c n d _ he rfl]
    rfl
  · obtain ⟨s', hw, he⟩ := write_string_ok s c n v h
    exact ⟨s', hw, fun d => read_string_of_string s' c n d v he⟩
  · obtain ⟨s', hw, he⟩ := write_vector_ok s c n v h
    refine ⟨s', hw, fun d => ?_⟩
    rw [read_vector_of_array s' c n d _ he, Json.get_strings_map_string]
    rfl

/-- The upsert at the document `{"general": {"tips": "oops"}}`: an integer and a
list written to it are read back. -/
theorem write_then_read_witness :
    (∃ s', write_s64 "general" "tips" 3
        (SharedData.loaded (.object [("general", .object [("tips", .string "oops")])]))
          = .ok s' ∧ ∀ d, read_s64 "general" "tips" d s' = .ok (3, s')) ∧
    (∃ s', write_vector "general" "recent" ["a", "b"]
        (SharedData.loaded (.object [("general", .object [("tips", .string "oops")])]))
          = .ok s' ∧ ∀ d, read_vector "general" "recent" d s' = .ok (["a", "b"], s')) :=
  ⟨(write_then_read
      (SharedData.loaded (.object [("general", .object [("tips", .string "oops")])]))
      "general" "tips" rfl).1 3,
   (write_then_read
      (SharedData.loaded (.object [("general", .object [("tips", .string "oops")])]))
      "general" "recent" rfl).2.2 ["a", "b"]⟩

/-- C5: when the category `c` is absent (`json.contains(c)` is false), or `c` is
present and has no entry named `n`, each overload of `read(c, n, d)` returns `d`
and leaves the tables as they were. -/
theorem read_absent_returns_default (s : SharedData) (c n : String)
    (h : s.settingsJson.contains c = false ∨
      ∃ cat, s.settingsJson.member c = some cat ∧ cat.contains n = false) :
    (∀ d : Int, read_s64 c n d s = .ok (d, s)) ∧
    (∀ d : String, read_string c n d s = .ok (d, s)) ∧
    (∀ d : List String, read_vector c n d s = .ok (d, s)) :=
  ⟨fun d => read_s64_absent s c n d h, fun d => read_string_absent s c n d h,
    fun d => read_vector_absent s c n d h⟩

/-- Witness of C5: the category `general` exists and has no entry `tips`. -/
theorem read_absent_returns_default_witness :
    (∀ d : Int, read_s64 "general" "tips" d
        (SharedData.loaded (.object [("general", .object [("lang", .string "en")])]))
      = .ok (d, SharedData.loaded (.object [("general", .object [("lang", .string "en")])]))) ∧
    (∀ d : String, read_string "other" "tips" d
        (SharedData.loaded (.object [("general", .object [("lang", .string "en")])]))
      = .ok (d, SharedData.loaded (.object [("general", .object [("lang", .string "en")])]))) :=
  ⟨(read_absent_returns_default
      (SharedData.loaded (.object [("general", .object [("lang", .string "en")])]))
      "general" "tips" (Or.inr ⟨.object [("lang", .string "en")], rfl, rfl⟩)).1,
   (read_absent_returns_default
      (SharedData.loaded (.object [("general", .object [("lang", .string "en")])]))
      "other" "tips" (Or.inl rfl)).2.1⟩

/-- C6: the repair of `add` does not store the default. `(c, n)` holds the string
`"x"`, a mismatch for the integer overload; `add("c", "n", 2147483648)` replaces it
with `int(2147483648)`, that is `-2147483648`, which is not the default. -/
theorem add_s64_repairs_to_int_of_default :
    isS64 2147483648 ∧
      (add_s64 "c" "n" 2147483648 0
        (SharedData.loaded (.object [("c", .object [("n", .string "x")])]))).map
        (fun s => s.settingsJson.entry "c" "n") = .ok (some (.number_integer (-2147483648))) :=
  ⟨by decide, rfl⟩

/-- Where `add` does repair or create: when entry `(c, n)` exists with a value whose
type mismatches the requested one, `add(c, n, default)` replaces the stored value
with the default, for the string overload with every default and for the integer
overload with every default in the range of `int`; and when `(c, n)` is absent,
the document being empty or an object and `c` absent from it or an object (or
`null`), the entry is created holding that default. -/
theorem add_repairs_or_creates (s : SharedData) (c n : String) (cb : Callback) :
    (∀ v, s.settingsJson.entry c n = some v →
      (∀ d : String, v.is_string = false →
        ∃ s', add_string c n d cb s = .ok s' ∧ s'.settingsJson.entry c n = some (.string d)) ∧
      (∀ d : Int, isInt d → v.is_number = false →
        ∃ s', add_s64 c n d cb s = .ok s' ∧
          s'.settingsJson.entry c n = some (.number_integer d))) ∧
    (s.settingsJson.entry c n = none → categoryUsable s.settingsJson c = true →
      (∀ d : String,
        ∃ s', add_string c n d cb s = .ok s' ∧ s'.settingsJson.entry c n = some (.string d)) ∧
      (∀ d : Int, isInt d →
        ∃ s', add_s64 c n d cb s = .ok s' ∧
          s'.settingsJson.entry c n = some (.number_integer d))) := by
  refine ⟨fun v hv => ⟨fun d hs => ?_, fun d hd hnum => ?_⟩,
    fun hnone hu => ⟨fun d => ?_, fun d hd => ?_⟩⟩
  · refine add_string_fills s c n d cb (categoryUsable_of_entry _ c n v hv) (fun w hw => ?_)
    rw [hv] at hw
    cases hw
    exact hs
  · have := add_s64_fills s c n d cb (categoryUsable_of_entry _ c n v hv) (fun w hw => by
      rw [hv] at hw
      cases hw
      exact hnum)
    rwa [toInt_of_isInt d hd] at this
  · exact add_string_fills s c n d cb hu (fun w hw => by rw [hnone] at hw; cases hw)
  · have := add_s64_fills s c n d cb hu (fun w hw => by rw [hnone] at hw; cases hw)
    rwa [toInt_of_isInt d hd] at this

/-- The repair and the creation at concrete documents: a string stored where a
number is asked for is replaced by the default `1`; in the empty document the
string entry is created. -/
theorem add_repairs_or_creates_witness :
    (∃ s', add_s64 "general" "tips" 1 0
        (SharedData.loaded (.object [("general", .object [("tips", .string "oops")])]))
          = .ok s' ∧ s'.settingsJson.entry "general" "tips" = some (.number_integer 1)) ∧
    (∃ s', add_string "general" "lang" "en" 0 SharedData.start = .ok s' ∧
      s'.settingsJson.entry "general" "lang" = some (.string "en")) :=
  ⟨((add_repairs_or_creates
      (SharedData.loaded (.object [("general", .object [("tips", .string "oops")])]))
      "general" "tips" 0).1 (.string "oops") rfl).2 1 (by decide) rfl,
   ((add_repairs_or_creates SharedData.start "general" "lang" 0).2 rfl rfl).1 "en"⟩

/-- C7: a stored array with an element that is no string is not repaired: with
`[1]` stored, and with `["a", 1]` stored, `read(c, n, ["x"])` ends in the
`type_error` 302 that `get<std::vector<std::string>>()` throws. -/
theorem read_vector_throws_on_non_string_element :
    read_vector "c" "n" ["x"]
        (SharedData.loaded (.object [("c", .object [("n", .array [.number_integer 1])])]))
      = .error (.type_error 302) ∧
    read_vector "c" "n" ["x"]
        (SharedData.loaded
          (.object [("c", .object [("n", .array [.string "a", .number_integer 1])])]))
      = .error (.type_error 302) :=
  ⟨rfl, rfl⟩

/-- C8: in the document `{"c": 5}` the category exists and is a number; both `add`
overloads and the three `write` overloads throw `type_error` 305. The same
happens for every overload when the document itself is an array. -/
theorem add_and_write_throw_on_non_object_category :
    add_s64 "c" "n" 1 0 (SharedData.loaded (.object [("c", .number_integer 5)]))
      = .error (.type_error 305) ∧
    add_string "c" "n" "x" 0 (SharedData.loaded (.object [("c", .number_integer 5)]))
      = .error (.type_error 305) ∧
    write_s64 "c" "n" 1 (SharedData.loaded (.object [("c", .number_integer 5)]))
      = .error (.type_error 305) ∧
    write_string "c" "n" "x" (SharedData.loaded (.object [("c", .number_integer 5)]))
      = .error (.type_error 305) ∧
    write_vector "c" "n" ["x"] (SharedData.loaded (.object [("c", .number_integer 5)]))
      = .error (.type_error 305) ∧
    add_s64 "c" "n" 1 0 (SharedData.loaded (.array [])) = .error (.type_error 305) ∧
    write_s64 "c" "n" 1 (SharedData.loaded (.array [])) = .error (.type_error 305) :=
  ⟨rfl, rfl, rfl, rfl, rfl, rfl, rfl⟩

end ContentRegistry.Settings

/-! ## Facts about the key order -/

namespace StdString

theorem ltChars_cons (a b : Char) (as bs : List Char) :
    ltChars (a :: as) (b :: bs) = true ↔ a < b ∨ (a = b ∧ ltChars as bs = true) := by
  show (if a < b then true else if b < a then false else ltChars as bs) = true ↔ _
  by_cases hab : a < b
  · simp [hab]
  · by_cases hba : b < a
    · have hne : a ≠ b := fun e => hab (e ▸ hba)
      simp [hab, hba, hne]
    · have he : a = b := le_antisymm (not_lt.mp hba) (not_lt.mp hab)
      simp [hab, hba, he]

theorem ltChars_irrefl (a : List Char) : ltChars a a = false := by
  induction a with
  | nil => rfl
  | cons x xs ih =>
    cases h : ltChars (x :: xs) (x :: xs) with
    | false => rfl
    | true =>
      rcases (ltChars_cons x x xs xs).mp h with h1 | ⟨_, h2⟩
      · exact absurd h1 (lt_irrefl x)
      · rw [ih] at h2
        cases h2

theorem ltChars_trans (a b c : List Char) (hab : ltChars a b = true) (hbc : ltChars b c = true) :
    ltChars a c = true := by
  induction a generalizing b c with
  | nil =>
    cases b with
    | nil => simp [ltChars] at hab
    | cons y ys =>
      cases c with
      | nil => simp [ltChars] at hbc
      | cons z zs => rfl
  | cons x xs ih =>
    cases b with
    | nil => simp [ltChars] at hab
    | cons y ys =>
      cases c with
      | nil => simp [ltChars] at hbc
      | cons z zs =>
        rw [ltChars_cons] at hab hbc ⊢
        rcases hab with h1 | ⟨e1, h1⟩
        · rcases hbc with h2 | ⟨e2, _⟩
          · exact Or.inl (lt_trans h1 h2)
          · exact Or.inl (e2 ▸ h1)
        · rcases hbc with h2 | ⟨e2, h2⟩
          · exact Or.inl (e1 ▸ h2)
          · exact Or.inr ⟨e1.trans e2, ih ys zs h1 h2⟩

theorem ltChars_total (a b : List Char) (hab : ltChars a b = false) (hba : ltChars b a = false) :
    a = b := by
  induction a generalizing b with
  | nil =>
    cases b with
    | nil => rfl
    | cons y ys => simp [ltChars] at hab
  | cons x xs ih =>
    cases b with
    | nil => simp [ltChars] at hba
    | cons y ys =>
      have h1 : ¬ (x < y ∨ (x = y ∧ ltChars xs ys = true)) := by
        rw [← ltChars_cons]
        simp [hab]
      have h2 : ¬ (y < x ∨ (y = x ∧ ltChars ys xs = true)) := by
        rw [← ltChars_cons]
        simp [hba]
      have hxy : x = y := le_antisymm (not_lt.mp fun h => h2 (Or.inl h))
        (not_lt.mp fun h => h1 (Or.inl h))
      subst hxy
      have t1 : ltChars xs ys = false := by
        cases h : ltChars xs ys with
        | false => rfl
        | true => exact absurd (Or.inr ⟨rfl, h⟩) h1
      have t2 : ltChars ys xs = false := by
        cases h : ltChars ys xs with
        | false => rfl
        | true => exact absurd (Or.inr ⟨rfl, h⟩) h2
      rw [ih ys t1 t2]

theorem lt_irrefl (a : String) : lt a a = false := ltChars_irrefl a.data

theorem lt_trans (a b c : String) (hab : lt a b = true) (hbc : lt b c = true) :
    lt a c = true := ltChars_trans a.data b.data c.data hab hbc

theorem lt_of_not_lt_of_ne (a b : String) (hab : lt a b = false) (hne : a ≠ b) :
    lt b a = true := by
  cases h : lt b a with
  | true => rfl
  | false => exact absurd (String.ext (ltChars_total a.data b.data hab h)) hne

end StdString

/-! ## Facts about `StdMap` iteration order -/

namespace StdMap

variable {V : Type}

theorem find_eq_none_iff (m : StdMap V) (key : String) :
    find m key = none ↔ ∀ p ∈ m, p.1 ≠ key := by
  induction m with
  | nil => simp [find]
  | cons p rest ih =>
    obtain ⟨k, u⟩ := p
    by_cases hk : k = key
    · simp [find, hk]
    · simp [find, hk, ih]

theorem emplace_perm (m : StdMap V) (key : String) (v : V) :
    (emplace m key v).Perm ((key, v) :: m) := by
  induction m with
  | nil => simp [emplace]
  | cons p rest ih =>
    obtain ⟨k, u⟩ := p
    by_cases hlt : StdString.lt key k = true
    · simp [emplace, hlt]
    · simp only [emplace, hlt]
      exact ((List.Perm.cons _ ih).trans (List.Perm.swap _ _ _))

theorem emplace_ordered (m : StdMap V) (key : String) (v : V) (hm : Ordered m)
    (hk : find m key = none) : Ordered (emplace m key v) := by
  induction m with
  | nil => simp [emplace, Ordered]
  | cons p rest ih =>
    obtain ⟨k, u⟩ := p
    have hne : k ≠ key := by
      intro e
      simp [find, e] at hk
    have hrest : find rest key = none := by simpa [find, hne] using hk
    unfold Ordered at hm ⊢
    rw [List.pairwise_cons] at hm
    by_cases hlt : StdString.lt key k = true
    · simp only [emplace, hlt, if_true]
      refine List.Pairwise.cons ?_ (List.Pairwise.cons hm.1 hm.2)
      intro q hq
      rcases List.mem_cons.mp hq with rfl | hq
      · exact hlt
      · exact StdString.lt_trans _ _ _ hlt (hm.1 q hq)
    · simp only [emplace, hlt]
      refine List.Pairwise.cons ?_ (ih hm.2 hrest)
      intro q hq
      rcases List.mem_cons.mp ((emplace_perm rest key v).subset hq) with rfl | hq
      · exact StdString.lt_of_not_lt_of_ne key k (by simpa using hlt) (fun e => hne e.symm)
      · exact hm.1 q hq

theorem insert_of_absent (m : StdMap V) (key : String) (v : V) (hk : find m key = none) :
    insert m key v = emplace m key v := by
  simp [insert, contains, hk]

end StdMap

/-! ## Views -/

namespace ContentRegistry.Views

theorem addAll_entries (views : List View) (s : SharedData)
    (hs : StdMap.Ordered (getEntries s))
    (hd : (views.map View.unlocalizedName).Nodup)
    (hnew : ∀ view ∈ views, StdMap.find (getEntries s) view.unlocalizedName = none) :
    StdMap.Ordered (getEntries (addAll views s)) ∧
      (getEntries (addAll views s)).Perm (views.map node ++ getEntries s) := by
  induction views generalizing s with
  | nil => exact ⟨hs, by simp [addAll]⟩
  | cons view rest ih =>
    have hfind := hnew view (List.mem_cons_self _ _)
    have hstep : getEntries (impl.add view s) =
        StdMap.emplace (getEntries s) view.unlocalizedName view :=
      StdMap.insert_of_absent _ _ _ hfind
    rw [List.map_cons, List.nodup_cons] at hd
    have hord : StdMap.Ordered (getEntries (impl.add view s)) := by
      rw [hstep]
      exact StdMap.emplace_ordered _ _ _ hs hfind
    have hnew2 : ∀ w ∈ rest, StdMap.find (getEntries (impl.add view s)) w.unlocalizedName
        = none := by
      intro w hw
      rw [hstep, StdMap.find_emplace_ne]
      · exact hnew w (List.mem_cons_of_mem _ hw)
      · intro e
        exact hd.1 (e ▸ List.mem_map_of_mem _ hw)
    obtain ⟨h1, h2⟩ := ih (impl.add view s) hord hd.2 hnew2
    refine ⟨h1, ?_⟩
    have h3 : (getEntries (addAll (view :: rest) s)).Perm
        (rest.map node ++ getEntries (impl.add view s)) := h2
    rw [hstep] at h3
    refine h3.trans ?_
    refine ((StdMap.emplace_perm _ _ _).append_left _).trans ?_
    simp only [List.map_cons, List.cons_append]
    exact List.perm_middle

end ContentRegistry.Views

/-! ## Registry tables: the claims -/

namespace ContentRegistry

/-- C9: for each vector-backed table, `add` is a total function of the tables and
leaves `getEntries()` equal to the previous sequence followed by the new entry,
whatever the table held before, an entry with the same key included. -/
theorem vector_tables_add_appends (s : SharedData) :
    (∀ name f, Tools.getEntries (Tools.add name f s) = Tools.getEntries s ++ [⟨name, f⟩]) ∧
    (∀ name cb, DataFormatter.getEntries (DataFormatter.add name cb s)
      = DataFormatter.getEntries s ++ [⟨name, cb⟩]) ∧
    (∀ exts cb, FileHandler.getEntries (FileHandler.add exts cb s)
      = FileHandler.getEntries s ++ [⟨exts, cb⟩]) ∧
    (∀ type command desc display execute,
      CommandPaletteCommands.getEntries
          (CommandPaletteCommands.add type command desc display execute s)
        = CommandPaletteCommands.getEntries s ++ [⟨type, command, desc, display, execute⟩]) ∧
    (∀ name size f, DataInspector.getEntries (DataInspector.add name size f s)
      = DataInspector.getEntries s ++ [⟨name, size, f⟩]) ∧
    (∀ name, Provider.getEntries (Provider.impl.addProviderName name s)
      = Provider.getEntries s ++ [name]) ∧
    (∀ name f, Interface.getMainMenuItems (Interface.registerMainMenuItem name f s)
      = Interface.getMainMenuItems s ++ [⟨name, f⟩]) ∧
    (∀ entry, DataProcessorNode.getEntries (DataProcessorNode.impl.add entry s)
      = DataProcessorNode.getEntries s ++ [entry]) ∧
    (∀ f, Interface.getWelcomeScreenEntries (Interface.addWelcomeScreenEntry f s)
      = Interface.getWelcomeScreenEntries s ++ [f]) ∧
    (∀ f, Interface.getFooterItems (Interface.addFooterItem f s)
      = Interface.getFooterItems s ++ [f]) ∧
    (∀ f, Interface.getToolbarItems (Interface.addToolbarItem f s)
      = Interface.getToolbarItems s ++ [f]) ∧
    (∀ name f, Interface.getLayouts (Interface.addLayout name f s)
      = Interface.getLayouts s ++ [⟨name, f⟩]) :=
  ⟨fun _ _ => rfl, fun _ _ => rfl, fun _ _ => rfl, fun _ _ _ _ _ => rfl, fun _ _ _ => rfl,
    fun _ => rfl, fun _ _ => rfl, fun _ => rfl, fun _ => rfl, fun _ => rfl, fun _ => rfl,
    fun _ _ => rfl⟩

end ContentRegistry

/-- Counterexample to C10: the views named `b` and `a`, added in this order to the
empty table, are visited by the render loop in the order `a`, `b`. -/
theorem Window.frameViews_not_in_insertion_order :
    (([⟨1, "b"⟩, ⟨2, "a"⟩] : List View).map View.unlocalizedName).Nodup ∧
    Window.frameViews (ContentRegistry.Views.addAll [⟨1, "b"⟩, ⟨2, "a"⟩] SharedData.start)
      = [⟨2, "a"⟩, ⟨1, "b"⟩] ∧
    Window.frameViews (ContentRegistry.Views.addAll [⟨1, "b"⟩, ⟨2, "a"⟩] SharedData.start)
      ≠ [⟨1, "b"⟩, ⟨2, "a"⟩] := by
  decide

/-- C10, amended: for every sequence of views with pairwise distinct unlocalized
names added through `Views::add` to the empty table, iterating
`Views::getEntries()` as the render loop does yields every added view once, in
strictly increasing order of the unlocalized names as `std::string` compares
them, whatever the order in which they were added. -/
theorem Window.frameViews_in_name_order (views : List View) (s : SharedData)
    (hs : ContentRegistry.Views.getEntries s = [])
    (hd : (views.map View.unlocalizedName).Nodup) :
    (Window.frameViews (ContentRegistry.Views.addAll views s)).Perm views ∧
    (Window.frameViews (ContentRegistry.Views.addAll views s)).Pairwise
      (fun a b => StdString.lt a.unlocalizedName b.unlocalizedName = true) := by
  obtain ⟨hord, hperm⟩ := ContentRegistry.Views.addAll_entries views s
    (by rw [hs]; exact List.Pairwise.nil) hd (fun view _ => by rw [hs]; rfl)
  rw [hs, List.append_nil] at hperm
  constructor
  · have := hperm.map Prod.snd
    simpa [Window.frameViews, ContentRegistry.Views.node, Function.comp_def] using this
  · unfold Window.frameViews
    rw [List.pairwise_map]
    refine List.Pairwise.imp_of_mem ?_ hord
    intro p q hp hq hlt
    obtain ⟨v, _, rfl⟩ := List.mem_map.mp (hperm.subset hp)
    obtain ⟨w, _, rfl⟩ := List.mem_map.mp (hperm.subset hq)
    exact hlt

/-- Witness of C10: the views `b`, `a`, `c` added in this order. -/
theorem Window.frameViews_in_name_order_witness :
    (Window.frameViews
      (ContentRegistry.Views.addAll [⟨1, "b"⟩, ⟨2, "a"⟩, ⟨3, "c"⟩] SharedData.start)).Perm
        [⟨1, "b"⟩, ⟨2, "a"⟩, ⟨3, "c"⟩] ∧
    (Window.frameViews
      (ContentRegistry.Views.addAll [⟨1, "b"⟩, ⟨2, "a"⟩, ⟨3, "c"⟩] SharedData.start)).Pairwise
        (fun a b => StdString.lt a.unlocalizedName b.unlocalizedName = true) :=
  Window.frameViews_in_name_order [⟨1, "b"⟩, ⟨2, "a"⟩, ⟨3, "c"⟩] SharedData.start rfl
    (by decide)


/-! ## More facts about `StdMap` -/

namespace StdMap

variable {V : Type}

theorem find_assign_self (m : StdMap V) (key : String) (v : V) :
    find (assign m key v) key = some v := by
  unfold assign
  cases h : contains m key with
  | true =>
    obtain ⟨w, hw⟩ := (contains_eq_true_iff m key).mp h
    simpa using find_set_self m key v w hw
  | false =>
    simpa using find_emplace_self m key v ((contains_eq_false_iff m key).mp h)

theorem find_assign_ne (m : StdMap V) (key other : String) (v : V) (h : other ≠ key) :
    find (assign m key v) other = find m other := by
  unfold assign
  cases contains m key with
  | true => simpa using find_set_ne m key other v h
  | false => simpa using find_emplace_ne m key other v h

theorem keys_set (m : StdMap V) (key : String) (v : V) :
    (set m key v).map Prod.fst = m.map Prod.fst := by
  induction m with
  | nil => rfl
  | cons p rest ih =>
    obtain ⟨k, u⟩ := p
    by_cases hk : k = key
    · simp [set, hk]
    · simp [set, hk, ih]

theorem ordered_iff_keys (m : StdMap V) :
    Ordered m ↔ List.Pairwise (fun a b => StdString.lt a b = true) (m.map Prod.fst) := by
  unfold Ordered
  rw [List.pairwise_map]

theorem set_ordered (m : StdMap V) (key : String) (v : V) (hm : Ordered m) :
    Ordered (set m key v) := by
  rw [ordered_iff_keys] at hm ⊢
  rw [keys_set]
  exact hm

theorem assign_ordered (m : StdMap V) (key : String) (v : V) (hm : Ordered m) :
    Ordered (assign m key v) := by
  unfold assign
  cases h : contains m key with
  | true => simpa using set_ordered m key v hm
  | false => simpa using emplace_ordered m key v hm ((contains_eq_false_iff m key).mp h)

/-- In a map with increasing keys a node is what `find` returns for its key. -/
theorem find_of_mem (m : StdMap V) (key : String) (v : V) (hm : Ordered m)
    (h : (key, v) ∈ m) : find m key = some v := by
  induction m with
  | nil => cases h
  | cons p rest ih =>
    obtain ⟨k, u⟩ := p
    unfold Ordered at hm
    rw [List.pairwise_cons] at hm
    rcases List.mem_cons.mp h with heq | hrest
    · cases heq
      simp [find]
    · have hlt := hm.1 (key, v) hrest
      have hne : k ≠ key := by
        intro e
        rw [e, StdString.lt_irrefl] at hlt
        cases hlt
      simpa [find, hne] using ih hm.2 hrest

theorem mem_of_find (m : StdMap V) (key : String) (v : V) (h : find m key = some v) :
    (key, v) ∈ m := by
  induction m with
  | nil => simp [find] at h
  | cons p rest ih =>
    obtain ⟨k, u⟩ := p
    by_cases hk : k = key
    · simp [find, hk] at h
      simp [hk, h]
    · simp [find, hk] at h
      exact List.mem_cons_of_mem _ (ih h)

theorem length_set (m : StdMap V) (key : String) (v : V) :
    (set m key v).length = m.length := by
  have := congrArg List.length (keys_set m key v)
  simpa using this

theorem length_emplace (m : StdMap V) (key : String) (v : V) :
    (emplace m key v).length = m.length + 1 := by
  simpa using (emplace_perm m key v).length_eq

theorem find_insert_of_find (m : StdMap V) (key other : String) (v w : V)
    (h : find m key = some v) : find (insert m other w) key = some v := by
  unfold insert
  cases hc : contains m other with
  | true => simpa using h
  | false =>
    have hne : key ≠ other := by
      intro e
      rw [e, (contains_eq_false_iff m other).mp hc] at h
      cases h
    simpa [find_emplace_ne m other key w hne] using h

end StdMap

/-! ## Pattern language functions and views: the claims -/

namespace ContentRegistry

namespace PatternLanguage

/-- Counterexample to C11: `std::print` registered with one parameter and then
with two; the table holds the second registration only. -/
theorem second_registration_evicts_first :
    getFunctions (addFunction ["std"] "print" 2 8
        (addFunction ["std"] "print" 1 7 SharedData.start))
      = [("std::print", ⟨2, 8, false⟩)] ∧
    ("std::print", (⟨1, 7, false⟩ : Function)) ∉
      getFunctions (addFunction ["std"] "print" 2 8
        (addFunction ["std"] "print" 1 7 SharedData.start)) := by
  decide

/-- C11, amended: in the function table a later registration under the same
namespace and name replaces the earlier one. After `addFunction(ns, name, p1, f1)`
followed by `addFunction` or `addDangerousFunction` with the same `ns` and `name`,
a count `p2` and a callback `f2`, the table maps the namespaced name to the entry
registered last, every node under that name is this entry, the number of nodes is
the one after the first call, and for `p2` different from `p1` the entry
registered first is not in `getFunctions()`. -/
theorem later_registration_replaces (s : SharedData) (ns : List String) (name : String)
    (p1 p2 : Nat) (f1 f2 : Callback) (hs : StdMap.Ordered (getFunctions s)) :
    (StdMap.find (getFunctions (addFunction ns name p2 f2 (addFunction ns name p1 f1 s)))
        (getFunctionName ns name) = some ⟨p2, f2, false⟩ ∧
      (∀ e, (getFunctionName ns name, e) ∈
          getFunctions (addFunction ns name p2 f2 (addFunction ns name p1 f1 s)) →
        e = ⟨p2, f2, false⟩) ∧
      (getFunctions (addFunction ns name p2 f2 (addFunction ns name p1 f1 s))).length
        = (getFunctions (addFunction ns name p1 f1 s)).length ∧
      (p2 ≠ p1 → (getFunctionName ns name, (⟨p1, f1, false⟩ : Function)) ∉
        getFunctions (addFunction ns name p2 f2 (addFunction ns name p1 f1 s)))) ∧
    (StdMap.find
        (getFunctions (addDangerousFunction ns name p2 f2 (addFunction ns name p1 f1 s)))
        (getFunctionName ns name) = some ⟨p2, f2, true⟩ ∧
      (∀ e, (getFunctionName ns name, e) ∈
          getFunctions (addDangerousFunction ns name p2 f2 (addFunction ns name p1 f1 s)) →
        e = ⟨p2, f2, true⟩) ∧
      (getFunctions (addDangerousFunction ns name p2 f2 (addFunction ns name p1 f1 s))).length
        = (getFunctions (addFunction ns name p1 f1 s)).length ∧
      (getFunctionName ns name, (⟨p1, f1, false⟩ : Function)) ∉
        getFunctions (addDangerousFunction ns name p2 f2 (addFunction ns name p1 f1 s))) := by
  have key : ∀ (w : Function),
      let m1 := StdMap.assign (getFunctions s) (getFunctionName ns name) ⟨p1, f1, false⟩
      let m2 := StdMap.assign m1 (getFunctionName ns name) w
      StdMap.find m2 (getFunctionName ns name) = some w ∧
        (∀ e, (getFunctionName ns name, e) ∈ m2 → e = w) ∧ m2.length = m1.length := by
    intro w m1 m2
    have h1 : StdMap.Ordered m1 := StdMap.assign_ordered _ _ _ hs
    have h2 : StdMap.Ordered m2 := StdMap.assign_ordered _ _ _ h1
    have hfind : StdMap.find m2 (getFunctionName ns name) = some w :=
      StdMap.find_assign_self _ _ _
    refine ⟨hfind, fun e he => ?_, ?_⟩
    · have := StdMap.find_of_mem m2 _ e h2 he
      rw [hfind] at this
      cases this
      rfl
    · have hc : StdMap.contains m1 (getFunctionName ns name) = true :=
        (StdMap.contains_eq_true_iff _ _).mpr ⟨_, StdMap.find_assign_self _ _ _⟩
      show (StdMap.assign m1 _ w).length = _
      simp [StdMap.assign, hc, StdMap.length_set]
  obtain ⟨a1, a2, a3⟩ := key ⟨p2, f2, false⟩
  obtain ⟨b1, b2, b3⟩ := key ⟨p2, f2, true⟩
  refine ⟨⟨a1, a2, a3, fun hne hmem => ?_⟩, ⟨b1, b2, b3, fun hmem => ?_⟩⟩
  · have := a2 _ hmem
    injection this with hp
    exact hne hp.symm
  · have := b2 _ hmem
    injection this with _ _ hd
    cases hd

/-- Witness of C11: the two registrations of `std::print` in the empty table. -/
theorem later_registration_replaces_witness :
    StdMap.find (getFunctions (addFunction ["std"] "print" 2 8
        (addFunction ["std"] "print" 1 7 SharedData.start)))
      (getFunctionName ["std"] "print") = some ⟨2, 8, false⟩ ∧
    (getFunctionName ["std"] "print", (⟨1, 7, false⟩ : Function)) ∉
      getFunctions (addDangerousFunction ["std"] "print" 2 8
        (addFunction ["std"] "print" 1 7 SharedData.start)) :=
  ⟨(later_registration_replaces SharedData.start ["std"] "print" 1 2 7 8
      List.Pairwise.nil).1.1,
   (later_registration_replaces SharedData.start ["std"] "print" 1 2 7 8
      List.Pairwise.nil).2.2.2.2⟩

end PatternLanguage

end ContentRegistry

namespace ContentRegistry

namespace Views

theorem find_addAll_of_find (later : List View) (s : SharedData) (name : String) (view : View)
    (h : StdMap.find (getEntries s) name = some view) :
    StdMap.find (getEntries (addAll later s)) name = some view := by
  induction later generalizing s with
  | nil => exact h
  | cons w rest ih =>
    exact ih (impl.add w s) (StdMap.find_insert_of_find _ _ _ _ _ h)

/-- Counterexample to C12: a second view named `a` is not added; the table keeps
one entry, the view registered first. -/
theorem add_same_name_adds_nothing :
    getEntries (impl.add ⟨2, "a"⟩ (impl.add ⟨1, "a"⟩ SharedData.start))
      = [("a", ⟨1, "a"⟩)] ∧
    (getEntries (impl.add ⟨2, "a"⟩ (impl.add ⟨1, "a"⟩ SharedData.start))).length
      ≠ (getEntries (impl.add ⟨1, "a"⟩ SharedData.start)).length + 1 ∧
    ("a", (⟨2, "a"⟩ : View)) ∉
      getEntries (impl.add ⟨2, "a"⟩ (impl.add ⟨1, "a"⟩ SharedData.start)) := by
  decide

/-- C12, amended: `Views::add` keeps the unlocalized names of the table unique.
Adding a view whose name equals that of an already registered view changes
nothing: the registered view stays and the new one is not added. Adding a view
under a name that is not registered adds exactly one entry, which holds the
view. -/
theorem add_unique_names (s : SharedData) (view : View) :
    (∀ registered, StdMap.find (getEntries s) view.unlocalizedName = some registered →
      impl.add view s = s ∧
      StdMap.find (getEntries (impl.add view s)) view.unlocalizedName = some registered) ∧
    (StdMap.find (getEntries s) view.unlocalizedName = none →
      (getEntries (impl.add view s)).length = (getEntries s).length + 1 ∧
      StdMap.find (getEntries (impl.add view s)) view.unlocalizedName = some view) := by
  constructor
  · intro registered h
    have hc : StdMap.contains (getEntries s) view.unlocalizedName = true :=
      (StdMap.contains_eq_true_iff _ _).mpr ⟨registered, h⟩
    have hadd : impl.add view s = s := by
      have hins : StdMap.insert (getEntries s) view.unlocalizedName view = s.views := by
        unfold StdMap.insert
        rw [hc]
        rfl
      unfold impl.add
      rw [hins]
    exact ⟨hadd, by rw [hadd]; exact h⟩
  · intro h
    have hstep : getEntries (impl.add view s) =
        StdMap.emplace (getEntries s) view.unlocalizedName view :=
      StdMap.insert_of_absent _ _ _ h
    rw [hstep]
    exact ⟨StdMap.length_emplace _ _ _, StdMap.find_emplace_self _ _ _ h⟩

/-- Witness of C12: a second view named `a` leaves the table as it is; a view named
`b` adds one entry. -/
theorem add_unique_names_witness :
    impl.add ⟨2, "a"⟩ (impl.add ⟨1, "a"⟩ SharedData.start)
      = impl.add ⟨1, "a"⟩ SharedData.start ∧
    (getEntries (impl.add ⟨3, "b"⟩ (impl.add ⟨1, "a"⟩ SharedData.start))).length
      = (getEntries (impl.add ⟨1, "a"⟩ SharedData.start)).length + 1 :=
  ⟨((add_unique_names (impl.add ⟨1, "a"⟩ SharedData.start) ⟨2, "a"⟩).1 ⟨1, "a"⟩ rfl).1,
   ((add_unique_names (impl.add ⟨1, "a"⟩ SharedData.start) ⟨3, "b"⟩).2 rfl).1⟩

/-- C14: for a name that is not registered in the Views table,
`Views::getViewByName(name)` returns null and leaves the tables, the Views table
among them, as they were; no entry is created for the name. -/
theorem getViewByName_unregistered (s : SharedData) (name : String)
    (h : StdMap.find (getEntries s) name = none) :
    getViewByName name s = (none, s) ∧
      StdMap.find (getEntries (getViewByName name s).2) name = none := by
  have hc : StdMap.contains (getEntries s) name = false :=
    (StdMap.contains_eq_false_iff _ _).mpr h
  have hget : getViewByName name s = (none, s) := by
    simp [getViewByName, hc]
  exact ⟨hget, by rw [hget]; exact h⟩

/-- Witness of C14: the name `missing` in a table that holds the view `a`. -/
theorem getViewByName_unregistered_witness :
    getViewByName "missing" (impl.add ⟨1, "a"⟩ SharedData.start)
      = (none, impl.add ⟨1, "a"⟩ SharedData.start) :=
  (getViewByName_unregistered (impl.add ⟨1, "a"⟩ SharedData.start) "missing" rfl).1

/-- C15: a view added through `Views::add` under a name not registered before is
what `Views::getViewByName` returns for that name, it is the view the node of
`Views::getEntries()` with that name holds, and it stays so when further views
are added. -/
theorem getViewByName_added (s : SharedData) (view : View)
    (h : StdMap.find (getEntries s) view.unlocalizedName = none) :
    getViewByName view.unlocalizedName (impl.add view s) = (some view, impl.add view s) ∧
      (view.unlocalizedName, view) ∈ getEntries (impl.add view s) ∧
      ∀ later : List View,
        (getViewByName view.unlocalizedName (addAll later (impl.add view s))).1 = some view ∧
        (view.unlocalizedName, view) ∈ getEntries (addAll later (impl.add view s)) := by
  have hfind : StdMap.find (getEntries (impl.add view s)) view.unlocalizedName = some view :=
    ((add_unique_names s view).2 h).2
  have hget : ∀ t : SharedData, StdMap.find (getEntries t) view.unlocalizedName = some view →
      getViewByName view.unlocalizedName t = (some view, t) := by
    intro t ht
    have hc : StdMap.contains (getEntries t) view.unlocalizedName = true :=
      (StdMap.contains_eq_true_iff _ _).mpr ⟨view, ht⟩
    simp [getViewByName, hc, ht]
  refine ⟨hget _ hfind, StdMap.mem_of_find _ _ _ hfind, fun later => ?_⟩
  have hl := find_addAll_of_find later (impl.add view s) _ view hfind
  exact ⟨by rw [hget _ hl], StdMap.mem_of_find _ _ _ hl⟩

/-- Witness of C15: the view `b` added to a table that holds `a`, then looked up,
also after `c` was added. -/
theorem getViewByName_added_witness :
    getViewByName "b" (impl.add ⟨2, "b"⟩ (impl.add ⟨1, "a"⟩ SharedData.start))
      = (some ⟨2, "b"⟩, impl.add ⟨2, "b"⟩ (impl.add ⟨1, "a"⟩ SharedData.start)) ∧
    (getViewByName "b"
      (addAll [⟨3, "c"⟩] (impl.add ⟨2, "b"⟩ (impl.add ⟨1, "a"⟩ SharedData.start)))).1
      = some ⟨2, "b"⟩ :=
  ⟨(getViewByName_added (impl.add ⟨1, "a"⟩ SharedData.start) ⟨2, "b"⟩ rfl).1,
   ((getViewByName_added (impl.add ⟨1, "a"⟩ SharedData.start) ⟨2, "b"⟩ rfl).2.2
      [⟨3, "c"⟩]).1⟩

end Views

namespace PatternLanguage

theorem intercalate_go (acc : String) (rest : List String) (name : String) :
    String.intercalate.go acc "::" (rest ++ [name])
      = rest.foldl (fun functionName scope => functionName ++ (scope ++ "::")) (acc ++ "::")
          ++ name := by
  induction rest generalizing acc with
  | nil => simp [String.intercalate.go]
  | cons r rs ih =>
    show String.intercalate.go (acc ++ "::" ++ r) "::" (rs ++ [name]) = _
    rw [ih]
    simp [String.append_assoc]

theorem foldl_scopes (acc : String) (ns : List String) :
    ns.foldl (fun functionName scope => functionName ++ (scope ++ "::")) acc
      = acc ++ ns.foldl (fun functionName scope => functionName ++ (scope ++ "::")) "" := by
  induction ns generalizing acc with
  | nil => simp
  | cons r rs ih =>
    simp only [List.foldl_cons]
    rw [ih, ih ("" ++ (r ++ "::"))]
    simp [String.append_assoc]

/-- C16: the key under which a pattern language function is registered is the
scope segments of the namespace and the function name joined by `"::"`: for the
empty namespace it is the name alone, and a further leading segment `scope` puts
`scope` and `"::"` in front of the key of the rest. -/
theorem getFunctionName_eq_joinedName (ns : List String) (name : String) :
    getFunctionName ns name = joinedName ns name ∧
    getFunctionName [] name = name ∧
    (∀ scope, getFunctionName (scope :: ns) name
      = scope ++ "::" ++ getFunctionName ns name) ∧
    (∀ parameterCount func s,
      StdMap.find (getFunctions (addFunction ns name parameterCount func s))
        (joinedName ns name) = some ⟨parameterCount, func, false⟩) := by
  have h1 : getFunctionName ns name = joinedName ns name := by
    cases ns with
    | nil => simp [getFunctionName, joinedName, String.intercalate, String.intercalate.go]
    | cons r rs =>
      simp only [getFunctionName, joinedName, List.cons_append, String.intercalate,
        List.foldl_cons]
      rw [intercalate_go]
      simp
  refine ⟨h1, by simp [getFunctionName], fun scope => ?_, fun p f s => ?_⟩
  · simp only [getFunctionName, List.foldl_cons]
    rw [foldl_scopes]
    simp [String.append_assoc]
  · rw [← h1]
    exact StdMap.find_assign_self _ _ _

/-- C17: after `addFunction(ns, name, n, f)` the function table maps the namespaced
name of `(ns, name)` to the entry with count `n`, callback `f` and dangerous flag
false, after `addDangerousFunction(ns, name, n, f)` to the entry with count `n`,
callback `f` and dangerous flag true; what the table maps every other key to is
unchanged. -/
theorem addFunction_maps_name (s : SharedData) (ns : List String) (name : String)
    (n : Nat) (f : Callback) :
    (StdMap.find (getFunctions (addFunction ns name n f s)) (getFunctionName ns name)
        = some ⟨n, f, false⟩ ∧
      ∀ other, other ≠ getFunctionName ns name →
        StdMap.find (getFunctions (addFunction ns name n f s)) other
          = StdMap.find (getFunctions s) other) ∧
    (StdMap.find (getFunctions (addDangerousFunction ns name n f s)) (getFunctionName ns name)
        = some ⟨n, f, true⟩ ∧
      ∀ other, other ≠ getFunctionName ns name →
        StdMap.find (getFunctions (addDangerousFunction ns name n f s)) other
          = StdMap.find (getFunctions s) other) :=
  ⟨⟨StdMap.find_assign_self _ _ _, fun other h => StdMap.find_assign_ne _ _ other _ h⟩,
   ⟨StdMap.find_assign_self _ _ _, fun other h => StdMap.find_assign_ne _ _ other _ h⟩⟩

/-- Witness of C17: `std::print` registered in a table that holds `std::mem::read`;
the entry of `std::mem::read` is unchanged. -/
theorem addFunction_maps_name_witness :
    StdMap.find (getFunctions (addDangerousFunction ["std"] "print" 1 7
        (addFunction ["std", "mem"] "read" 2 5 SharedData.start))) "std::mem::read"
      = StdMap.find (getFunctions (addFunction ["std", "mem"] "read" 2 5 SharedData.start))
          "std::mem::read" :=
  (addFunction_maps_name (addFunction ["std", "mem"] "read" 2 5 SharedData.start)
    ["std"] "print" 1 7).2.2 "std::mem::read" (by decide)

end PatternLanguage

end ContentRegistry

/-! ## Dropped files: the claims -/

namespace Window

theorem handlersCalled_append (a b : List DropEvent) :
    handlersCalled (a ++ b) = handlersCalled a ++ handlersCalled b := by
  induction a with
  | nil => rfl
  | cons e rest ih =>
    cases e <;> simp [handlersCalled, ih]

theorem handlersCalled_dropExtensions (result : Callback → String → Bool) (path : String)
    (handler : Callback) (extensions : List String) :
    handlersCalled (dropExtensions result path handler extensions).1
      = if StdPath.extension path ∈ extensions then [handler] else [] := by
  induction extensions with
  | nil => simp [dropExtensions, handlersCalled]
  | cons e rest ih =>
    by_cases he : StdPath.extension path = e
    · cases hr : result handler path <;>
        simp [dropExtensions, he, hr, handlersCalled]
    · have hne : ¬ e = StdPath.extension path := fun h => he h.symm
      simp only [dropExtensions, he, if_false, ih, List.mem_cons]
      by_cases hm : StdPath.extension path ∈ rest
      · simp [hm]
      · simp [hm, he]

theorem handlersCalled_dropHandlers (result : Callback → String → Bool) (path : String)
    (entries : List ContentRegistry.FileHandler.Entry) (handled : Bool) :
    handlersCalled (dropHandlers result path entries handled).1
      = (entries.filter
          (fun entry => decide (StdPath.extension path ∈ entry.extensions))).map
          (fun entry => entry.callback) := by
  induction entries generalizing handled with
  | nil => simp [dropHandlers, handlersCalled]
  | cons entry rest ih =>
    simp only [dropHandlers, handlersCalled_append, handlersCalled_dropExtensions, ih]
    by_cases hm : StdPath.extension path ∈ entry.extensions
    · simp [List.filter, hm]
    · simp [List.filter, hm]

/-- Counterexample to C13: two handlers list `.tbl`; for the dropped file
`data.tbl` the handler registered first is called and then the one registered
later is called as well. -/
theorem dropCallback_calls_later_handler_too :
    dropCallback (fun _ _ => true) ["data.tbl"]
        (ContentRegistry.FileHandler.add [".tbl"] 2
          (ContentRegistry.FileHandler.add [".tbl"] 1 SharedData.start))
      = [DropEvent.handlerCalled 1 "data.tbl", DropEvent.handlerCalled 2 "data.tbl"] := by
  decide

/-- C13, amended: when one file is dropped, the registered file handlers are tried
in registration order and every handler that lists the extension of the file is
called, once each and in registration order, whatever the handlers return; a
handler that does not list the extension is not called. With handlers for
`.hexproj` and `.tbl` and the file `data.tbl`, only the `.tbl` handler runs,
once. -/
theorem dropCallback_calls_every_listing_handler (result : Callback → String → Bool)
    (path : String) (s : SharedData) :
    handlersCalled (dropCallback result [path] s)
      = ((ContentRegistry.FileHandler.getEntries s).filter
          (fun entry => decide (StdPath.extension path ∈ entry.extensions))).map
          (fun entry => entry.callback) ∧
    dropCallback (fun _ _ => true) ["data.tbl"]
        (ContentRegistry.FileHandler.add [".tbl"] 2
          (ContentRegistry.FileHandler.add [".hexproj"] 1 SharedData.start))
      = [DropEvent.handlerCalled 2 "data.tbl"] := by
  refine ⟨?_, by decide⟩
  simp only [dropCallback, List.length_singleton, bne_self_eq_false, Bool.false_eq_true,
    if_false, List.flatMap_cons, List.flatMap_nil, List.append_nil, handlersCalled_append,
    handlersCalled_dropHandlers]
  cases (dropHandlers result path (ContentRegistry.FileHandler.getEntries s) false).2 <;>
    simp [handlersCalled]

end Window

/-! ## Settings persistence: the claims -/

namespace ContentRegistry.Settings

variable {Text : Type}

theorem store_skips (codec : JsonText Text) (pre rest : List String) (s : SharedData)
    (files : FileSystem Text) (hpre : ∀ x ∈ pre, (files x).writable = false) :
    store codec (pre ++ rest) s files = store codec rest s files := by
  induction pre with
  | nil => rfl
  | cons d ds ih =>
    have hd : (files d).writable = false := hpre d (List.mem_cons_self _ _)
    simp only [List.cons_append, store, hd]
    exact ih (fun x hx => hpre x (List.mem_cons_of_mem _ hx))

theorem store_first_writable (codec : JsonText Text) (pre post : List String) (dir : String)
    (s : SharedData) (files : FileSystem Text)
    (hpre : ∀ x ∈ pre, (files x).writable = false) (hw : (files dir).writable = true) :
    store codec (pre ++ dir :: post) s files = writeFile files dir (codec.dump s.settingsJson) := by
  rw [store_skips codec pre _ s files hpre]
  simp [store, hw, getSettingsData]

theorem scan_skips (codec : JsonText Text) (files : FileSystem Text) (pre rest : List String)
    (hpre : ∀ x ∈ pre, openInput files x = none) :
    load.scan codec files (pre ++ rest)
      = (load.scan codec files rest).map (fun r => (r.1, pre ++ r.2)) := by
  induction pre with
  | nil =>
    simp only [List.nil_append]
    cases load.scan codec files rest <;> rfl
  | cons d ds ih =>
    have hd : openInput files d = none := hpre d (List.mem_cons_self _ _)
    have ih2 := ih (fun x hx => hpre x (List.mem_cons_of_mem _ hx))
    simp only [List.cons_append, load.scan, hd, List.append_eq]
    rw [ih2]
    cases load.scan codec files rest <;> rfl

theorem scan_none (codec : JsonText Text) (files : FileSystem Text) (dirs : List String)
    (h : ∀ x ∈ dirs, openInput files x = none) :
    load.scan codec files dirs = .ok (none, dirs) := by
  have := scan_skips codec files dirs [] h
  simpa [load.scan, Except.map] using this

theorem load_first_openable (codec : JsonText Text) (pre post : List String) (dir : String)
    (s : SharedData) (files : FileSystem Text) (text : Text)
    (hpre : ∀ x ∈ pre, openInput files x = none) (hd : openInput files dir = some text) :
    load codec (pre ++ dir :: post) s files
      = (codec.parse text).map
          (fun json => ⟨{ s with settingsJson := json }, files, pre ++ [dir]⟩) := by
  unfold load
  rw [scan_skips codec files pre _ hpre]
  simp only [load.scan, hd]
  cases codec.parse text <;> rfl

/-- Counterexample to C19: no settings file exists and the in-memory document
holds an entry when `load()` is called. `load()` does not empty the document: it
holds the entry afterwards, and the file written holds it too. -/
theorem load_keeps_document_when_no_file :
    (load JsonText.exact ["user"]
        (SharedData.loaded (.object [("general", .object [("tips", .number_integer 1)])]))
        (fun _ => ⟨none, true, true⟩)).map (fun r => r.data.settingsJson)
      = .ok (.object [("general", .object [("tips", .number_integer 1)])]) ∧
    (load JsonText.exact ["user"]
        (SharedData.loaded (.object [("general", .object [("tips", .number_integer 1)])]))
        (fun _ => ⟨none, true, true⟩)).map (fun r => (r.files "user").content)
      = .ok (some (.object [("general", .object [("tips", .number_integer 1)])])) ∧
    (Json.object [("general", .object [("tips", .number_integer 1)])]).empty = false :=
  ⟨rfl, rfl, rfl⟩

/-- C19, amended: when no candidate configuration directory holds an openable
`settings.json`, `load()` leaves the in-memory document as it was before the call
and persists it with `store()`, after trying every candidate for reading:
afterwards the first writable candidate directory holds a settings file with the
text of the in-memory document, and every other settings file is as before. For
the document of process start this is the empty document. -/
theorem load_without_file (codec : JsonText Text) (configPaths : List String) (s : SharedData)
    (files : FileSystem Text) (hnone : ∀ x ∈ configPaths, openInput files x = none) :
    load codec configPaths s files = .ok ⟨s, store codec configPaths s files, configPaths⟩ ∧
    (∀ pre post dir, configPaths = pre ++ dir :: post →
      (∀ x ∈ pre, (files x).writable = false) → (files dir).writable = true →
      (store codec configPaths s files dir).content = some (codec.dump s.settingsJson) ∧
      ∀ other, other ≠ dir → store codec configPaths s files other = files other) ∧
    SharedData.start.settingsJson.empty = true := by
  refine ⟨?_, fun pre post dir hsplit hpre hw => ?_, rfl⟩
  · simp [load, scan_none codec files configPaths hnone, bind, Except.bind, pure, Except.pure]
  · rw [hsplit, store_first_writable codec pre post dir s files hpre hw]
    exact ⟨by simp [writeFile], fun other hne => by simp [writeFile, hne]⟩

/-- Witness of C19: at process start, with one writable candidate directory and no
settings file, `load()` keeps the document and writes its text. -/
theorem load_without_file_witness :
    load JsonText.exact ["user"] SharedData.start (fun _ => ⟨none, true, true⟩)
      = .ok ⟨SharedData.start,
          store JsonText.exact ["user"] SharedData.start (fun _ => ⟨none, true, true⟩),
          ["user"]⟩ ∧
    (store JsonText.exact ["user"] SharedData.start (fun _ => ⟨none, true, true⟩)
      "user").content = some Json.null :=
  ⟨(load_without_file JsonText.exact ["user"] SharedData.start (fun _ => ⟨none, true, true⟩)
      (fun _ _ => rfl)).1,
   ((load_without_file JsonText.exact ["user"] SharedData.start (fun _ => ⟨none, true, true⟩)
      (fun _ _ => rfl)).2.1 [] [] "user" rfl (fun _ hx => nomatch hx) rfl).1⟩

/-- C20: the configuration search path is honoured in order. `load()` takes the
document from the first candidate directory whose `settings.json` opens, the
document being what the parser reads from that file, opens no later candidate and
changes no file. `store()` writes the text of the document to the first candidate
directory whose `settings.json` opens for writing and leaves every other settings
file, those of later candidates among them, as it was. -/
theorem search_path_in_order (codec : JsonText Text) (pre post : List String) (dir : String)
    (s : SharedData) (files : FileSystem Text) :
    ((∀ x ∈ pre, openInput files x = none) → ∀ text, openInput files dir = some text →
      load codec (pre ++ dir :: post) s files
        = (codec.parse text).map
            (fun json => ⟨{ s with settingsJson := json }, files, pre ++ [dir]⟩)) ∧
    ((∀ x ∈ pre, (files x).writable = false) → (files dir).writable = true →
      (store codec (pre ++ dir :: post) s files dir).content = some (codec.dump s.settingsJson) ∧
      ∀ other, other ≠ dir → store codec (pre ++ dir :: post) s files other = files other) := by
  refine ⟨fun hpre text hd => load_first_openable codec pre post dir s files text hpre hd,
    fun hpre hw => ?_⟩
  rw [store_first_writable codec pre post dir s files hpre hw]
  exact ⟨by simp [writeFile], fun other hne => by simp [writeFile, hne]⟩

/-- Witness of C20: of the candidates `system`, `user`, `portable` the first has no
settings file and is not writable, the other two hold a file. `load()` reads the
one of `user` and `store()` writes there. -/
theorem search_path_in_order_witness :
    load JsonText.exact ["system", "user", "portable"] SharedData.start
        (fun dir => if dir = "system" then ⟨none, true, false⟩
          else if dir = "user" then ⟨some (.object []), true, true⟩
          else ⟨some (.array []), true, true⟩)
      = .ok ⟨SharedData.loaded (.object []),
          fun dir => if dir = "system" then ⟨none, true, false⟩
            else if dir = "user" then ⟨some (.object []), true, true⟩
            else ⟨some (.array []), true, true⟩, ["system", "user"]⟩ ∧
    (store JsonText.exact ["system", "user", "portable"] SharedData.start
        (fun dir => if dir = "system" then ⟨none, true, false⟩
          else if dir = "user" then ⟨some (.object []), true, true⟩
          else ⟨some (.array []), true, true⟩) "portable").content = some (.array []) :=
  ⟨(search_path_in_order JsonText.exact ["system"] ["portable"] "user" SharedData.start
      (fun dir => if dir = "system" then ⟨none, true, false⟩
        else if dir = "user" then ⟨some (.object []), true, true⟩
        else ⟨some (.array []), true, true⟩)).1
      (fun x hx => by
        rw [List.mem_singleton.mp hx]
        rfl) (.object []) rfl,
   congrArg (fun file => file.content)
    (((search_path_in_order JsonText.exact ["system"] ["portable"] "user" SharedData.start
      (fun dir => if dir = "system" then ⟨none, true, false⟩
        else if dir = "user" then ⟨some (.object []), true, true⟩
        else ⟨some (.array []), true, true⟩)).2
      (fun x hx => by
        rw [List.mem_singleton.mp hx]
        rfl) rfl).2 "portable" (by decide))⟩

end ContentRegistry.Settings


/-! ## The plugin manager: the claims -/

namespace PluginManager

/-- C22: from every state, after `PluginManager::unload()` the collection
`getPlugins()` is empty and every registry table is empty, so that no entry a
plugin registered can be reached: no view is found by name and a dropped file
reaches no file handler. This holds for the state after any `load()` as well. -/
theorem unload_clears (m : PluginManager) (s : SharedData) :
    getPlugins (unload m s).1 = [] ∧
    ContentRegistry.Settings.getEntries (unload m s).2 = [] ∧
    ContentRegistry.CommandPaletteCommands.getEntries (unload m s).2 = [] ∧
    ContentRegistry.PatternLanguage.getFunctions (unload m s).2 = [] ∧
    ContentRegistry.Views.getEntries (unload m s).2 = [] ∧
    ContentRegistry.Tools.getEntries (unload m s).2 = [] ∧
    ContentRegistry.DataInspector.getEntries (unload m s).2 = [] ∧
    ContentRegistry.DataProcessorNode.getEntries (unload m s).2 = [] ∧
    (unload m s).2.languageNames = [] ∧
    ContentRegistry.Interface.getMainMenuItems (unload m s).2 = [] ∧
    ContentRegistry.Interface.getWelcomeScreenEntries (unload m s).2 = [] ∧
    ContentRegistry.Interface.getFooterItems (unload m s).2 = [] ∧
    ContentRegistry.Interface.getToolbarItems (unload m s).2 = [] ∧
    ContentRegistry.Interface.getLayouts (unload m s).2 = [] ∧
    ContentRegistry.Provider.getEntries (unload m s).2 = [] ∧
    ContentRegistry.DataFormatter.getEntries (unload m s).2 = [] ∧
    ContentRegistry.FileHandler.getEntries (unload m s).2 = [] ∧
    (∀ name, (ContentRegistry.Views.getViewByName name (unload m s).2).1 = none) ∧
    (∀ result path, Window.handlersCalled (Window.dropCallback result [path] (unload m s).2)
      = []) ∧
    (∀ pluginFolder candidates,
      getPlugins
        (unload (load pluginFolder candidates m s).2.1 (load pluginFolder candidates m s).2.2).1
        = []) :=
  ⟨rfl, rfl, rfl, rfl, rfl, rfl, rfl, rfl, rfl, rfl, rfl, rfl, rfl, rfl, rfl, rfl, rfl,
    fun _ => rfl, fun _ _ => rfl, fun _ _ => rfl⟩

end PluginManager

/-! ## Pasting, searching and highlighting in the hex editor: evaluations -/

namespace ViewHexEditor

/-- C23: `pasteBytes` never changes the data provider: its last statement, under the
comment `Write bytes`, calls `provider->read`, so for every provider, selection and
clipboard the provider is the same afterwards. With the clipboard `AB CD`, a
three-byte provider of zeros and the selection 0..1, the provider still holds zeros
and the decoded bytes 0xAB 0xCD of the local buffer have been overwritten by the
zeros read. -/
theorem pasteBytes_reads_instead_of_writing :
    (∀ (p : Provider) (dataPreviewAddr dataPreviewAddrEnd : Nat) (clipboard : String),
      (pasteBytes p dataPreviewAddr dataPreviewAddrEnd clipboard).1 = p) ∧
    pasteParse "AB CD" = some [171, 205] ∧
    pasteBytes ⟨[0, 0, 0], 0, 0⟩ 0 1 "AB CD" = (⟨[0, 0, 0], 0, 0⟩, some [0, 0]) ∧
    (pasteBytes ⟨[0, 0, 0], 0, 0⟩ 0 1 "AB CD").1.read 0 2 [9, 9] = [0, 0] := by
  refine ⟨?_, by decide, by decide, by decide⟩
  intro p a b clipboard
  unfold pasteBytes
  cases pasteParse clipboard <;> rfl

set_option maxRecDepth 100000 in
/-- C26: `findString` misses an occurrence that starts inside a failed partial match:
the pattern `ab` (bytes 97 98) occurs at offset 1 of the data `aab` (bytes 97 97 98),
and the result is empty, whether `char` is signed or not. After the mismatch at
offset 1 the counter is reset and the mismatching byte is not compared with the
first character again. -/
theorem findString_misses_occurrence_after_partial_match :
    findString true ⟨[97, 97, 98], 0, 0⟩ [97, 98] = [] ∧
    findString false ⟨[97, 97, 98], 0, 0⟩ [97, 98] = [] ∧
    ([97, 97, 98].drop 1).take 2 = [97, 98] := by
  decide

/-- C30: the highlight callback reads the value of an empty optional: with one
bookmark covering offset 0 only, one pattern with a child at offset 0 only, and the
byte offset 1, `prevColor` holds a value and `currColor` does not; the second loop
over the patterns tests `prevColor.has_value()` and then evaluates
`currColor.value()`, which throws `std::bad_optional_access`. -/
theorem highlightFn_reads_empty_currColor (blend : Nat → Nat → Nat) (alpha : Nat) (next : Bool) :
    highlightFn blend [⟨0, 1, "", "", 255, false⟩]
      [fun off => if off = 0 then some 7 else none] alpha 0 0 1 next
      = .error .bad_optional_access := by
  rfl

end ViewHexEditor

/-! ## Copy and paste of hex text -/

namespace ViewHexEditor

set_option maxRecDepth 100000 in
theorem hexDigit_isxdigit : ∀ n, n < 16 →
    isxdigit (hexDigit n) = true ∧ isspace (hexDigit n) = false := by
  decide

set_option maxRecDepth 100000 in
theorem pasteDigit_hexDigit : ∀ x, x < 256 →
    pasteDigit (pasteDigit 0 (hexDigit (x / 16 % 16))) (hexDigit (x % 16)) = x := by
  decide

theorem formatBytes_valid (b : List Nat) :
    ∀ c ∈ formatBytes b, (!(!isxdigit c && !isspace c)) = true := by
  induction b with
  | nil => intro c hc; simp [formatBytes] at hc
  | cons x rest ih =>
      intro c hc
      simp only [formatBytes, formatByte, List.cons_append, List.nil_append, List.mem_cons] at hc
      rcases hc with rfl | rfl | rfl | hc
      · simp [(hexDigit_isxdigit (x / 16 % 16) (Nat.mod_lt _ (by decide))).1]
      · simp [(hexDigit_isxdigit (x % 16) (Nat.mod_lt _ (by decide))).1]
      · decide
      · exact ih c hc

theorem filter_formatBytes (b : List Nat) :
    (formatBytes b).filter (fun c => !isspace c)
      = b.flatMap (fun x => [hexDigit (x / 16 % 16), hexDigit (x % 16)]) := by
  induction b with
  | nil => rfl
  | cons x rest ih =>
      have h1 := (hexDigit_isxdigit (x / 16 % 16) (Nat.mod_lt _ (by decide))).2
      have h2 := (hexDigit_isxdigit (x % 16) (Nat.mod_lt _ (by decide))).2
      have h3 : isspace ' ' = true := by decide
      simp only [formatBytes, formatByte, List.cons_append, List.nil_append, List.flatMap_cons]
      rw [List.filter_cons_of_pos (by simp [h1]), List.filter_cons_of_pos (by simp [h2]),
        List.filter_cons_of_neg (by simp [h3]), ih]

theorem pasteDecode_hexDigits (b : List Nat) (hb : ∀ x ∈ b, x < 256) :
    pasteDecode (b.flatMap (fun x => [hexDigit (x / 16 % 16), hexDigit (x % 16)])) = b := by
  induction b with
  | nil => rfl
  | cons x rest ih =>
      rw [List.flatMap_cons]
      show pasteDigit (pasteDigit 0 (hexDigit (x / 16 % 16))) (hexDigit (x % 16))
        :: pasteDecode (rest.flatMap (fun x => [hexDigit (x / 16 % 16), hexDigit (x % 16)])) = _
      rw [pasteDigit_hexDigit x (hb x (List.mem_cons_self _ _)),
        ih (fun y hy => hb y (List.mem_cons_of_mem _ hy))]

theorem length_hexDigits (b : List Nat) :
    (b.flatMap (fun x => [hexDigit (x / 16 % 16), hexDigit (x % 16)])).length = 2 * b.length := by
  induction b with
  | nil => rfl
  | cons x rest ih => simp only [List.flatMap_cons, List.length_append, List.length_cons,
      List.length_nil, ih]; omega

theorem formatBytes_dropLast (b : List Nat) (hne : b ≠ []) :
    (formatBytes b).dropLast ++ [' '] = formatBytes b := by
  induction b with
  | nil => exact absurd rfl hne
  | cons x rest ih =>
      cases rest with
      | nil => rfl
      | cons y rest =>
          have h := ih (by simp)
          have hc : formatBytes (y :: rest) ≠ [] := by simp [formatBytes, formatByte]
          show (formatByte x ++ formatBytes (y :: rest)).dropLast ++ [' ']
            = formatByte x ++ formatBytes (y :: rest)
          rw [List.dropLast_append_of_ne_nil _ hc, List.append_assoc, h]

theorem pasteParse_formatBytes (b : List Nat) (hne : b ≠ []) (hb : ∀ x ∈ b, x < 256) :
    pasteParse ⟨(formatBytes b).dropLast⟩ = some b := by
  have hvalid : (formatBytes b).dropLast.all (fun c => !(!isxdigit c && !isspace c)) = true := by
    rw [List.all_eq_true]
    intro c hc
    exact formatBytes_valid b c (List.dropLast_subset _ hc)
  have hfilter : (formatBytes b).dropLast.filter (fun c => !isspace c)
      = b.flatMap (fun x => [hexDigit (x / 16 % 16), hexDigit (x % 16)]) := by
    rw [← filter_formatBytes b]
    conv_rhs => rw [← formatBytes_dropLast b hne]
    rw [List.filter_append]
    have h3 : isspace ' ' = true := by decide
    simp [h3]
  unfold pasteParse
  simp only [hvalid, hfilter, length_hexDigits, pasteDecode_hexDigits b hb]
  simp

theorem read_length (p : Provider) (address : Nat) (buffer : List Nat) :
    (p.read address buffer.length buffer).length = buffer.length := by
  unfold Provider.read
  dsimp only
  split
  · rename_i h
    simp only [List.length_append, List.length_take, List.length_drop]
    omega
  · rfl

theorem read_mem (p : Provider) (address size : Nat) (buffer : List Nat) :
    ∀ x ∈ p.read address size buffer, x ∈ p.bytes ∨ x ∈ buffer := by
  intro x hx
  unfold Provider.read at hx
  dsimp only at hx
  split at hx
  · rcases List.mem_append.1 hx with h | h
    · exact Or.inl (List.mem_of_mem_drop (List.mem_of_mem_take h))
    · exact Or.inr (List.mem_of_mem_drop h)
  · exact Or.inr hx

/-- C27: the hex text of `copyBytes` is read back exactly by the parser of
`pasteBytes`: for every non-empty sequence `b` of bytes, the text of two upper-case
hex digits per byte separated by single spaces, without the trailing space, passes
the validity check and the whole-byte check and decodes to `b`; so the clipboard
text that `copyBytes` produces for a selection decodes to the buffer that was
copied, whose length is the length of the selection. -/
theorem paste_parses_copied_text (b : List Nat) (hne : b ≠ []) (hb : ∀ x ∈ b, x < 256) :
    pasteParse ⟨(formatBytes b).dropLast⟩ = some b ∧
    (∀ (q : Provider) (dataPreviewAddr dataPreviewAddrEnd : Nat),
      (q.bytes = b →
        ∃ buffer : List Nat,
          buffer.length
            = max dataPreviewAddr dataPreviewAddrEnd - min dataPreviewAddr dataPreviewAddrEnd + 1 ∧
          buffer = q.read (min dataPreviewAddr dataPreviewAddrEnd + q.getBaseAddress
              + q.getCurrentPageAddress)
            (max dataPreviewAddr dataPreviewAddrEnd - min dataPreviewAddr dataPreviewAddrEnd + 1)
            (List.replicate
              (max dataPreviewAddr dataPreviewAddrEnd - min dataPreviewAddr dataPreviewAddrEnd + 1)
              0) ∧
          pasteParse (copyBytes q dataPreviewAddr dataPreviewAddrEnd) = some buffer)) := by
  refine ⟨pasteParse_formatBytes b hne hb, ?_⟩
  intro q a e hq
  have hlen := read_length q (min a e + q.getBaseAddress + q.getCurrentPageAddress)
    (List.replicate (max a e - min a e + 1) 0)
  rw [List.length_replicate] at hlen
  refine ⟨_, hlen, rfl, ?_⟩
  unfold copyBytes
  simp only [List.length_replicate]
  apply pasteParse_formatBytes
  · intro h
    rw [h] at hlen
    simp at hlen
  · intro x hx
    rcases read_mem _ _ _ _ x hx with h | h
    · exact hb x (hq ▸ h)
    · rw [List.eq_of_mem_replicate h]; decide

/-- C27, at the bytes 01 AB FF 10 of a provider and the selection 0..2. -/
theorem paste_parses_copied_text_witness :
    ([1, 171, 255, 16] : List Nat) ≠ [] ∧ (∀ x ∈ ([1, 171, 255, 16] : List Nat), x < 256) ∧
    copyBytes ⟨[1, 171, 255, 16], 0, 0⟩ 2 0 = "01 AB FF" ∧
    pasteParse "01 AB FF 10" = some [1, 171, 255, 16] ∧
    pasteParse (copyBytes ⟨[1, 171, 255, 16], 0, 0⟩ 2 0) = some [1, 171, 255] :=
  ⟨by decide, by decide, by decide,
    (paste_parses_copied_text [1, 171, 255, 16] (by decide) (by decide)).1,
    by decide⟩

end ViewHexEditor

/-! ## The function key is unambiguous -/

namespace ContentRegistry.PatternLanguage

theorem getFunctionName_cons (scope : String) (ns : List String) (name : String) :
    getFunctionName (scope :: ns) name = scope ++ "::" ++ getFunctionName ns name := by
  simp only [getFunctionName, List.foldl_cons]
  rw [foldl_scopes]
  simp [String.append_assoc]

theorem getFunctionName_data_cons (scope : String) (ns : List String) (name : String) :
    (getFunctionName (scope :: ns) name).data
      = scope.data ++ ':' :: ':' :: (getFunctionName ns name).data := by
  rw [getFunctionName_cons]
  simp [String.data_append]

theorem getFunctionName_nil (name : String) : getFunctionName [] name = name := by
  simp [getFunctionName]

theorem append_cons_cancel {α : Type} (c : α) :
    ∀ (a b x y : List α), c ∉ a → c ∉ b → a ++ c :: x = b ++ c :: y → a = b ∧ x = y
  | [], [], _, _, _, _, h => ⟨rfl, by simpa using h⟩
  | [], d :: b, _, _, _, hb, h => by
      simp only [List.nil_append, List.cons_append, List.cons.injEq] at h
      exact absurd (h.1 ▸ List.mem_cons_self _ _) hb
  | d :: a, [], _, _, ha, _, h => by
      simp only [List.nil_append, List.cons_append, List.cons.injEq] at h
      exact absurd (h.1 ▸ List.mem_cons_self _ _) ha
  | d :: a, e :: b, x, y, ha, hb, h => by
      simp only [List.cons_append, List.cons.injEq] at h
      have ih := append_cons_cancel c a b x y (fun m => ha (List.mem_cons_of_mem _ m))
        (fun m => hb (List.mem_cons_of_mem _ m)) h.2
      exact ⟨by rw [h.1, ih.1], ih.2⟩

theorem getFunctionName_inj :
    ∀ (ns1 ns2 : List String) (name1 name2 : String),
      (∀ scope ∈ ns1, ':' ∉ scope.data) → (∀ scope ∈ ns2, ':' ∉ scope.data) →
      ':' ∉ name1.data → ':' ∉ name2.data →
      getFunctionName ns1 name1 = getFunctionName ns2 name2 → ns1 = ns2 ∧ name1 = name2
  | [], [], name1, name2, _, _, _, _, h => by
      rw [getFunctionName_nil, getFunctionName_nil] at h
      exact ⟨rfl, h⟩
  | [], scope :: ns2, name1, name2, _, _, hn1, _, h => by
      have hd := congrArg String.data h
      rw [getFunctionName_nil, getFunctionName_data_cons] at hd
      exact absurd (hd ▸ List.mem_append_right _ (List.mem_cons_self _ _)) hn1
  | scope :: ns1, [], name1, name2, _, _, _, hn2, h => by
      have hd := congrArg String.data h
      rw [getFunctionName_nil, getFunctionName_data_cons] at hd
      exact absurd (hd ▸ List.mem_append_right _ (List.mem_cons_self _ _)) hn2
  | scope1 :: ns1, scope2 :: ns2, name1, name2, h1, h2, hn1, hn2, h => by
      have hd := congrArg String.data h
      rw [getFunctionName_data_cons, getFunctionName_data_cons] at hd
      have hc := append_cons_cancel ':' _ _ _ _ (h1 scope1 (List.mem_cons_self _ _))
        (h2 scope2 (List.mem_cons_self _ _)) hd
      have hrest : getFunctionName ns1 name1 = getFunctionName ns2 name2 :=
        String.ext (List.cons.inj hc.2).2
      have ih := getFunctionName_inj ns1 ns2 name1 name2
        (fun s hs => h1 s (List.mem_cons_of_mem _ hs))
        (fun s hs => h2 s (List.mem_cons_of_mem _ hs)) hn1 hn2 hrest
      exact ⟨by rw [String.ext hc.1, ih.1], ih.2⟩

/-- C28: the namespaced function key is unambiguous: when no scope segment and no
name contains the character `:`, equal keys `getFunctionName(ns1, name1)` and
`getFunctionName(ns2, name2)` come from equal namespaces and equal names; so two
functions that differ in namespace or name have different keys, and registering the
second one leaves the table entry of the first as it was. -/
theorem getFunctionName_unambiguous (ns1 ns2 : List String) (name1 name2 : String)
    (h1 : ∀ scope ∈ ns1, ':' ∉ scope.data) (h2 : ∀ scope ∈ ns2, ':' ∉ scope.data)
    (hn1 : ':' ∉ name1.data) (hn2 : ':' ∉ name2.data) :
    (getFunctionName ns1 name1 = getFunctionName ns2 name2 → ns1 = ns2 ∧ name1 = name2) ∧
    ((ns1, name1) ≠ (ns2, name2) →
      getFunctionName ns1 name1 ≠ getFunctionName ns2 name2 ∧
      ∀ (n1 n2 : Nat) (f1 f2 : Callback) (s : SharedData),
        StdMap.find (getFunctions (addFunction ns2 name2 n2 f2 (addFunction ns1 name1 n1 f1 s)))
            (getFunctionName ns1 name1) = some ⟨n1, f1, false⟩ ∧
        StdMap.find (getFunctions (addFunction ns2 name2 n2 f2 (addFunction ns1 name1 n1 f1 s)))
            (getFunctionName ns2 name2) = some ⟨n2, f2, false⟩) := by
  have hinj := getFunctionName_inj ns1 ns2 name1 name2 h1 h2 hn1 hn2
  refine ⟨hinj, fun hne => ?_⟩
  have hkey : getFunctionName ns1 name1 ≠ getFunctionName ns2 name2 := by
    intro h
    obtain ⟨ha, hb⟩ := hinj h
    exact hne (by rw [ha, hb])
  refine ⟨hkey, fun n1 n2 f1 f2 s => ⟨?_, StdMap.find_assign_self _ _ _⟩⟩
  show StdMap.find (StdMap.assign _ (getFunctionName ns2 name2) _) (getFunctionName ns1 name1) = _
  rw [StdMap.find_assign_ne _ _ _ _ hkey]
  exact StdMap.find_assign_self _ _ _

/-- C28, at `std::mem` / `read` and `std` / `mem`: the keys `std::mem::read` and
`std::mem` differ and both functions are in the table. -/
theorem getFunctionName_unambiguous_witness :
    getFunctionName ["std", "mem"] "read" ≠ getFunctionName ["std"] "mem" ∧
    ∀ (n1 n2 : Nat) (f1 f2 : Callback) (s : SharedData),
      StdMap.find (getFunctions (addFunction ["std"] "mem" n2 f2
          (addFunction ["std", "mem"] "read" n1 f1 s)))
          (getFunctionName ["std", "mem"] "read") = some ⟨n1, f1, false⟩ ∧
      StdMap.find (getFunctions (addFunction ["std"] "mem" n2 f2
          (addFunction ["std", "mem"] "read" n1 f1 s)))
          (getFunctionName ["std"] "mem") = some ⟨n2, f2, false⟩ :=
  (getFunctionName_unambiguous ["std", "mem"] ["std"] "read" "mem" (by decide) (by decide)
    (by decide) (by decide)).2 (by decide)

end ContentRegistry.PatternLanguage

/-! ## The list of recent files -/

namespace Window

theorem recentExists_foldl (equals : String → String → Bool) (file : String)
    (uniques : List String) (found : Bool) :
    uniques.foldl (fun found unique => if equals file unique then true else found) found
      = (found || uniques.any (fun unique => equals file unique)) := by
  induction uniques generalizing found with
  | nil => simp
  | cons u rest ih =>
      simp only [List.foldl_cons, ih, List.any_cons]
      cases equals file u <;> cases found <;> simp

theorem recentExists_eq (equals : String → String → Bool) (file : String)
    (uniques : List String) :
    recentExists equals file uniques = uniques.any (fun unique => equals file unique) := by
  unfold recentExists
  rw [recentExists_foldl]
  simp

theorem recentKept_cons (equals : String → String → Bool) (earlier : List String)
    (file : String) (rest : List String) :
    recentKept equals earlier (file :: rest)
      = (if decide (file = "")
            || earlier.any (fun other => !decide (other = "") && equals file other)
          then [] else [file]) ++ recentKept equals (earlier ++ [file]) rest := by
  rw [recentKept]
  split <;> rfl

theorem recentKept_append (equals : String → String → Bool) :
    ∀ (l earlier r : List String),
      recentKept equals earlier (l ++ r)
        = recentKept equals earlier l ++ recentKept equals (earlier ++ l) r
  | [], earlier, r => by simp [recentKept]
  | x :: l, earlier, r => by
      rw [List.cons_append, recentKept_cons, recentKept_cons,
        recentKept_append equals l (earlier ++ [x]) r, List.append_assoc, List.append_assoc]
      rfl

theorem mem_recentKept (equals : String → String → Bool) :
    ∀ (l earlier : List String) (u : String), u ∈ recentKept equals earlier l →
      u ∈ l ∧ u ≠ "" ∧ ∀ other ∈ earlier, other ≠ "" → equals u other = false
  | [], _, u, h => by simp [recentKept] at h
  | x :: l, earlier, u, h => by
      rw [recentKept_cons] at h
      rcases List.mem_append.1 h with h | h
      · by_cases hd : (decide (x = "")
            || earlier.any (fun other => !decide (other = "") && equals x other)) = true
        · rw [if_pos hd] at h
          exact absurd h (List.not_mem_nil _)
        · rw [if_neg hd, List.mem_singleton] at h
          subst h
          rw [Bool.or_eq_true, not_or] at hd
          refine ⟨List.mem_cons_self _ _, by simpa using hd.1, fun other ho hne => ?_⟩
          have h2 := hd.2
          rw [List.any_eq_true] at h2
          cases he : equals u other with
          | false => rfl
          | true => exact absurd ⟨other, ho, by simp [hne, he]⟩ h2
      · obtain ⟨h1, h2, h3⟩ := mem_recentKept equals l (earlier ++ [x]) u h
        exact ⟨List.mem_cons_of_mem _ h1, h2,
          fun other ho hne => h3 other (List.mem_append_left _ ho) hne⟩

theorem recentKept_sublist (equals : String → String → Bool) :
    ∀ (l earlier : List String), (recentKept equals earlier l).Sublist l
  | [], _ => by simp [recentKept]
  | x :: l, earlier => by
      rw [recentKept_cons]
      split
      · exact List.Sublist.cons _ (recentKept_sublist equals l _)
      · exact List.Sublist.cons₂ _ (recentKept_sublist equals l _)

theorem recentKept_pairwise (equals : String → String → Bool) :
    ∀ (l earlier : List String),
      (recentKept equals earlier l).Pairwise (fun a b => equals b a = false)
  | [], _ => by simp [recentKept]
  | x :: l, earlier => by
      rw [recentKept_cons]
      by_cases hd : (decide (x = "")
          || earlier.any (fun other => !decide (other = "") && equals x other)) = true
      · rw [if_pos hd]
        exact recentKept_pairwise equals l _
      · rw [if_neg hd]
        rw [Bool.or_eq_true, not_or] at hd
        have hx : x ≠ "" := by simpa using hd.1
        refine List.Pairwise.cons (fun b hb => ?_) (recentKept_pairwise equals l _)
        exact (mem_recentKept equals l _ b hb).2.2 x
          (List.mem_append_right _ (List.mem_singleton.2 rfl)) hx

theorem recentKept_complete (equals : String → String → Bool)
    (hrefl : ∀ a, equals a a = true)
    (htrans : ∀ a b c, equals a b = true → equals b c = true → equals a c = true) :
    ∀ (l earlier : List String) (y : String), y ∈ l → y ≠ "" →
      (∃ u ∈ recentKept equals earlier l, equals y u = true) ∨
      (∃ other ∈ earlier, other ≠ "" ∧ equals y other = true)
  | [], _, y, h, _ => absurd h (List.not_mem_nil _)
  | x :: l, earlier, y, h, hy => by
      rw [recentKept_cons]
      by_cases hd : (decide (x = "")
          || earlier.any (fun other => !decide (other = "") && equals x other)) = true
      · rw [if_pos hd, List.nil_append]
        have hdrop : x ≠ "" → ∃ other ∈ earlier, other ≠ "" ∧ equals x other = true := by
          intro hx
          rw [Bool.or_eq_true] at hd
          rcases hd with hd | hd
          · exact absurd (by simpa using hd) hx
          · rw [List.any_eq_true] at hd
            obtain ⟨other, ho, hc⟩ := hd
            rw [Bool.and_eq_true] at hc
            exact ⟨other, ho, by simpa using hc.1, hc.2⟩
        rcases List.mem_cons.1 h with h | h
        · subst h
          exact Or.inr (hdrop hy)
        · rcases recentKept_complete equals hrefl htrans l (earlier ++ [x]) y h hy with
            hl | ⟨other, ho, hne, he⟩
          · exact Or.inl hl
          · rcases List.mem_append.1 ho with ho | ho
            · exact Or.inr ⟨other, ho, hne, he⟩
            · rw [List.mem_singleton] at ho
              subst ho
              obtain ⟨o2, ho2, hne2, he2⟩ := hdrop hne
              exact Or.inr ⟨o2, ho2, hne2, htrans _ _ _ he he2⟩
      · rw [if_neg hd]
        rw [Bool.or_eq_true, not_or] at hd
        have hx : x ≠ "" := by simpa using hd.1
        rcases List.mem_cons.1 h with h | h
        · subst h
          exact Or.inl ⟨y, List.mem_append_left _ (List.mem_singleton.2 rfl), hrefl y⟩
        · rcases recentKept_complete equals hrefl htrans l (earlier ++ [x]) y h hy with
            ⟨u, hu, he⟩ | ⟨other, ho, hne, he⟩
          · exact Or.inl ⟨u, List.mem_append_right _ hu, he⟩
          · rcases List.mem_append.1 ho with ho | ho
            · exact Or.inr ⟨other, ho, hne, he⟩
            · rw [List.mem_singleton] at ho
              subst ho
              exact Or.inl ⟨other, List.mem_append_left _ (List.mem_singleton.2 rfl), he⟩

theorem any_recentKept (equals : String → String → Bool)
    (hrefl : ∀ a, equals a a = true)
    (htrans : ∀ a b c, equals a b = true → equals b c = true → equals a c = true)
    (earlier : List String) (file : String) :
    (recentKept equals [] earlier).any (fun unique => equals file unique)
      = earlier.any (fun other => !decide (other = "") && equals file other) := by
  rw [Bool.eq_iff_iff, List.any_eq_true, List.any_eq_true]
  constructor
  · rintro ⟨u, hu, he⟩
    obtain ⟨h1, h2, _⟩ := mem_recentKept equals earlier [] u hu
    exact ⟨u, h1, by simp [h2, he]⟩
  · rintro ⟨other, ho, hc⟩
    rw [Bool.and_eq_true] at hc
    have hne : other ≠ "" := by simpa using hc.1
    rcases recentKept_complete equals hrefl htrans earlier [] other ho hne with
      ⟨u, hu, he⟩ | ⟨o2, ho2, _⟩
    · exact ⟨u, hu, htrans _ _ _ hc.2 he⟩
    · exact absurd ho2 (List.not_mem_nil _)

theorem recentUniques_eq (equals : String → String → Bool)
    (hrefl : ∀ a, equals a a = true)
    (htrans : ∀ a b c, equals a b = true → equals b c = true → equals a c = true) :
    ∀ (rest earlier : List String), (recentKept equals [] earlier).length ≤ 5 →
      recentUniques equals rest (recentKept equals [] earlier)
        = (recentKept equals [] (earlier ++ rest)).take 6
  | [], earlier, hlen => by
      rw [List.append_nil, recentUniques, List.take_of_length_le (by omega)]
  | file :: rest, earlier, hlen => by
      have hK : recentKept equals [] (earlier ++ [file])
          = recentKept equals [] earlier
            ++ (if decide (file = "")
                  || earlier.any (fun other => !decide (other = "") && equals file other)
                then [] else [file]) := by
        rw [recentKept_append, List.nil_append, recentKept_cons]
        simp [recentKept]
      have hsplit : earlier ++ file :: rest = (earlier ++ [file]) ++ rest := by simp
      rw [recentUniques, recentExists_eq, any_recentKept equals hrefl htrans, hsplit]
      by_cases hd : (decide (file = "")
          || earlier.any (fun other => !decide (other = "") && equals file other)) = true
      · rw [if_pos hd, List.append_nil] at hK
        have hcond : (!earlier.any (fun other => !decide (other = "") && equals file other)
            && !decide (file = "")) = false := by
          rw [Bool.or_eq_true] at hd
          rcases hd with hd | hd <;> simp [hd]
        simp only [hcond, Bool.false_eq_true, if_false]
        rw [if_neg (by omega), ← hK]
        exact recentUniques_eq equals hrefl htrans rest (earlier ++ [file]) (by rw [hK]; exact hlen)
      · rw [if_neg hd] at hK
        have hcond : (!earlier.any (fun other => !decide (other = "") && equals file other)
            && !decide (file = "")) = true := by
          rw [Bool.or_eq_true, not_or] at hd
          simp [hd.1, hd.2]
        simp only [hcond, if_true, StdVector.push_back]
        rw [← hK]
        have hlen' : (recentKept equals [] (earlier ++ [file])).length
            = (recentKept equals [] earlier).length + 1 := by
          rw [hK, List.length_append, List.length_singleton]
        by_cases hfull : (recentKept equals [] (earlier ++ [file])).length > 5
        · rw [if_pos hfull, recentKept_append equals (earlier ++ [file]) [] rest,
            List.take_left' (by omega)]
        · rw [if_neg hfull]
          exact recentUniques_eq equals hrefl htrans rest (earlier ++ [file]) (by omega)

theorem foldl_push_back (acc recent : List String) :
    recent.foldl StdVector.push_back acc = acc ++ recent := by
  induction recent generalizing acc with
  | nil => simp
  | cons r rest ih => simp [List.foldl_cons, ih, StdVector.push_back]

theorem onFileLoaded_list (equals : String → String → Bool)
    (hrefl : ∀ a, equals a a = true)
    (htrans : ∀ a b c, equals a b = true → equals b c = true → equals a c = true)
    (path : String) (recentFilePaths : List String) (s : SharedData) :
    (onFileLoaded equals path recentFilePaths s).1
      = (recentKept equals [] (path :: recentFilePaths)).take 6 := by
  have h := recentUniques_eq equals hrefl htrans (path :: recentFilePaths) []
    (by simp [recentKept])
  simpa [onFileLoaded, recentKept] using h

theorem recentKept_first_six (equals : String → String → Bool)
    (hrefl : ∀ a, equals a a = true)
    (htrans : ∀ a b c, equals a b = true → equals b c = true → equals a c = true)
    (pre post : List String) (file : String) (hfile : file ≠ "")
    (hno : ∀ kept ∈ (recentKept equals [] (pre ++ file :: post)).take 6,
      equals file kept = false) :
    ((recentKept equals [] (pre ++ file :: post)).take 6).length = 6 ∧
    ((recentKept equals [] (pre ++ file :: post)).take 6).Sublist pre := by
  rw [recentKept_append, List.nil_append] at hno ⊢
  by_cases hl : 6 ≤ (recentKept equals [] pre).length
  · rw [List.take_append_of_le_length hl]
    exact ⟨by rw [List.length_take]; omega,
      (List.take_sublist _ _).trans (recentKept_sublist equals pre [])⟩
  · exfalso
    rw [List.take_append_eq_append_take, List.take_of_length_le (by omega)] at hno
    by_cases hd : (decide (file = "")
        || pre.any (fun other => !decide (other = "") && equals file other)) = true
    · rw [Bool.or_eq_true] at hd
      rcases hd with hd | hd
      · exact hfile (by simpa using hd)
      · rw [← any_recentKept equals hrefl htrans, List.any_eq_true] at hd
        obtain ⟨u, hu, he⟩ := hd
        have := hno u (List.mem_append_left _ hu)
        rw [he] at this
        cases this
    · have hmem : file ∈ (recentKept equals pre (file :: post)).take
          (6 - (recentKept equals [] pre).length) := by
        rw [recentKept_cons, if_neg hd]
        obtain ⟨k, hk⟩ : ∃ k, 6 - (recentKept equals [] pre).length = k + 1 :=
          ⟨6 - (recentKept equals [] pre).length - 1, by omega⟩
        rw [hk]
        exact List.mem_cons_self _ _
      have := hno file (List.mem_append_right _ hmem)
      rw [hrefl] at this
      cases this

/-- C29: after the `EventFileLoaded` handler has run for `path` on a list of recent
files, the list is the first six of the paths, `path` in front, that are not empty
and not equal (`==` of `std::filesystem::path`, an equivalence) to a non-empty path
before them. So it holds no two equal paths and no empty path, has at most 6
entries, starts with `path` when `path` is not empty, and keeps the earlier paths
in their previous relative order: a non-empty path of the old list that has no
equal in the new list was reached only after six paths had been kept. The vector
passed to `Settings::write` for `recent_files` is this list, and when the category
of the settings document is usable the entry stored is the array of these paths. -/
theorem onFileLoaded_recent_files (equals : String → String → Bool)
    (hrefl : ∀ a, equals a a = true) (hsymm : ∀ a b, equals a b = equals b a)
    (htrans : ∀ a b c, equals a b = true → equals b c = true → equals a c = true)
    (path : String) (recentFilePaths : List String) (s : SharedData) :
    (onFileLoaded equals path recentFilePaths s).1
      = (recentKept equals [] (path :: recentFilePaths)).take 6 ∧
    (onFileLoaded equals path recentFilePaths s).1.Pairwise
      (fun a b => equals a b = false ∧ equals b a = false) ∧
    (onFileLoaded equals path recentFilePaths s).1.Nodup ∧
    "" ∉ (onFileLoaded equals path recentFilePaths s).1 ∧
    (onFileLoaded equals path recentFilePaths s).1.length ≤ 6 ∧
    (path ≠ "" →
      ∃ t, (onFileLoaded equals path recentFilePaths s).1 = path :: t ∧
        t.Sublist recentFilePaths) ∧
    (onFileLoaded equals path recentFilePaths s).1.Sublist (path :: recentFilePaths) ∧
    (∀ pre file post, path :: recentFilePaths = pre ++ file :: post → file ≠ "" →
      (∀ kept ∈ (onFileLoaded equals path recentFilePaths s).1, equals file kept = false) →
      (onFileLoaded equals path recentFilePaths s).1.length = 6 ∧
        (onFileLoaded equals path recentFilePaths s).1.Sublist pre) ∧
    ((onFileLoaded equals path recentFilePaths s).1.length < 6 →
      ∀ file ∈ recentFilePaths, file ≠ "" →
        ∃ kept ∈ (onFileLoaded equals path recentFilePaths s).1, equals file kept = true) ∧
    (onFileLoaded equals path recentFilePaths s).2.1
      = (onFileLoaded equals path recentFilePaths s).1 ∧
    (onFileLoaded equals path recentFilePaths s).2.2
      = ContentRegistry.Settings.write_vector "hex.builtin.setting.imhex"
          "hex.builtin.setting.imhex.recent_files"
          (onFileLoaded equals path recentFilePaths s).1 s ∧
    (ContentRegistry.Settings.categoryUsable s.settingsJson "hex.builtin.setting.imhex" = true →
      ∃ s', (onFileLoaded equals path recentFilePaths s).2.2 = .ok s' ∧
        s'.settingsJson.entry "hex.builtin.setting.imhex" "hex.builtin.setting.imhex.recent_files"
          = some (Json.of_string_vector (onFileLoaded equals path recentFilePaths s).1)) := by
  have hlist := onFileLoaded_list equals hrefl htrans path recentFilePaths s
  have hvec : (onFileLoaded equals path recentFilePaths s).2.1
      = (onFileLoaded equals path recentFilePaths s).1 := by
    simp [onFileLoaded, foldl_push_back]
  have hwrite : (onFileLoaded equals path recentFilePaths s).2.2
      = ContentRegistry.Settings.write_vector "hex.builtin.setting.imhex"
          "hex.builtin.setting.imhex.recent_files"
          (onFileLoaded equals path recentFilePaths s).1 s := by
    simp [onFileLoaded, foldl_push_back]
  have hsub : ((recentKept equals [] (path :: recentFilePaths)).take 6).Sublist
      (recentKept equals [] (path :: recentFilePaths)) := List.take_sublist _ _
  have hpair : ((recentKept equals [] (path :: recentFilePaths)).take 6).Pairwise
      (fun a b => equals a b = false ∧ equals b a = false) :=
    ((recentKept_pairwise equals (path :: recentFilePaths) []).imp
      (fun {a b} h => ⟨by rw [hsymm]; exact h, h⟩)).sublist hsub
  have hfirst : ∀ pre file post, path :: recentFilePaths = pre ++ file :: post → file ≠ "" →
      (∀ kept ∈ (recentKept equals [] (path :: recentFilePaths)).take 6,
        equals file kept = false) →
      ((recentKept equals [] (path :: recentFilePaths)).take 6).length = 6 ∧
        ((recentKept equals [] (path :: recentFilePaths)).take 6).Sublist pre := by
    intro pre file post hsplit hfile hno
    rw [hsplit] at hno ⊢
    exact recentKept_first_six equals hrefl htrans pre post file hfile hno
  rw [hlist] at hvec hwrite ⊢
  refine ⟨rfl, hpair, ?_, ?_, ?_, ?_, ?_, hfirst, ?_, hvec, hwrite, ?_⟩
  · exact hpair.imp (fun {a b} h e => by
      have := h.1
      rw [e, hrefl] at this
      cases this)
  · intro hm
    exact (mem_recentKept equals _ [] "" (hsub.subset hm)).2.1 rfl
  · rw [List.length_take]
    omega
  · intro hp
    have hcons : recentKept equals [] (path :: recentFilePaths)
        = path :: recentKept equals [path] recentFilePaths := by
      rw [recentKept_cons]
      simp [hp]
    rw [hcons]
    exact ⟨(recentKept equals [path] recentFilePaths).take 5, rfl,
      (List.take_sublist _ _).trans (recentKept_sublist equals _ _)⟩
  · exact hsub.trans (recentKept_sublist equals _ _)
  · intro hlen file hfile hne
    by_contra hnone
    obtain ⟨pre, post, hsplit⟩ := List.append_of_mem (List.mem_cons_of_mem path hfile)
    have h6 := (hfirst pre file post hsplit hne (fun kept hk => by
      cases he : equals file kept with
      | false => rfl
      | true => exact absurd ⟨kept, hk, he⟩ hnone)).1
    omega
  · intro hc
    rw [hwrite]
    exact ContentRegistry.Settings.write_vector_ok s _ _ _ hc

theorem equals_refl (a : String) : StdPath.equals a a = true := by
  simp [StdPath.equals]

theorem equals_symm (a b : String) : StdPath.equals a b = StdPath.equals b a := by
  simp only [StdPath.equals]
  exact decide_eq_decide.2 ⟨fun h => h.symm, fun h => h.symm⟩

theorem equals_trans (a b c : String) (h1 : StdPath.equals a b = true)
    (h2 : StdPath.equals b c = true) : StdPath.equals a c = true := by
  simp only [StdPath.equals, decide_eq_true_eq] at h1 h2 ⊢
  rw [h1, h2]

/-- C29, with the comparison of paths that ignores a repeated separator:
`/tmp//a.bin` loaded on top of `/tmp/a.bin`, an empty path, `b` and `/tmp/a.bin`
again leaves `/tmp//a.bin` and `b`; a path loaded on top of seven others leaves it
and the first five of them; the entry stored is the array of the list. -/
theorem onFileLoaded_recent_files_witness :
    StdPath.equals "/tmp//a.bin" "/tmp/a.bin" = true ∧
    (onFileLoaded StdPath.equals "/tmp//a.bin" ["/tmp/a.bin", "", "b", "/tmp/a.bin"]
        SharedData.start).1 = ["/tmp//a.bin", "b"] ∧
    (onFileLoaded StdPath.equals "z" ["a", "b", "c", "d", "e", "f", "g"] SharedData.start).1
      = ["z", "a", "b", "c", "d", "e"] ∧
    ContentRegistry.Settings.categoryUsable SharedData.start.settingsJson
      "hex.builtin.setting.imhex" = true ∧
    (onFileLoaded StdPath.equals "/tmp//a.bin" ["/tmp/a.bin", "", "b", "/tmp/a.bin"]
        SharedData.start).1
      = (recentKept StdPath.equals [] ["/tmp//a.bin", "/tmp/a.bin", "", "b", "/tmp/a.bin"]).take 6 ∧
    (∃ s', (onFileLoaded StdPath.equals "/tmp//a.bin" ["/tmp/a.bin", "", "b", "/tmp/a.bin"]
        SharedData.start).2.2 = .ok s' ∧
      s'.settingsJson.entry "hex.builtin.setting.imhex" "hex.builtin.setting.imhex.recent_files"
        = some (Json.of_string_vector
            (onFileLoaded StdPath.equals "/tmp//a.bin" ["/tmp/a.bin", "", "b", "/tmp/a.bin"]
              SharedData.start).1)) :=
  ⟨by decide, by decide, by decide, by rfl,
    (onFileLoaded_recent_files StdPath.equals equals_refl equals_symm equals_trans
      "/tmp//a.bin" ["/tmp/a.bin", "", "b", "/tmp/a.bin"] SharedData.start).1,
    (onFileLoaded_recent_files StdPath.equals equals_refl equals_symm equals_trans
      "/tmp//a.bin" ["/tmp/a.bin", "", "b", "/tmp/a.bin"] SharedData.start).2.2.2.2.2.2.2.2.2.2.2
      (by rfl)⟩

end Window

/-! ## A settings write changes the named entry only -/

namespace Json

theorem assign_member_ne (j : Json) (key : String) (w k : Json) (h : j.assign key w = .ok k)
    (other : String) (hne : other ≠ key) : k.member other = j.member other := by
  cases j with
  | null =>
      simp [assign, subscript, writeBack, StdMap.set, bind, Except.bind, pure, Except.pure] at h
      subst h
      have : ¬ key = other := fun e => hne e.symm
      simp [member, StdMap.find, this]
  | object m =>
      cases hk : StdMap.find m key with
      | none =>
          simp [assign, subscript, hk, writeBack, bind, Except.bind, pure, Except.pure] at h
          subst h
          simp [member, StdMap.find_set_ne _ _ _ _ hne, StdMap.find_emplace_ne _ _ _ _ hne]
      | some v =>
          simp [assign, subscript, hk, writeBack, bind, Except.bind, pure, Except.pure] at h
          subst h
          simp [member, StdMap.find_set_ne _ _ _ _ hne]
  | _ => simp [assign, subscript, bind, Except.bind] at h

theorem assign2_frame (j : Json) (c n : String) (w k : Json) (h : j.assign2 c n w = .ok k) :
    (∀ c', c' ≠ c → k.member c' = j.member c') ∧
    (∀ n', n' ≠ n → k.entry c n' = j.entry c n') := by
  cases j with
  | null =>
      simp only [assign2, subscript, bind, Except.bind] at h
      cases hcat : null.assign n w with
      | error e => simp [hcat] at h
      | ok cat' =>
          simp [hcat, writeBack, StdMap.set, pure, Except.pure] at h
          subst h
          refine ⟨fun c' hne => ?_, fun n' hne => ?_⟩
          · have : ¬ c = c' := fun e => hne e.symm
            simp [member, StdMap.find, this]
          · have := assign_member_ne null n w cat' hcat n' hne
            simp [entry, member, StdMap.find] at this ⊢
            exact this
  | object m =>
      cases hc : StdMap.find m c with
      | none =>
          simp only [assign2, subscript, hc, bind, Except.bind] at h
          cases hcat : null.assign n w with
          | error e => simp [hcat] at h
          | ok cat' =>
              simp [hcat, writeBack, pure, Except.pure] at h
              subst h
              refine ⟨fun c' hne => ?_, fun n' hne => ?_⟩
              · simp [member, StdMap.find_set_ne _ _ _ _ hne, StdMap.find_emplace_ne _ _ _ _ hne]
              · have := assign_member_ne null n w cat' hcat n' hne
                simp only [entry, member, hc,
                  StdMap.find_set_self _ c cat' null (StdMap.find_emplace_self m c null hc)]
                simpa [member] using this
      | some cat =>
          simp only [assign2, subscript, hc, bind, Except.bind] at h
          cases hcat : cat.assign n w with
          | error e => simp [hcat] at h
          | ok cat' =>
              simp [hcat, writeBack, pure, Except.pure] at h
              subst h
              refine ⟨fun c' hne => ?_, fun n' hne => ?_⟩
              · simp [member, StdMap.find_set_ne _ _ _ _ hne]
              · have := assign_member_ne cat n w cat' hcat n' hne
                simp only [entry, member, hc, StdMap.find_set_self _ c cat' cat hc]
                exact this
  | _ => simp [assign2, subscript, bind, Except.bind] at h

theorem entry_of_member_eq (j k : Json) (c n : String) (h : k.member c = j.member c) :
    k.entry c n = j.entry c n := by
  simp [entry, h]

end Json

namespace ContentRegistry.Settings

theorem ensureCategory_frame (j : Json) (c : String) (j1 : Json)
    (h : ensureCategory j c = .ok j1) :
    (∀ c', c' ≠ c → j1.member c' = j.member c') ∧ (∀ n, j1.entry c n = j.entry c n) := by
  unfold ensureCategory at h
  cases hcont : j.contains c with
  | true =>
      simp [hcont, pure, Except.pure] at h
      subst h
      exact ⟨fun _ _ => rfl, fun _ => rfl⟩
  | false =>
      simp only [hcont, Bool.not_false, if_true] at h
      refine ⟨fun c' hne => Json.assign_member_ne j c _ j1 h c' hne, fun n => ?_⟩
      have hbefore : j.member c = none := by
        cases j <;> simp [Json.member]
        rename_i m
        simpa [Json.contains, StdMap.contains] using hcont
      have hafter : j1.member c = some Json.object_factory := by
        cases j with
        | null =>
            simp [Json.assign, Json.subscript, Json.writeBack, StdMap.set, bind, Except.bind,
              pure, Except.pure] at h
            subst h
            simp [Json.member, StdMap.find]
        | object m =>
            obtain ⟨m', hassign, hfind⟩ :=
              Json.assign_ok (Json.object m) c Json.object_factory (by simp [Json.is_object])
            rw [hassign] at h
            cases h
            simpa [Json.member] using hfind
        | _ => simp [Json.assign, Json.subscript, bind, Except.bind] at h
      simp only [Json.entry, hbefore, hafter]
      simp [Json.object_factory, Json.member, StdMap.find]

theorem write_frame (j : Json) (c n : String) (w j1 k : Json)
    (h1 : ensureCategory j c = .ok j1) (h2 : j1.assign2 c n w = .ok k) :
    sameExcept j k c n := by
  obtain ⟨hm1, he1⟩ := ensureCategory_frame j c j1 h1
  obtain ⟨hm2, he2⟩ := Json.assign2_frame j1 c n w k h2
  refine ⟨fun c' n' hne => ?_, fun c' hne => (hm2 c' hne).trans (hm1 c' hne)⟩
  by_cases hc : c' = c
  · subst hc
    have hn : n' ≠ n := fun e => hne (by rw [e])
    exact (he2 n' hn).trans (he1 n')
  · exact Json.entry_of_member_eq _ _ c' n' ((hm2 c' hc).trans (hm1 c' hc))

theorem write_cases (j : Json) (c n : String) (w : Json) (s s' : SharedData)
    (hj : s.settingsJson = j)
    (h : (do
      let json ← ensureCategory j c
      let json ← json.assign2 c n w
      (pure { s with settingsJson := json } : Except Failure SharedData)) = .ok s') :
    sameExcept s.settingsJson s'.settingsJson c n ∧
      s' = { s with settingsJson := s'.settingsJson } := by
  cases h1 : ensureCategory j c with
  | error e => simp [h1, bind, Except.bind] at h
  | ok j1 =>
      cases h2 : j1.assign2 c n w with
      | error e => simp [h1, h2, bind, Except.bind] at h
      | ok k =>
          simp [h1, h2, bind, Except.bind, pure, Except.pure] at h
          subst h
          exact ⟨hj ▸ write_frame j c n w j1 k h1 h2, rfl⟩

theorem ensureCategory_throws (j : Json) (c : String)
    (h : (j.is_object || j.is_null) = false) :
    ensureCategory j c = .error (.type_error 305) := by
  cases j <;> simp [Json.is_object, Json.is_null] at h <;>
    simp [ensureCategory, Json.contains, Json.assign, Json.subscript, bind, Except.bind]

/-- C24: `Settings::write` changes the entry it names only. Whenever a `write`
overload returns, every entry `(c', n')` other than `(c, n)` holds the value it held
before, every category other than `c` is as it was (none created, removed or
modified), and no other table changes. On a document that is `null` or an object and
whose category `c` is absent or an object, each overload returns; on a document that
is neither `null` nor an object, `write` throws `type_error` 305 at its first
statement, before anything is changed. -/
theorem write_changes_named_entry_only (s : SharedData) (c n : String) :
    (∀ (value : Int) (s' : SharedData), write_s64 c n value s = .ok s' →
      sameExcept s.settingsJson s'.settingsJson c n ∧
        s' = { s with settingsJson := s'.settingsJson }) ∧
    (∀ (value : String) (s' : SharedData), write_string c n value s = .ok s' →
      sameExcept s.settingsJson s'.settingsJson c n ∧
        s' = { s with settingsJson := s'.settingsJson }) ∧
    (∀ (value : List String) (s' : SharedData), write_vector c n value s = .ok s' →
      sameExcept s.settingsJson s'.settingsJson c n ∧
        s' = { s with settingsJson := s'.settingsJson }) ∧
    (categoryUsable s.settingsJson c = true →
      (∀ value, ∃ s', write_s64 c n value s = .ok s') ∧
      (∀ value, ∃ s', write_string c n value s = .ok s') ∧
      (∀ value, ∃ s', write_vector c n value s = .ok s')) ∧
    ((s.settingsJson.is_object || s.settingsJson.is_null) = false →
      ensureCategory s.settingsJson c = .error (.type_error 305) ∧
      (∀ value, write_s64 c n value s = .error (.type_error 305)) ∧
      (∀ value, write_string c n value s = .error (.type_error 305)) ∧
      (∀ value, write_vector c n value s = .error (.type_error 305))) := by
  refine ⟨fun value s' h => write_cases s.settingsJson c n _ s s' rfl h,
    fun value s' h => write_cases s.settingsJson c n _ s s' rfl h,
    fun value s' h => write_cases s.settingsJson c n _ s s' rfl h,
    fun hc => ⟨fun value => ?_, fun value => ?_, fun value => ?_⟩,
    fun hj => ?_⟩
  · obtain ⟨s', h, _⟩ := write_s64_ok s c n value hc
    exact ⟨s', h⟩
  · obtain ⟨s', h, _⟩ := write_string_ok s c n value hc
    exact ⟨s', h⟩
  · obtain ⟨s', h, _⟩ := write_vector_ok s c n value hc
    exact ⟨s', h⟩
  · have h := ensureCategory_throws s.settingsJson c hj
    exact ⟨h, fun value => by simp [write_s64, getSettingsData, h, bind, Except.bind],
      fun value => by simp [write_string, getSettingsData, h, bind, Except.bind],
      fun value => by simp [write_vector, getSettingsData, h, bind, Except.bind]⟩

/-- C24, at the document with the categories `a` (an object holding `x`) and `b` (a
string): `write("a", "y", 5)` returns, adds `y` to `a` and leaves `x` and `b` as
they were; and on a document that is a string, `write` throws. -/
theorem write_changes_named_entry_only_witness :
    categoryUsable (SharedData.loaded (.object [("a", .object [("x", .number_integer 1)]),
      ("b", .string "t")])).settingsJson "a" = true ∧
    write_s64 "a" "y" 5 (SharedData.loaded (.object [("a", .object [("x", .number_integer 1)]),
        ("b", .string "t")]))
      = .ok (SharedData.loaded (.object [("a", .object [("x", .number_integer 1),
          ("y", .number_integer 5)]), ("b", .string "t")])) ∧
    sameExcept (.object [("a", .object [("x", .number_integer 1)]), ("b", .string "t")])
      (.object [("a", .object [("x", .number_integer 1), ("y", .number_integer 5)]),
        ("b", .string "t")]) "a" "y" ∧
    write_s64 "a" "y" 5 (SharedData.loaded (.string "t")) = .error (.type_error 305) :=
  ⟨rfl, rfl,
    ((write_changes_named_entry_only (SharedData.loaded (.object [("a", .object
        [("x", .number_integer 1)]), ("b", .string "t")])) "a" "y").1 5
      (SharedData.loaded (.object [("a", .object [("x", .number_integer 1),
          ("y", .number_integer 5)]), ("b", .string "t")])) rfl).1,
    ((write_changes_named_entry_only (SharedData.loaded (.string "t")) "a" "y").2.2.2.2
      rfl).2.1 5⟩

end ContentRegistry.Settings

/-! ## The string search reports occurrences only -/

namespace ViewHexEditor

theorem charEquals_eq (signedChar : Bool) (byte ch : Nat) (hch : ch < 256)
    (h : charEquals signedChar byte ch = true) : byte = ch := by
  unfold charEquals at h
  by_cases hs : (signedChar && decide (128 ≤ ch)) = true
  · simp only [hs, if_true, decide_eq_true_eq] at h
    omega
  · simp only [hs, decide_eq_true_eq] at h
    simp at h
    omega

theorem toU64_sub (a b : Nat) (hb : b ≤ a + 1) (ha : a + 1 - b < 2 ^ 64) :
    toU64 ((a : Int) - (b : Int) + 1) = a + 1 - b := by
  unfold toU64
  have e : (a : Int) - (b : Int) + 1 = ((a + 1 - b : Nat) : Int) := by omega
  rw [e]
  have h2 : ((a + 1 - b : Nat) : Int) % 2 ^ 64 = ((a + 1 - b : Nat) : Int) :=
    Int.emod_eq_of_lt (Int.ofNat_nonneg _) (by exact_mod_cast ha)
  rw [h2, Int.toNat_ofNat]

theorem visit_invariant (signedChar : Bool) (data string : List Nat)
    (hch : ∀ ch ∈ string, ch < 256) (hlen : string.length < 2 ^ 32)
    (hsize : data.length < 2 ^ 64) (offset i : Nat) (buffer : List Nat) (st : Search)
    (hpos : offset + i < data.length)
    (hbuf : buffer.getD i 0 = data.getD (offset + i) 0)
    (hinv : findString.Invariant data string (offset + i) st) :
    findString.Invariant data string (offset + i + 1)
      (findString.visit signedChar string offset buffer st i) := by
  obtain ⟨ha, hb, hc, hd, he⟩ := hinv
  unfold findString.visit
  by_cases hm : charEquals signedChar (buffer.getD i 0)
      (string.getD st.foundCharacters 0) = true
  · have hmem : string.getD st.foundCharacters 0 ∈ string := by
      rw [List.getD_eq_getElem _ _ ha]
      exact List.getElem_mem _
    have hbyte := charEquals_eq _ _ _ (hch _ hmem) hm
    rw [hbuf] at hbyte
    have hget : data[offset + i]? = string[st.foundCharacters]? := by
      rw [List.getElem?_eq_getElem hpos, List.getElem?_eq_getElem ha]
      rw [List.getD_eq_getElem _ _ hpos, List.getD_eq_getElem _ _ ha] at hbyte
      rw [hbyte]
    have hmod : (st.foundCharacters + 1) % 2 ^ 32 = st.foundCharacters + 1 :=
      Nat.mod_eq_of_lt (by omega)
    simp only [hm, if_true, hmod]
    by_cases hfull : st.foundCharacters + 1 = string.length
    · simp only [hfull, if_true]
      have hfirst : toU64 (((offset + i : Nat) : Int) - ((string.length : Nat) : Int) + 1)
          = offset + i + 1 - string.length :=
        toU64_sub _ _ (by omega) (by omega)
      rw [hfirst]
      have hgen : findString.Genuine data string
          (offset + i + 1 - string.length, offset + i) := by
        refine ⟨by show offset + i + 1 - string.length + string.length = offset + i + 1; omega,
          hpos, fun j hj => ?_⟩
        show data[offset + i + 1 - string.length + j]? = string[j]?
        by_cases hjf : j < st.foundCharacters
        · have := hc j hjf
          have e : offset + i + 1 - string.length + j = offset + i - st.foundCharacters + j := by
            omega
          rw [e]
          exact this
        · have e1 : j = st.foundCharacters := by omega
          have e : offset + i + 1 - string.length + j = offset + i := by omega
          rw [e, e1]
          exact hget
      refine ⟨by show 0 < string.length; omega, Nat.zero_le _,
        fun j hj => absurd hj (Nat.not_lt_zero _), ?_, ?_⟩
      · intro r hr
        rcases List.mem_append.1 hr with hr | hr
        · have := hd r hr
          exact ⟨this.1, by show r.2 + 0 < offset + i + 1; omega⟩
        · rw [List.mem_singleton] at hr
          subst hr
          exact ⟨hgen, by show offset + i + 0 < offset + i + 1; omega⟩
      · show (st.results ++ [(offset + i + 1 - string.length, offset + i)]).Pairwise _
        rw [List.pairwise_append]
        refine ⟨he, List.pairwise_singleton _ _, fun a ha' b hb' => ?_⟩
        rw [List.mem_singleton] at hb'
        subst hb'
        have := (hd a ha').2
        show a.2 < offset + i + 1 - string.length
        omega
    · simp only [hfull, if_false]
      refine ⟨by show st.foundCharacters + 1 < string.length; omega,
        by show st.foundCharacters + 1 ≤ offset + i + 1; omega, fun j hj => ?_, ?_, he⟩
      · show data[offset + i + 1 - (st.foundCharacters + 1) + j]? = string[j]?
        by_cases hjf : j < st.foundCharacters
        · have := hc j hjf
          have e : offset + i + 1 - (st.foundCharacters + 1) + j
              = offset + i - st.foundCharacters + j := by omega
          rw [e]
          exact this
        · have hj' : j < st.foundCharacters + 1 := hj
          have e1 : j = st.foundCharacters := by omega
          have e : offset + i + 1 - (st.foundCharacters + 1) + j = offset + i := by omega
          rw [e, e1]
          exact hget
      · intro r hr
        have := hd r hr
        exact ⟨this.1, by show r.2 + (st.foundCharacters + 1) < offset + i + 1; omega⟩
  · have hz : (0 : Nat) ≠ string.length := by omega
    have hm' : charEquals signedChar (buffer.getD i 0)
        (string.getD st.foundCharacters 0) = false := by simpa using hm
    simp only [hm', Bool.false_eq_true, if_false, hz]
    refine ⟨by show 0 < string.length; omega, Nat.zero_le _,
      fun j hj => absurd hj (Nat.not_lt_zero _), ?_, he⟩
    intro r hr
    have := hd r hr
    exact ⟨this.1, by show r.2 + 0 < offset + i + 1; omega⟩

end ViewHexEditor

namespace ViewHexEditor

theorem read_at (p : Provider) (offset used : Nat) (buffer : List Nat)
    (h : offset + used ≤ p.bytes.length) :
    p.read (offset + p.getBaseAddress + p.getCurrentPageAddress) used buffer
      = (p.bytes.drop offset).take used ++ buffer.drop used := by
  unfold Provider.read Provider.getBaseAddress Provider.getCurrentPageAddress
  dsimp only
  have e : offset + p.baseAddress + p.currentPageAddress
      - (p.baseAddress + p.currentPageAddress) = offset := by omega
  rw [e, if_pos ⟨by omega, h⟩]

theorem read_at_getD (p : Provider) (offset used : Nat) (buffer : List Nat)
    (h : offset + used ≤ p.bytes.length) (i : Nat) (hi : i < used) :
    (p.read (offset + p.getBaseAddress + p.getCurrentPageAddress) used buffer).getD i 0
      = p.bytes.getD (offset + i) 0 := by
  rw [read_at p offset used buffer h]
  have hl : i < ((p.bytes.drop offset).take used).length := by
    rw [List.length_take, List.length_drop]
    omega
  rw [List.getD_eq_getElem?_getD, List.getD_eq_getElem?_getD, List.getElem?_append_left hl,
    List.getElem?_take_of_lt hi, List.getElem?_drop]

theorem read_at_length (p : Provider) (offset used : Nat) (buffer : List Nat)
    (h : offset + used ≤ p.bytes.length) (hu : used ≤ buffer.length) :
    (p.read (offset + p.getBaseAddress + p.getCurrentPageAddress) used buffer).length
      = buffer.length := by
  rw [read_at p offset used buffer h, List.length_append, List.length_take, List.length_drop,
    List.length_drop]
  omega

theorem visit_fold_invariant (signedChar : Bool) (data string : List Nat)
    (hch : ∀ ch ∈ string, ch < 256) (hlen : string.length < 2 ^ 32)
    (hsize : data.length < 2 ^ 64) (offset used : Nat) (buffer : List Nat) (st : Search)
    (hused : offset + used ≤ data.length)
    (hbuf : ∀ i, i < used → buffer.getD i 0 = data.getD (offset + i) 0)
    (hinv : findString.Invariant data string offset st) :
    ∀ m, m ≤ used → findString.Invariant data string (offset + m)
      ((List.range m).foldl (findString.visit signedChar string offset buffer) st) := by
  intro m
  induction m with
  | zero => intro _; simpa using hinv
  | succ m ih =>
      intro hm
      rw [List.range_succ, List.foldl_append]
      simp only [List.foldl_cons, List.foldl_nil]
      exact visit_invariant signedChar data string hch hlen hsize offset m buffer _
        (by omega) (hbuf m (by omega)) (ih (by omega))

theorem chunk_invariant (signedChar : Bool) (p : Provider) (string : List Nat)
    (hch : ∀ ch ∈ string, ch < 256) (hlen : string.length < 2 ^ 32)
    (hsize : p.bytes.length < 2 ^ 64) (k : Nat) (hk : 1024 * k < p.bytes.length)
    (state : List Nat × Search) (hl : state.1.length = 1024)
    (hinv : findString.Invariant p.bytes string (1024 * k) state.2) :
    (findString.chunk signedChar string p state k).1.length = 1024 ∧
    findString.Invariant p.bytes string (min (1024 * (k + 1)) p.bytes.length)
      (findString.chunk signedChar string p state k).2 := by
  unfold findString.chunk
  dsimp only
  have hused : 1024 * k + min state.1.length (p.getSize - 1024 * k) ≤ p.bytes.length := by
    unfold Provider.getSize
    omega
  have hu : min state.1.length (p.getSize - 1024 * k) ≤ state.1.length := Nat.min_le_left _ _
  refine ⟨by rw [read_at_length p _ _ _ hused hu, hl], ?_⟩
  have hpos : min (1024 * (k + 1)) p.bytes.length
      = 1024 * k + min state.1.length (p.getSize - 1024 * k) := by
    unfold Provider.getSize
    omega
  rw [hpos]
  exact visit_fold_invariant signedChar p.bytes string hch hlen hsize (1024 * k) _ _ state.2
    hused (fun i hi => read_at_getD p _ _ _ hused i hi) hinv _ (Nat.le_refl _)

theorem chunks_invariant (signedChar : Bool) (p : Provider) (string : List Nat)
    (hne : string ≠ []) (hch : ∀ ch ∈ string, ch < 256) (hlen : string.length < 2 ^ 32)
    (hsize : p.bytes.length < 2 ^ 64) :
    ∀ m, 1024 * m < p.bytes.length + 1024 →
      ((List.range m).foldl (findString.chunk signedChar string p)
          (List.replicate 1024 0, ⟨0, []⟩)).1.length = 1024 ∧
      findString.Invariant p.bytes string (min (1024 * m) p.bytes.length)
        ((List.range m).foldl (findString.chunk signedChar string p)
          (List.replicate 1024 0, ⟨0, []⟩)).2 := by
  intro m
  induction m with
  | zero =>
      intro _
      rw [List.range_zero, List.foldl_nil]
      refine ⟨List.length_replicate _ _, ?_⟩
      have hpos : 0 < string.length := List.length_pos.2 hne
      exact ⟨hpos, Nat.zero_le _, fun j hj => absurd hj (Nat.not_lt_zero _),
        fun r hr => absurd hr (List.not_mem_nil _), List.Pairwise.nil⟩
  | succ m ih =>
      intro hm
      obtain ⟨hl, hinv⟩ := ih (by omega)
      have hk : 1024 * m < p.bytes.length := by omega
      rw [Nat.min_eq_left (Nat.le_of_lt hk)] at hinv
      rw [List.range_succ, List.foldl_append]
      simp only [List.foldl_cons, List.foldl_nil]
      exact chunk_invariant signedChar p string hch hlen hsize m hk _ hl hinv

theorem visit_long (signedChar : Bool) (string : List Nat) (hlen : 2 ^ 32 ≤ string.length)
    (offset : Nat) (buffer : List Nat) (st : Search) (i : Nat)
    (h : st.results = [] ∧ st.foundCharacters < 2 ^ 32) :
    (findString.visit signedChar string offset buffer st i).results = [] ∧
    (findString.visit signedChar string offset buffer st i).foundCharacters < 2 ^ 32 := by
  unfold findString.visit
  dsimp only
  have hlt : (if charEquals signedChar (buffer.getD i 0) (string.getD st.foundCharacters 0)
      then (st.foundCharacters + 1) % 2 ^ 32 else 0) < 2 ^ 32 := by
    split
    · exact Nat.mod_lt _ (by decide)
    · decide
  have hne : (if charEquals signedChar (buffer.getD i 0) (string.getD st.foundCharacters 0)
      then (st.foundCharacters + 1) % 2 ^ 32 else 0) ≠ string.length := by omega
  rw [if_neg hne]
  exact ⟨h.1, hlt⟩

theorem visit_fold_long (signedChar : Bool) (string : List Nat)
    (hlen : 2 ^ 32 ≤ string.length) (offset : Nat) (buffer : List Nat) :
    ∀ (l : List Nat) (st : Search), (st.results = [] ∧ st.foundCharacters < 2 ^ 32) →
      (l.foldl (findString.visit signedChar string offset buffer) st).results = [] ∧
      (l.foldl (findString.visit signedChar string offset buffer) st).foundCharacters < 2 ^ 32
  | [], _, h => h
  | i :: l, st, h =>
      visit_fold_long signedChar string hlen offset buffer l _
        (visit_long signedChar string hlen offset buffer st i h)

theorem chunks_long (signedChar : Bool) (p : Provider) (string : List Nat)
    (hlen : 2 ^ 32 ≤ string.length) :
    ∀ (l : List Nat) (state : List Nat × Search),
      (state.2.results = [] ∧ state.2.foundCharacters < 2 ^ 32) →
      (l.foldl (findString.chunk signedChar string p) state).2.results = [] ∧
      (l.foldl (findString.chunk signedChar string p) state).2.foundCharacters < 2 ^ 32
  | [], _, h => h
  | _ :: l, state, h =>
      chunks_long signedChar p string hlen l _
        (visit_fold_long signedChar string hlen _ _ _ state.2 h)

theorem genuine_take_drop (data string : List Nat) (r : Nat × Nat)
    (h : findString.Genuine data string r) :
    (data.drop r.1).take string.length = string := by
  apply List.ext_getElem?
  intro j
  by_cases hj : j < string.length
  · rw [List.getElem?_take_of_lt hj, List.getElem?_drop]
    exact h.2.2 j hj
  · rw [List.getElem?_eq_none (by rw [List.length_take]; omega),
      List.getElem?_eq_none (by omega)]

/-- C25: `findString` reports occurrences only. For every non-empty pattern (of
`char` values) and every provider content, each pair `(start, end)` of the result
has `start ≤ end`, `end - start + 1` equal to the pattern length, `end` inside the
data, and the data bytes from `start` on equal to the pattern, wherever the pair
lies relative to the 1024-byte chunks read; of two pairs of the result the earlier
one ends before the later one starts. -/
theorem findString_reports_occurrences (signedChar : Bool) (p : Provider) (string : List Nat)
    (hne : string ≠ []) (hch : ∀ ch ∈ string, ch < 256) (hsize : p.getSize < 2 ^ 64) :
    (∀ r ∈ findString signedChar p string,
      r.1 ≤ r.2 ∧ r.2 - r.1 + 1 = string.length ∧ r.2 < p.getSize ∧
      (p.bytes.drop r.1).take string.length = string) ∧
    (findString signedChar p string).Pairwise (fun a b => a.2 < b.1) := by
  by_cases hlen : string.length < 2 ^ 32
  · have hnum : 1024 * ((p.getSize + 1023) / 1024) < p.bytes.length + 1024 := by
      unfold Provider.getSize
      omega
    obtain ⟨_, _, _, _, hd, he⟩ :=
      chunks_invariant signedChar p string hne hch hlen hsize _ hnum
    refine ⟨fun r hr => ?_, he⟩
    have hg := (hd r hr).1
    have hpos : 0 < string.length := List.length_pos.2 hne
    have h1 := hg.1
    exact ⟨by omega, by omega, hg.2.1, genuine_take_drop p.bytes string r hg⟩
  · have hnil : findString signedChar p string = [] :=
      (chunks_long signedChar p string (Nat.le_of_not_lt hlen) _ _ ⟨rfl, by decide⟩).1
    rw [hnil]
    exact ⟨fun r hr => absurd hr (List.not_mem_nil _), List.Pairwise.nil⟩

set_option maxRecDepth 100000 in
/-- C25, at the pattern `ab` in the data `ababcab`: the three occurrences at 0, 2
and 5 are reported, each of length 2. -/
theorem findString_reports_occurrences_witness :
    ([97, 98] : List Nat) ≠ [] ∧ (∀ ch ∈ ([97, 98] : List Nat), ch < 256) ∧
    Provider.getSize ⟨[97, 98, 97, 98, 99, 97, 98], 0, 0⟩ < 2 ^ 64 ∧
    findString true ⟨[97, 98, 97, 98, 99, 97, 98], 0, 0⟩ [97, 98] = [(0, 1), (2, 3), (5, 6)] ∧
    (∀ r ∈ findString true ⟨[97, 98, 97, 98, 99, 97, 98], 0, 0⟩ [97, 98],
      r.1 ≤ r.2 ∧ r.2 - r.1 + 1 = 2 ∧ r.2 < 7 ∧
      (([97, 98, 97, 98, 99, 97, 98] : List Nat).drop r.1).take 2 = [97, 98]) :=
  ⟨by decide, by decide, by decide, by decide,
    (findString_reports_occurrences true ⟨[97, 98, 97, 98, 99, 97, 98], 0, 0⟩ [97, 98]
      (by decide) (by decide) (by decide)).1⟩

end ViewHexEditor

end hex
